import Mathlib

/-!
Shallow embedding of the chess rules engine of the `ajedrez` repository
(`src/model/`): the board (`Tablero`), threat detection and check-safety
simulation (`ValidadorMovimiento`), move execution (`EjecutorMovimiento`),
position history (`GestorDelHistorico`) and material evaluation
(`EvaluadorEstadoDeJuego`).

Conventions of the embedding:
* Squares are pairs `(fila, columna) : Int × Int`; the playable board is
  `0 ≤ fila ≤ 7` and `0 ≤ columna ≤ 7` (`esPosicionValida`).
* The 8×8 grid `casillas` is a function `Fin 8 → Fin 8 → Option Pieza`.
  `getPieza` validates the position exactly as the Python method does;
  `setPieza` is only ever called on valid positions in the source and is
  embedded as the pointwise update that is the identity off the board.
* Each `Pieza` carries `color`, `tipo`, its mirrored square `posicion`
  and the `se_ha_movido` flag, exactly the attributes the engine reads.
  Python mutates these attributes in place; the embedding instead stores
  the updated piece value in the grid cell.
* The stateful helpers (`ValidadorMovimiento`, `EjecutorMovimiento`,
  `GestorDelHistorico`) all act on the one shared board, so their state
  (the position-occurrence table of the history manager, the counters,
  the turn flag) is carried in the `Tablero` structure and the methods
  become functions `Tablero → ...`.
-/

-- ============================================================
-- Colours, piece kinds, pieces
-- ============================================================

inductive Color : Type
  | blanco
  | negro
  deriving DecidableEq, Repr

/-- `'negro' if color_jugador == 'blanco' else 'blanco'`. -/
def Color.opuesto : Color → Color
  | .blanco => .negro
  | .negro => .blanco

/-- The closed set of piece classes `Peon/Caballo/Alfil/Torre/Reina/Rey`
(`model/piezas/`). -/
inductive TipoPieza : Type
  | peon
  | caballo
  | alfil
  | torre
  | reina
  | rey
  deriving DecidableEq, Repr

/-- A piece as the engine sees it: colour, class, the mirrored board
square `posicion`, and the `se_ha_movido` flag. -/
structure Pieza : Type where
  color : Color
  tipo : TipoPieza
  posicion : Int × Int
  se_ha_movido : Bool
  deriving DecidableEq, Repr

/-- Pawn movement direction: `1 if pieza.color == 'blanco' else -1`. -/
def direccion : Color → Int
  | .blanco => 1
  | .negro => -1

-- ============================================================
-- Game-state enumerations (Tablero.estado_juego / motivo_tablas)
-- ============================================================

inductive EstadoJuego : Type
  | en_curso
  | jaque
  | jaque_mate
  | tablas
  deriving DecidableEq, Repr

inductive MotivoTablas : Type
  | ahogado
  | material_insuficiente
  | repeticion
  | regla_50_movimientos
  deriving DecidableEq, Repr

/-- `Tablero.derechosEnroque`: the per-colour, per-flank castling-rights
table (`corto` = kingside, `largo` = queenside). -/
structure DerechosEnroque : Type where
  blancoCorto : Bool
  blancoLargo : Bool
  negroCorto : Bool
  negroLargo : Bool
  deriving DecidableEq, Repr

-- ============================================================
-- The board aggregate
-- ============================================================

/-- The `Tablero` aggregate together with the state of its helpers
(`GestorDelHistorico.historial_posiciones` appears as the field
`historial_posiciones`; the occurrence table is an association list with
the `defaultdict(int)` reading: a missing key counts as `0`). -/
structure Tablero : Type where
  casillas : Fin 8 → Fin 8 → Option Pieza
  piezasCapturadas : List Pieza
  derechosEnroque : DerechosEnroque
  objetivoPeonAlPaso : Option (Int × Int)
  turno_blanco : Bool
  contadorRegla50Movimientos : Nat
  contadorPly : Nat
  numero_movimiento : Nat
  ultimo_movimiento : Option ((Int × Int) × (Int × Int))
  historial_movimientos : List (Color × (Int × Int) × (Int × Int))
  historial_posiciones : List (String × Nat)
  estado_juego : EstadoJuego
  motivo_tablas : Option MotivoTablas

instance : DecidableEq (Fin 8 → Fin 8 → Option Pieza) :=
  fun f g => Fintype.decidablePiFintype f g

instance Tablero.instDecidableEq : DecidableEq Tablero := by
  intro a b
  cases a
  cases b
  rw [Tablero.mk.injEq]
  exact inferInstance

/-- The colour whose turn it is, read off the `turno_blanco` flag. -/
def turnoColor (t : Tablero) : Color :=
  if t.turno_blanco then .blanco else .negro

/-- `Tablero.esPosicionValida`: both coordinates within `0..7`. -/
def esPosicionValida (p : Int × Int) : Bool :=
  0 ≤ p.1 && p.1 ≤ 7 && 0 ≤ p.2 && p.2 ≤ 7

/-- Index conversion for grid access; on the valid range `0..7` this is
just `Int.toNat`. -/
def aFin (n : Int) : Fin 8 :=
  ⟨n.toNat % 8, Nat.mod_lt _ (by decide)⟩

/-- `Tablero.getPieza`: the piece at a position, `none` for invalid
positions. -/
def getPieza (t : Tablero) (p : Int × Int) : Option Pieza :=
  if esPosicionValida p then t.casillas (aFin p.1) (aFin p.2) else none

/-- `Tablero.setPieza`: write a cell of the grid.  The source performs an
unchecked list assignment and is only called on valid positions; the
embedding is the pointwise update (identity off the board). -/
def setPieza (t : Tablero) (p : Int × Int) (x : Option Pieza) : Tablero :=
  { t with casillas := fun i j => if p.1 = (i : Int) ∧ p.2 = (j : Int) then x else t.casillas i j }

-- ============================================================
-- Basic lemmas about the grid
-- ============================================================

theorem esPosicionValida_iff {p : Int × Int} :
    esPosicionValida p = true ↔ 0 ≤ p.1 ∧ p.1 ≤ 7 ∧ 0 ≤ p.2 ∧ p.2 ≤ 7 := by
  simp [esPosicionValida, and_assoc]

theorem aFin_coe {n : Int} (h0 : 0 ≤ n) (h7 : n ≤ 7) : ((aFin n : Fin 8) : Int) = n := by
  simp only [aFin]
  omega

theorem aFin_eq_iff {n : Int} {i : Fin 8} (h0 : 0 ≤ n) (h7 : n ≤ 7) :
    aFin n = i ↔ n = (i : Int) := by
  constructor
  · intro h
    rw [← aFin_coe h0 h7, h]
  · intro h
    subst h
    apply Fin.ext
    simp only [aFin]
    omega

theorem getPieza_eq_casillas {t : Tablero} {p : Int × Int} (hv : esPosicionValida p = true)
    {i j : Fin 8} (hi : p.1 = (i : Int)) (hj : p.2 = (j : Int)) :
    getPieza t p = t.casillas i j := by
  rw [esPosicionValida_iff] at hv
  rw [getPieza, if_pos]
  · rw [(aFin_eq_iff hv.1 hv.2.1).2 hi, (aFin_eq_iff hv.2.2.1 hv.2.2.2).2 hj]
  · rw [esPosicionValida_iff]
    exact hv

theorem esPosicionValida_of_getPieza_eq_some {t : Tablero} {p : Int × Int} {x : Pieza}
    (h : getPieza t p = some x) : esPosicionValida p = true := by
  by_contra hc
  rw [getPieza, if_neg hc] at h
  exact Option.noConfusion h

theorem setPieza_casillas (t : Tablero) (p : Int × Int) (x : Option Pieza) (i j : Fin 8) :
    (setPieza t p x).casillas i j =
      if p.1 = (i : Int) ∧ p.2 = (j : Int) then x else t.casillas i j := rfl

theorem getPieza_setPieza_self {t : Tablero} {p : Int × Int} (hv : esPosicionValida p = true)
    (x : Option Pieza) : getPieza (setPieza t p x) p = x := by
  rw [esPosicionValida_iff] at hv
  obtain ⟨h1, h2, h3, h4⟩ := hv
  have hv' : esPosicionValida p = true := by rw [esPosicionValida_iff]; exact ⟨h1, h2, h3, h4⟩
  rw [getPieza, if_pos hv', setPieza_casillas, if_pos]
  exact ⟨(aFin_coe h1 h2).symm, (aFin_coe h3 h4).symm⟩

theorem getPieza_setPieza_ne {t : Tablero} {p q : Int × Int} (hne : p ≠ q)
    (x : Option Pieza) : getPieza (setPieza t p x) q = getPieza t q := by
  by_cases hv : esPosicionValida q = true
  · rw [esPosicionValida_iff] at hv
    obtain ⟨h1, h2, h3, h4⟩ := hv
    have hv' : esPosicionValida q = true := by rw [esPosicionValida_iff]; exact ⟨h1, h2, h3, h4⟩
    rw [getPieza, if_pos hv', getPieza, if_pos hv', setPieza_casillas, if_neg]
    intro ⟨ha, hb⟩
    rw [aFin_coe h1 h2] at ha
    rw [aFin_coe h3 h4] at hb
    exact hne (Prod.ext ha hb)
  · rw [getPieza, if_neg hv, getPieza, if_neg hv]

/-- Writing back the value a valid cell already holds leaves the board
unchanged. -/
theorem setPieza_getPieza_self {t : Tablero} {p : Int × Int}
    (hv : esPosicionValida p = true) : setPieza t p (getPieza t p) = t := by
  rw [esPosicionValida_iff] at hv
  obtain ⟨h1, h2, h3, h4⟩ := hv
  have hv' : esPosicionValida p = true := by rw [esPosicionValida_iff]; exact ⟨h1, h2, h3, h4⟩
  show Tablero.mk _ _ _ _ _ _ _ _ _ _ _ _ _ = t
  cases t
  simp only [setPieza, Tablero.mk.injEq, and_true, true_and]
  funext i j
  split
  · next h =>
    rw [getPieza, if_pos hv', (aFin_eq_iff h1 h2).2 h.1, (aFin_eq_iff h3 h4).2 h.2]
  · rfl

theorem setPieza_setPieza_self (t : Tablero) (p : Int × Int) (x y : Option Pieza) :
    setPieza (setPieza t p x) p y = setPieza t p y := by
  simp only [setPieza]
  congr 1
  funext i j
  split <;> rfl

-- ============================================================
-- Threat detection: ValidadorMovimiento.esCasillaAmenazada
-- ============================================================

/-- The `while (check_f, check_c) != posicion` walk of
`esCasillaAmenazada`: starting one step beyond the attacker, advance by
`paso` until the target square is reached (path clear), a square off the
board is hit, or an occupied square blocks the ray.  The loop of the
source terminates in at most 8 iterations whenever it is entered (the
attacker square is on the board and `on_line` holds); the embedding makes
that explicit with a fuel argument that the callers instantiate at 16. -/
def caminoLibre (t : Tablero) (objetivo : Int × Int) (paso : Int × Int) :
    Nat → Int × Int → Bool
  | 0, _ => false
  | fuel + 1, actual =>
    if actual = objetivo then true
    else if ¬ esPosicionValida actual then false
    else if (getPieza t actual).isSome then false
    else caminoLibre t objetivo paso fuel (actual.1 + paso.1, actual.2 + paso.2)

/-- The step computation of the rank/file branch:
`0 if d == 0 else (1 if d > 0 else -1)`. -/
def pasoCodigo (d : Int) : Int :=
  if d = 0 then 0 else if d > 0 then 1 else -1

/-- The step computation of the diagonal branch: `1 if d > 0 else -1`. -/
def pasoDiagonalCodigo (d : Int) : Int :=
  if d > 0 then 1 else -1

/-- The sliding-piece branch of `esCasillaAmenazada`: axis test
(`on_line`), step computation, and the blocking walk. -/
def amenazaDeslizante (t : Tablero) (pieza : Pieza) (posicion : Int × Int) : Bool :=
  if (pieza.tipo = .torre ∨ pieza.tipo = .reina) ∧
      (posicion.1 - pieza.posicion.1 = 0 ∨ posicion.2 - pieza.posicion.2 = 0) ∧
      (posicion.1 - pieza.posicion.1 ≠ 0 ∨ posicion.2 - pieza.posicion.2 ≠ 0) then
    caminoLibre t posicion
      (pasoCodigo (posicion.1 - pieza.posicion.1), pasoCodigo (posicion.2 - pieza.posicion.2)) 16
      (pieza.posicion.1 + pasoCodigo (posicion.1 - pieza.posicion.1),
        pieza.posicion.2 + pasoCodigo (posicion.2 - pieza.posicion.2))
  else if (pieza.tipo = .alfil ∨ pieza.tipo = .reina) ∧
      |posicion.1 - pieza.posicion.1| = |posicion.2 - pieza.posicion.2| ∧
      posicion.1 - pieza.posicion.1 ≠ 0 then
    caminoLibre t posicion
      (pasoDiagonalCodigo (posicion.1 - pieza.posicion.1),
        pasoDiagonalCodigo (posicion.2 - pieza.posicion.2)) 16
      (pieza.posicion.1 + pasoDiagonalCodigo (posicion.1 - pieza.posicion.1),
        pieza.posicion.2 + pasoDiagonalCodigo (posicion.2 - pieza.posicion.2))
  else
    false

/-- The per-piece threat test of `esCasillaAmenazada` (the body of the
scan over the grid): pawns threaten the two forward diagonals, knights
and kings their fixed offsets, sliding pieces their blocked rays. -/
def amenazaDePieza (t : Tablero) (pieza : Pieza) (posicion : Int × Int) : Bool :=
  match pieza.tipo with
  | .peon =>
    decide (posicion.1 = pieza.posicion.1 + direccion pieza.color ∧
      (posicion.2 = pieza.posicion.2 + 1 ∨ posicion.2 = pieza.posicion.2 - 1))
  | .caballo =>
    decide ((|posicion.1 - pieza.posicion.1| = 1 ∧ |posicion.2 - pieza.posicion.2| = 2) ∨
      (|posicion.1 - pieza.posicion.1| = 2 ∧ |posicion.2 - pieza.posicion.2| = 1))
  | .rey =>
    decide (|posicion.1 - pieza.posicion.1| ≤ 1 ∧ |posicion.2 - pieza.posicion.2| ≤ 1 ∧
      posicion ≠ (pieza.posicion.1, pieza.posicion.2))
  | _ => amenazaDeslizante t pieza posicion

/-- `ValidadorMovimiento.esCasillaAmenazada` (identical to
`Tablero.esCasillaAmenazada`): scan every square; a piece of the
attacking colour found there is tested with its own threat rule; the
first hit returns `True`. -/
def esCasillaAmenazada (t : Tablero) (posicion : Int × Int) (color_atacante : Color) : Bool :=
  if ¬ esPosicionValida posicion then false
  else
    (List.range 8).any fun r =>
      (List.range 8).any fun c =>
        match getPieza t ((r : Int), (c : Int)) with
        | none => false
        | some pieza =>
          if pieza.color ≠ color_atacante then false
          else amenazaDePieza t pieza posicion

-- ============================================================
-- King search: Tablero.encontrarRey (also the inline scan of
-- simular_y_verificar_seguridad, which walks the same row-major order
-- and stops at the first match)
-- ============================================================

/-- First cell of a row-major scan whose piece satisfies the test. -/
def buscarCasilla (t : Tablero) (test : Pieza → Bool) : Option (Int × Int) :=
  ((List.range 8).flatMap fun r => (List.range 8).map fun c => (Int.ofNat r, Int.ofNat c)).find?
    fun p => match getPieza t p with
      | some pieza => test pieza
      | none => false

/-- `Tablero.encontrarRey`: position of the first king of the colour in
row-major order (`None` when absent). -/
def encontrarRey (t : Tablero) (color : Color) : Option (Int × Int) :=
  buscarCasilla t fun pieza => pieza.tipo = .rey ∧ pieza.color = color

-- ============================================================
-- Ray geometry: the squares strictly between two aligned squares
-- ============================================================

/-- Unit step from `a` towards `b` on one axis (the sign the source
computes as `0 if d == 0 else (1 if d > 0 else -1)`). -/
def pasoHacia (a b : Int) : Int :=
  if a = b then 0 else if b > a then 1 else -1

/-- The chain of `d` squares starting one step after `q` in direction
`s`. -/
def segmento (q : Int × Int) (s : Int × Int) : Nat → List (Int × Int)
  | 0 => []
  | d + 1 => (q.1 + s.1, q.2 + s.2) :: segmento (q.1 + s.1, q.2 + s.2) s d

/-- Chebyshev distance between two squares. -/
def distEntre (q r : Int × Int) : Nat :=
  max (r.1 - q.1).natAbs (r.2 - q.2).natAbs

/-- The squares strictly between `q` and `r` along the straight or
diagonal line from `q` to `r`. -/
def casillasEntre (q r : Int × Int) : List (Int × Int) :=
  segmento q (pasoHacia q.1 r.1, pasoHacia q.2 r.2) (distEntre q r - 1)

/-- Same row or same column, distinct squares. -/
def enLineaRecta (q r : Int × Int) : Prop :=
  (r.1 - q.1 = 0 ∨ r.2 - q.2 = 0) ∧ (r.1 - q.1 ≠ 0 ∨ r.2 - q.2 ≠ 0)

/-- Same diagonal, distinct squares. -/
def enDiagonal (q r : Int × Int) : Prop :=
  |r.1 - q.1| = |r.2 - q.2| ∧ r.1 - q.1 ≠ 0

instance (q r : Int × Int) : Decidable (enLineaRecta q r) := by
  unfold enLineaRecta
  infer_instance

instance (q r : Int × Int) : Decidable (enDiagonal q r) := by
  unfold enDiagonal
  infer_instance

/-- Every square on every path from the board is empty strictly between
`q` and `r`. -/
def entreLibre (t : Tablero) (q r : Int × Int) : Prop :=
  ∀ p ∈ casillasEntre q r, getPieza t p = none

theorem mem_segmento {s : Int × Int} :
    ∀ {d : Nat} {q p : Int × Int}, p ∈ segmento q s d ↔
      ∃ k : Nat, 1 ≤ k ∧ k ≤ d ∧ p = (q.1 + (k : Int) * s.1, q.2 + (k : Int) * s.2) := by
  intro d
  induction d with
  | zero =>
    intro q p
    simp only [segmento, List.not_mem_nil, false_iff, not_exists]
    intro k
    rintro ⟨hk1, hk0, -⟩
    omega
  | succ d ih =>
    intro q p
    simp only [segmento, List.mem_cons, ih]
    constructor
    · rintro (rfl | ⟨k, hk1, hkd, rfl⟩)
      · exact ⟨1, le_refl _, by omega, by simp⟩
      · refine ⟨k + 1, by omega, by omega, ?_⟩
        simp only [Prod.mk.injEq]
        push_cast
        constructor <;> ring
    · rintro ⟨k, hk1, hkd, rfl⟩
      by_cases hk : k = 1
      · subst hk
        left
        simp
      · right
        refine ⟨k - 1, by omega, by omega, ?_⟩
        simp only [Prod.mk.injEq]
        have hc : ((k - 1 : Nat) : Int) = (k : Int) - 1 := by omega
        rw [hc]
        constructor <;> ring

/-- Intermediate squares of a segment between two valid squares are
valid. -/
theorem segmento_valido {s : Int × Int}
    (hs1 : s.1 = 0 ∨ s.1 = 1 ∨ s.1 = -1) (hs2 : s.2 = 0 ∨ s.2 = 1 ∨ s.2 = -1)
    {d : Nat} {q r : Int × Int}
    (hr1 : r.1 = q.1 + ((d : Int) + 1) * s.1) (hr2 : r.2 = q.2 + ((d : Int) + 1) * s.2)
    (hq : esPosicionValida q = true) (hrv : esPosicionValida r = true) :
    ∀ p ∈ segmento q s d, esPosicionValida p = true := by
  intro p hp
  rw [mem_segmento] at hp
  obtain ⟨k, hk1, hkd, rfl⟩ := hp
  rw [esPosicionValida_iff] at hq hrv ⊢
  obtain ⟨hq1, hq2, hq3, hq4⟩ := hq
  obtain ⟨hr1', hr2', hr3', hr4'⟩ := hrv
  constructor
  · rcases hs1 with h | h | h <;> rw [h] at hr1 ⊢ <;> simp at hr1 ⊢ <;> omega
  refine ⟨?_, ?_, ?_⟩
  · rcases hs1 with h | h | h <;> rw [h] at hr1 ⊢ <;> simp at hr1 ⊢ <;> omega
  · rcases hs2 with h | h | h <;> rw [h] at hr2 ⊢ <;> simp at hr2 ⊢ <;> omega
  · rcases hs2 with h | h | h <;> rw [h] at hr2 ⊢ <;> simp at hr2 ⊢ <;> omega

/-- Correctness of the blocking walk: with enough fuel, the walk from
one step past `q` towards `obj` succeeds exactly when every square
strictly between is empty. -/
theorem caminoLibre_iff_segmento (t : Tablero) {s : Int × Int}
    (hs1 : s.1 = 0 ∨ s.1 = 1 ∨ s.1 = -1) (hs2 : s.2 = 0 ∨ s.2 = 1 ∨ s.2 = -1)
    (hnz : ¬ (s.1 = 0 ∧ s.2 = 0)) :
    ∀ (d : Nat) (q obj : Int × Int),
      obj.1 = q.1 + ((d : Int) + 1) * s.1 → obj.2 = q.2 + ((d : Int) + 1) * s.2 →
      esPosicionValida q = true → esPosicionValida obj = true →
      ∀ n : Nat, d + 1 ≤ n →
      (caminoLibre t obj s n (q.1 + s.1, q.2 + s.2) = true ↔
        ∀ p ∈ segmento q s d, getPieza t p = none) := by
  intro d
  induction d with
  | zero =>
    intro q obj h1 h2 hq hobj n hn
    obtain ⟨m, rfl⟩ : ∃ m, n = m + 1 := ⟨n - 1, by omega⟩
    have heq : ((q.1 + s.1, q.2 + s.2) : Int × Int) = obj := by
      simp only [Prod.ext_iff]
      constructor <;> omega
    simp [caminoLibre, heq, segmento]
  | succ d ih =>
    intro q obj h1 h2 hq hobj n hn
    obtain ⟨m, rfl⟩ : ∃ m, n = m + 1 := ⟨n - 1, by omega⟩
    set a : Int × Int := (q.1 + s.1, q.2 + s.2) with ha
    have hane : a ≠ obj := by
      intro h
      have e1 : q.1 + s.1 = obj.1 := congrArg Prod.fst h
      have e2 : q.2 + s.2 = obj.2 := congrArg Prod.snd h
      rw [h1] at e1
      rw [h2] at e2
      push_cast at e1 e2
      apply hnz
      constructor
      · rcases hs1 with hh | hh | hh
        · exact hh
        · rw [hh] at e1; simp only [mul_one] at e1; omega
        · rw [hh] at e1; simp only [mul_neg_one] at e1; omega
      · rcases hs2 with hh | hh | hh
        · exact hh
        · rw [hh] at e2; simp only [mul_one] at e2; omega
        · rw [hh] at e2; simp only [mul_neg_one] at e2; omega
    have hav : esPosicionValida a = true := by
      refine segmento_valido hs1 hs2 h1 h2 hq hobj a ?_
      rw [mem_segmento]
      exact ⟨1, le_refl _, by omega, by simp [ha]⟩
    rw [caminoLibre, if_neg hane, if_neg (by simp [hav]), segmento]
    by_cases hocc : (getPieza t a).isSome
    · rw [if_pos hocc]
      apply iff_of_false (by simp)
      intro hall
      have := hall a (List.mem_cons_self _ _)
      rw [this] at hocc
      exact Bool.noConfusion hocc
    · rw [if_neg hocc]
      have hanone : getPieza t a = none := by
        cases h : getPieza t a
        · rfl
        · rw [h] at hocc; exact absurd rfl hocc
      have := ih a obj (by rw [h1]; push_cast; ring) (by rw [h2]; push_cast; ring)
        hav hobj m (by omega)
      rw [this]
      constructor
      · intro h p hp
        rcases List.mem_cons.1 hp with rfl | hp'
        · exact hanone
        · exact h p hp'
      · intro h p hp
        exact h p (List.mem_cons_of_mem _ hp)

-- ============================================================
-- Decomposition of aligned squares into step and distance
-- ============================================================

theorem pasoHacia_cases (a b : Int) : pasoHacia a b = 0 ∨ pasoHacia a b = 1 ∨ pasoHacia a b = -1 := by
  unfold pasoHacia
  split_ifs <;> simp

theorem pasoHacia_eq_zero_iff {a b : Int} : pasoHacia a b = 0 ↔ a = b := by
  unfold pasoHacia
  split_ifs with h1 h2 <;> simp [h1]

/-- For squares on a common row, column or diagonal, the target is the
origin displaced `distEntre` unit steps. -/
theorem alineados_decomp {q r : Int × Int}
    (hal : r.1 - q.1 = 0 ∨ r.2 - q.2 = 0 ∨ |r.1 - q.1| = |r.2 - q.2|)
    (hne : ¬ (r.1 - q.1 = 0 ∧ r.2 - q.2 = 0)) :
    r.1 = q.1 + (distEntre q r : Int) * pasoHacia q.1 r.1 ∧
      r.2 = q.2 + (distEntre q r : Int) * pasoHacia q.2 r.2 ∧ 1 ≤ distEntre q r := by
  simp only [Int.abs_eq_natAbs] at hal
  simp only [distEntre, pasoHacia, Nat.max_def]
  split_ifs <;> omega

theorem distEntre_le_siete {q r : Int × Int} (hq : esPosicionValida q = true)
    (hr : esPosicionValida r = true) : distEntre q r ≤ 7 := by
  rw [esPosicionValida_iff] at hq hr
  simp only [distEntre, Nat.max_def]
  split_ifs <;> omega

-- ============================================================
-- The threat rule stated as in the specification (claim C4)
-- ============================================================

/-- The attack rule of the specification, stated square-by-square for a
piece standing on `q`: a pawn attacks its two forward diagonals, a
knight its eight offsets, a king the adjacent squares, and a sliding
piece along its axes with every square strictly between empty.  This is
the specification-side counterpart to be compared with
`esCasillaAmenazada`. -/
def amenazaEspec (t : Tablero) (q : Int × Int) (pieza : Pieza) (pos : Int × Int) : Prop :=
  match pieza.tipo with
  | .peon => pos.1 = q.1 + direccion pieza.color ∧ (pos.2 = q.2 + 1 ∨ pos.2 = q.2 - 1)
  | .caballo =>
    (|pos.1 - q.1| = 1 ∧ |pos.2 - q.2| = 2) ∨ (|pos.1 - q.1| = 2 ∧ |pos.2 - q.2| = 1)
  | .rey => |pos.1 - q.1| ≤ 1 ∧ |pos.2 - q.2| ≤ 1 ∧ pos ≠ q
  | .torre => enLineaRecta q pos ∧ entreLibre t q pos
  | .alfil => enDiagonal q pos ∧ entreLibre t q pos
  | .reina => (enLineaRecta q pos ∨ enDiagonal q pos) ∧ entreLibre t q pos

/-- The walk of the source along the computed step succeeds exactly when
the squares strictly between origin and target are all empty. -/
theorem caminoLibre_iff_entreLibre (t : Tablero) {q pos : Int × Int}
    (hal : pos.1 - q.1 = 0 ∨ pos.2 - q.2 = 0 ∨ |pos.1 - q.1| = |pos.2 - q.2|)
    (hne : ¬ (pos.1 - q.1 = 0 ∧ pos.2 - q.2 = 0))
    (hq : esPosicionValida q = true) (hp : esPosicionValida pos = true) :
    caminoLibre t pos (pasoHacia q.1 pos.1, pasoHacia q.2 pos.2) 16
      (q.1 + pasoHacia q.1 pos.1, q.2 + pasoHacia q.2 pos.2) = true ↔
      entreLibre t q pos := by
  obtain ⟨h1, h2, hd⟩ := alineados_decomp hal hne
  have hdist := distEntre_le_siete hq hp
  have hcast : ((distEntre q pos - 1 : Nat) : Int) + 1 = (distEntre q pos : Int) := by omega
  have := caminoLibre_iff_segmento t (s := (pasoHacia q.1 pos.1, pasoHacia q.2 pos.2))
    (pasoHacia_cases _ _) (pasoHacia_cases _ _)
    (by
      rintro ⟨hz1, hz2⟩
      rw [pasoHacia_eq_zero_iff] at hz1 hz2
      exact hne ⟨by omega, by omega⟩)
    (distEntre q pos - 1) q pos
    (by rw [hcast]; exact h1) (by rw [hcast]; exact h2) hq hp 16 (by omega)
  rw [this]
  unfold entreLibre casillasEntre
  exact Iff.rfl

theorem pasoCodigo_eq_pasoHacia (a b : Int) : pasoCodigo (b - a) = pasoHacia a b := by
  unfold pasoCodigo pasoHacia
  split_ifs <;> omega

theorem pasoDiagonalCodigo_eq_pasoHacia {a b : Int} (h : b - a ≠ 0) :
    pasoDiagonalCodigo (b - a) = pasoHacia a b := by
  unfold pasoDiagonalCodigo pasoHacia
  split_ifs <;> omega

theorem amenazaDeslizante_torre (t : Tablero) (pieza : Pieza) (pos : Int × Int)
    (ht : pieza.tipo = .torre)
    (hq : esPosicionValida pieza.posicion = true) (hp : esPosicionValida pos = true) :
    amenazaDeslizante t pieza pos = true ↔
      enLineaRecta pieza.posicion pos ∧ entreLibre t pieza.posicion pos := by
  unfold amenazaDeslizante
  rw [ht]
  by_cases hrecta : enLineaRecta pieza.posicion pos
  · obtain ⟨hax, hnz⟩ := hrecta
    rw [if_pos ⟨Or.inl rfl, hax, hnz⟩, pasoCodigo_eq_pasoHacia, pasoCodigo_eq_pasoHacia]
    rw [caminoLibre_iff_entreLibre t
      (by rcases hax with h | h; exacts [Or.inl h, Or.inr (Or.inl h)])
      (by rintro ⟨h1, h2⟩; rcases hnz with h | h; exacts [h h1, h h2]) hq hp]
    constructor
    · intro h
      exact ⟨⟨hax, hnz⟩, h⟩
    · rintro ⟨-, h⟩
      exact h
  · rw [if_neg (fun h => hrecta ⟨h.2.1, h.2.2⟩)]
    rw [if_neg (by rintro ⟨hfalso | hfalso, -⟩ <;> simp_all)]
    simp only [Bool.false_eq_true, false_iff]
    rintro ⟨h, -⟩
    exact hrecta h

theorem amenazaDeslizante_alfil (t : Tablero) (pieza : Pieza) (pos : Int × Int)
    (ht : pieza.tipo = .alfil)
    (hq : esPosicionValida pieza.posicion = true) (hp : esPosicionValida pos = true) :
    amenazaDeslizante t pieza pos = true ↔
      enDiagonal pieza.posicion pos ∧ entreLibre t pieza.posicion pos := by
  unfold amenazaDeslizante
  rw [ht]
  rw [if_neg (by rintro ⟨hfalso | hfalso, -⟩ <;> simp_all)]
  by_cases hdiag : enDiagonal pieza.posicion pos
  · obtain ⟨hax, hnz⟩ := hdiag
    have hnz2 : pos.2 - pieza.posicion.2 ≠ 0 := by
      simp only [Int.abs_eq_natAbs] at hax
      omega
    rw [if_pos ⟨Or.inl rfl, hax, hnz⟩, pasoDiagonalCodigo_eq_pasoHacia hnz,
      pasoDiagonalCodigo_eq_pasoHacia hnz2]
    rw [caminoLibre_iff_entreLibre t (Or.inr (Or.inr hax))
      (by rintro ⟨h1, -⟩; exact hnz h1) hq hp]
    constructor
    · intro h
      exact ⟨⟨hax, hnz⟩, h⟩
    · rintro ⟨-, h⟩
      exact h
  · rw [if_neg (fun h => hdiag ⟨h.2.1, h.2.2⟩)]
    simp only [Bool.false_eq_true, false_iff]
    rintro ⟨h, -⟩
    exact hdiag h

theorem amenazaDeslizante_reina (t : Tablero) (pieza : Pieza) (pos : Int × Int)
    (ht : pieza.tipo = .reina)
    (hq : esPosicionValida pieza.posicion = true) (hp : esPosicionValida pos = true) :
    amenazaDeslizante t pieza pos = true ↔
      (enLineaRecta pieza.posicion pos ∨ enDiagonal pieza.posicion pos) ∧
        entreLibre t pieza.posicion pos := by
  unfold amenazaDeslizante
  rw [ht]
  by_cases hrecta : enLineaRecta pieza.posicion pos
  · obtain ⟨hax, hnz⟩ := hrecta
    rw [if_pos ⟨Or.inr rfl, hax, hnz⟩, pasoCodigo_eq_pasoHacia, pasoCodigo_eq_pasoHacia]
    rw [caminoLibre_iff_entreLibre t
      (by rcases hax with h | h; exacts [Or.inl h, Or.inr (Or.inl h)])
      (by rintro ⟨h1, h2⟩; rcases hnz with h | h; exacts [h h1, h h2]) hq hp]
    constructor
    · intro h
      exact ⟨Or.inl ⟨hax, hnz⟩, h⟩
    · rintro ⟨-, h⟩
      exact h
  · rw [if_neg (fun h => hrecta ⟨h.2.1, h.2.2⟩)]
    by_cases hdiag : enDiagonal pieza.posicion pos
    · obtain ⟨hax, hnz⟩ := hdiag
      have hnz2 : pos.2 - pieza.posicion.2 ≠ 0 := by
        simp only [Int.abs_eq_natAbs] at hax
        omega
      rw [if_pos ⟨Or.inr rfl, hax, hnz⟩, pasoDiagonalCodigo_eq_pasoHacia hnz,
        pasoDiagonalCodigo_eq_pasoHacia hnz2]
      rw [caminoLibre_iff_entreLibre t (Or.inr (Or.inr hax))
        (by rintro ⟨h1, -⟩; exact hnz h1) hq hp]
      constructor
      · intro h
        exact ⟨Or.inr ⟨hax, hnz⟩, h⟩
      · rintro ⟨-, h⟩
        exact h
    · rw [if_neg (fun h => hdiag ⟨h.2.1, h.2.2⟩)]
      simp only [Bool.false_eq_true, false_iff]
      rintro ⟨h | h, -⟩
      exacts [hrecta h, hdiag h]

/-- The per-piece body of `esCasillaAmenazada` agrees with the attack
rule of the specification for a piece standing on its own recorded
square. -/
theorem amenazaDePieza_iff (t : Tablero) (pieza : Pieza) (pos : Int × Int)
    (hq : esPosicionValida pieza.posicion = true) (hp : esPosicionValida pos = true) :
    amenazaDePieza t pieza pos = true ↔ amenazaEspec t pieza.posicion pieza pos := by
  cases htipo : pieza.tipo with
  | peon =>
    simp only [amenazaDePieza, amenazaEspec, htipo, decide_eq_true_eq]
  | caballo =>
    simp only [amenazaDePieza, amenazaEspec, htipo, decide_eq_true_eq]
  | rey =>
    simp only [amenazaDePieza, amenazaEspec, htipo, decide_eq_true_eq]
  | torre =>
    simp only [amenazaDePieza, amenazaEspec, htipo]
    exact amenazaDeslizante_torre t pieza pos htipo hq hp
  | alfil =>
    simp only [amenazaDePieza, amenazaEspec, htipo]
    exact amenazaDeslizante_alfil t pieza pos htipo hq hp
  | reina =>
    simp only [amenazaDePieza, amenazaEspec, htipo]
    exact amenazaDeslizante_reina t pieza pos htipo hq hp

-- ============================================================
-- Board consistency: every stored piece mirrors its square
-- (the Piece ↔ Board invariant `board[currentSquare] == piece`)
-- ============================================================

/-- The mirror invariant of the data model: the `posicion` attribute of
every piece on the board equals the square it occupies. -/
def consistente (t : Tablero) : Bool :=
  (List.range 8).all fun r =>
    (List.range 8).all fun c =>
      match getPieza t ((r : Int), (c : Int)) with
      | some pieza => decide (pieza.posicion = ((r : Int), (c : Int)))
      | none => true

theorem consistente_getPieza {t : Tablero} {p : Int × Int} {pieza : Pieza}
    (hc : consistente t = true) (h : getPieza t p = some pieza) : pieza.posicion = p := by
  have hv := esPosicionValida_of_getPieza_eq_some h
  rw [esPosicionValida_iff] at hv
  unfold consistente at hc
  rw [List.all_eq_true] at hc
  have h1 := hc p.1.toNat (by rw [List.mem_range]; omega)
  rw [List.all_eq_true] at h1
  have h2 := h1 p.2.toNat (by rw [List.mem_range]; omega)
  have hpp : (((p.1.toNat : Nat) : Int), ((p.2.toNat : Nat) : Int)) = p := by
    apply Prod.ext <;> simp <;> omega
  rw [hpp, h] at h2
  exact of_decide_eq_true h2

/-- `esCasillaAmenazada` decides exactly the existence of an attacker
according to the specification's per-piece rules (general helper). -/
theorem esCasillaAmenazada_iff_espec (t : Tablero) (pos : Int × Int) (atk : Color)
    (hval : esPosicionValida pos = true) (hcons : consistente t = true) :
    esCasillaAmenazada t pos atk = true ↔
      ∃ q pieza, getPieza t q = some pieza ∧ pieza.color = atk ∧ amenazaEspec t q pieza pos := by
  unfold esCasillaAmenazada
  rw [if_neg (by simp [hval])]
  rw [List.any_eq_true]
  constructor
  · rintro ⟨r, hr, hrest⟩
    rw [List.any_eq_true] at hrest
    obtain ⟨c, hcmem, hbody⟩ := hrest
    rw [List.mem_range] at hr hcmem
    cases hg : getPieza t ((r : Int), (c : Int)) with
    | none =>
      rw [hg] at hbody
      exact absurd hbody (by simp)
    | some pieza =>
      rw [hg] at hbody
      have hbody' : (if pieza.color ≠ atk then false else amenazaDePieza t pieza pos) = true :=
        hbody
      have hcolor : pieza.color = atk := by
        by_contra hk
        rw [if_pos hk] at hbody'
        exact Bool.noConfusion hbody'
      rw [if_neg (not_not_intro hcolor)] at hbody'
      have hqpos := consistente_getPieza hcons hg
      have hqval : esPosicionValida pieza.posicion = true := by
        rw [hqpos, esPosicionValida_iff]
        constructor
        · omega
        refine ⟨?_, ?_, ?_⟩ <;> simp <;> omega
      refine ⟨((r : Int), (c : Int)), pieza, hg, hcolor, ?_⟩
      have := (amenazaDePieza_iff t pieza pos hqval hval).1 hbody'
      rwa [hqpos] at this
  · rintro ⟨q, pieza, hg, hcolor, hesp⟩
    have hqv := esPosicionValida_of_getPieza_eq_some hg
    rw [esPosicionValida_iff] at hqv
    have hq' : (((q.1.toNat : Nat) : Int), ((q.2.toNat : Nat) : Int)) = q := by
      apply Prod.ext <;> simp <;> omega
    refine ⟨q.1.toNat, by rw [List.mem_range]; omega, ?_⟩
    rw [List.any_eq_true]
    refine ⟨q.2.toNat, by rw [List.mem_range]; omega, ?_⟩
    rw [hq', hg]
    show (if pieza.color ≠ atk then false else amenazaDePieza t pieza pos) = true
    rw [if_neg (not_not_intro hcolor)]
    have hqpos := consistente_getPieza hcons hg
    apply (amenazaDePieza_iff t pieza pos (by rw [hqpos, esPosicionValida_iff]; exact hqv) hval).2
    rw [hqpos]
    exact hesp

-- ============================================================
-- Castling-rights and en-passant updates
-- ============================================================

/-- The inline castling-rights update of
`ValidadorMovimiento.simular_y_verificar_seguridad` (lines 206-224):
king move revokes both rights of the mover; a rook moving from its
original corner revokes that flank; a rook captured on its original
corner revokes the opponent's flank.  Unlike the executor's version this
code has no early return, so the captured-rook clause also runs when the
king moved. -/
def actualizarDerechosSimulacion (d : DerechosEnroque) (pieza : Pieza)
    (origen : Int × Int) (pieza_capturada : Option Pieza) (destino : Int × Int) :
    DerechosEnroque :=
  let d1 :=
    if pieza.tipo = .rey then
      match pieza.color with
      | .blanco => { d with blancoCorto := false, blancoLargo := false }
      | .negro => { d with negroCorto := false, negroLargo := false }
    else if pieza.tipo = .torre then
      match pieza.color with
      | .blanco =>
        if origen = ((0 : Int), (7 : Int)) then { d with blancoCorto := false }
        else if origen = ((0 : Int), (0 : Int)) then { d with blancoLargo := false }
        else d
      | .negro =>
        if origen = ((7 : Int), (7 : Int)) then { d with negroCorto := false }
        else if origen = ((7 : Int), (0 : Int)) then { d with negroLargo := false }
        else d
    else d
  match pieza_capturada with
  | some capturada =>
    if capturada.tipo = .torre then
      match capturada.color with
      | .blanco =>
        if destino = ((0 : Int), (7 : Int)) then { d1 with blancoCorto := false }
        else if destino = ((0 : Int), (0 : Int)) then { d1 with blancoLargo := false }
        else d1
      | .negro =>
        if destino = ((7 : Int), (7 : Int)) then { d1 with negroCorto := false }
        else if destino = ((7 : Int), (0 : Int)) then { d1 with negroLargo := false }
        else d1
    else d1
  | none => d1

/-- `EjecutorMovimiento._actualizarDerechosEnroque`: same update, but the
king case returns early, skipping the captured-rook clause. -/
def actualizarDerechosEnroqueEjecutor (d : DerechosEnroque) (pieza_movida : Pieza)
    (posOrigen : Int × Int) (pieza_capturada : Option Pieza) (posDestino : Int × Int) :
    DerechosEnroque :=
  if pieza_movida.tipo = .rey then
    match pieza_movida.color with
    | .blanco => { d with blancoCorto := false, blancoLargo := false }
    | .negro => { d with negroCorto := false, negroLargo := false }
  else
    let d1 :=
      if pieza_movida.tipo = .torre then
        match pieza_movida.color with
        | .blanco =>
          if posOrigen = ((0 : Int), (7 : Int)) then { d with blancoCorto := false }
          else if posOrigen = ((0 : Int), (0 : Int)) then { d with blancoLargo := false }
          else d
        | .negro =>
          if posOrigen = ((7 : Int), (7 : Int)) then { d with negroCorto := false }
          else if posOrigen = ((7 : Int), (0 : Int)) then { d with negroLargo := false }
          else d
      else d
    match pieza_capturada with
    | some capturada =>
      if capturada.tipo = .torre then
        match capturada.color with
        | .blanco =>
          if posDestino = ((0 : Int), (7 : Int)) then { d1 with blancoCorto := false }
          else if posDestino = ((0 : Int), (0 : Int)) then { d1 with blancoLargo := false }
          else d1
        | .negro =>
          if posDestino = ((7 : Int), (7 : Int)) then { d1 with negroCorto := false }
          else if posDestino = ((7 : Int), (0 : Int)) then { d1 with negroLargo := false }
          else d1
      else d1
    | none => d1

/-- `EjecutorMovimiento._actualizarPeonAlPaso` (identical to the inline
update of the simulation): the target is the midpoint square after a
two-square pawn advance and `None` otherwise.  `//` of the source is
integer floor division; on the non-negative board coordinates it agrees
with `Int` division used here. -/
def objetivoPeonAlPasoNuevo (pieza : Pieza) (posOrigen posDestino : Int × Int) :
    Option (Int × Int) :=
  if pieza.tipo = .peon ∧ |posOrigen.1 - posDestino.1| = 2 then
    some ((posOrigen.1 + posDestino.1) / 2, posOrigen.2)
  else none

-- ============================================================
-- The check-safety simulation
-- ============================================================

/-- The mutation phase of `simular_y_verificar_seguridad`: remove an
en-passant victim, move the piece (updating its `posicion` and
`se_ha_movido`), then apply the simplified castling-rights and
en-passant updates. -/
def aplicarSimulacion (t : Tablero) (pieza : Pieza) (destino : Int × Int) : Tablero :=
  let origen := pieza.posicion
  let pieza_capturada_temporal := getPieza t destino
  let t1 :=
    if pieza.tipo = .peon ∧ t.objetivoPeonAlPaso = some destino then
      if (getPieza t (origen.1, destino.2)).isSome then
        setPieza t (origen.1, destino.2) none
      else t
    else t
  let t2 := setPieza t1 destino (some { pieza with posicion := destino, se_ha_movido := true })
  let t3 := setPieza t2 origen none
  let t4 := { t3 with derechosEnroque :=
    actualizarDerechosSimulacion t3.derechosEnroque pieza origen pieza_capturada_temporal destino }
  { t4 with objetivoPeonAlPaso := objetivoPeonAlPasoNuevo pieza origen destino }

/-- The restore phase of `simular_y_verificar_seguridad`: put the moved
piece back on its origin with its saved `posicion`/`se_ha_movido`, put
the captured piece (the snapshot `pieza_capturada_temporal`, read from
`t`) back on the destination, restore the en-passant victim when one was
removed, and reassign the saved en-passant target and castling rights.
A captured rook's `se_ha_movido` needs no separate restoration here:
the snapshot value is placed back whole. -/
def restaurarSimulacion (t : Tablero) (pieza : Pieza) (destino : Int × Int)
    (tSim : Tablero) : Tablero :=
  let r1 := setPieza tSim pieza.posicion (some pieza)
  let r2 := setPieza r1 destino (getPieza t destino)
  let pieza_capturada_ep_real :=
    if pieza.tipo = .peon ∧ t.objetivoPeonAlPaso = some destino then
      getPieza t (pieza.posicion.1, destino.2)
    else none
  let r3 :=
    if pieza_capturada_ep_real.isSome then
      setPieza r2 (pieza.posicion.1, destino.2) pieza_capturada_ep_real
    else r2
  { r3 with
    objetivoPeonAlPaso := t.objetivoPeonAlPaso
    derechosEnroque := t.derechosEnroque }

/-- `ValidadorMovimiento.simular_y_verificar_seguridad`: snapshot, apply
the move, locate the mover's king (the inline scan walks the grid in the
same row-major first-match order as `encontrarRey`), test
`esCasillaAmenazada` against the opponent, then restore every touched
field.  Returns the verdict together with the restored board (the
in-place Python mutation becomes explicit state passing). -/
def simular_y_verificar_seguridad (t : Tablero) (pieza : Pieza) (destino : Int × Int) :
    Bool × Tablero :=
  let tSim := aplicarSimulacion t pieza destino
  let es_seguro :=
    match encontrarRey tSim pieza.color with
    | none => false
    | some rey_pos => ! esCasillaAmenazada tSim rey_pos pieza.color.opuesto
  (es_seguro, restaurarSimulacion t pieza destino tSim)

-- ============================================================
-- Restoration: the simulation leaves the board as it was (claim C3)
-- ============================================================

theorem Tablero.ext_campos {a b : Tablero}
    (h1 : a.casillas = b.casillas) (h2 : a.piezasCapturadas = b.piezasCapturadas)
    (h3 : a.derechosEnroque = b.derechosEnroque)
    (h4 : a.objetivoPeonAlPaso = b.objetivoPeonAlPaso)
    (h5 : a.turno_blanco = b.turno_blanco)
    (h6 : a.contadorRegla50Movimientos = b.contadorRegla50Movimientos)
    (h7 : a.contadorPly = b.contadorPly)
    (h8 : a.numero_movimiento = b.numero_movimiento)
    (h9 : a.ultimo_movimiento = b.ultimo_movimiento)
    (h10 : a.historial_movimientos = b.historial_movimientos)
    (h11 : a.historial_posiciones = b.historial_posiciones)
    (h12 : a.estado_juego = b.estado_juego)
    (h13 : a.motivo_tablas = b.motivo_tablas) : a = b := by
  cases a
  cases b
  simp_all

theorem casillas_ext {a b : Tablero}
    (h : ∀ p : Int × Int, esPosicionValida p = true → getPieza a p = getPieza b p) :
    a.casillas = b.casillas := by
  funext i j
  have hi := i.isLt
  have hj := j.isLt
  have hv : esPosicionValida ((i : Int), (j : Int)) = true := by
    rw [esPosicionValida_iff]
    refine ⟨?_, ?_, ?_, ?_⟩ <;> simp <;> omega
  have := h ((i : Int), (j : Int)) hv
  rwa [getPieza_eq_casillas hv rfl rfl, getPieza_eq_casillas hv rfl rfl] at this

/-- `getPieza` only reads the grid, so the simulated application acts on
it as the plain three-write chain. -/
theorem getPieza_aplicarSimulacion (t : Tablero) (pieza : Pieza) (destino p : Int × Int) :
    getPieza (aplicarSimulacion t pieza destino) p =
      getPieza (setPieza (setPieza
        (if pieza.tipo = .peon ∧ t.objetivoPeonAlPaso = some destino then
          if (getPieza t (pieza.posicion.1, destino.2)).isSome then
            setPieza t (pieza.posicion.1, destino.2) none
          else t
        else t)
        destino (some { pieza with posicion := destino, se_ha_movido := true }))
        pieza.posicion none) p := rfl

/-- `getPieza` only reads the grid, so the restore phase acts on it as
the write chain origin, destination, en-passant square. -/
theorem getPieza_restaurarSimulacion (t : Tablero) (pieza : Pieza) (destino : Int × Int)
    (tSim : Tablero) (p : Int × Int) :
    getPieza (restaurarSimulacion t pieza destino tSim) p =
      getPieza (if (if pieza.tipo = .peon ∧ t.objetivoPeonAlPaso = some destino then
            getPieza t (pieza.posicion.1, destino.2) else none).isSome then
          setPieza (setPieza (setPieza tSim pieza.posicion (some pieza)) destino
            (getPieza t destino)) (pieza.posicion.1, destino.2)
            (if pieza.tipo = .peon ∧ t.objetivoPeonAlPaso = some destino then
              getPieza t (pieza.posicion.1, destino.2) else none)
        else setPieza (setPieza tSim pieza.posicion (some pieza)) destino
          (getPieza t destino)) p := rfl

/-- Squares other than origin, destination and (when one was removed)
the en-passant victim are untouched by the simulated application. -/
theorem getPieza_aplicarSimulacion_otro (t : Tablero) (pieza : Pieza) (destino : Int × Int)
    (p : Int × Int) (h1 : p ≠ pieza.posicion) (h2 : p ≠ destino)
    (h3 : pieza.tipo = .peon → t.objetivoPeonAlPaso = some destino →
      (getPieza t (pieza.posicion.1, destino.2)).isSome → p ≠ (pieza.posicion.1, destino.2)) :
    getPieza (aplicarSimulacion t pieza destino) p = getPieza t p := by
  rw [getPieza_aplicarSimulacion,
    getPieza_setPieza_ne (fun h => h1 h.symm), getPieza_setPieza_ne (fun h => h2 h.symm)]
  by_cases hEP : pieza.tipo = .peon ∧ t.objetivoPeonAlPaso = some destino
  · rw [if_pos hEP]
    by_cases hocc : (getPieza t (pieza.posicion.1, destino.2)).isSome
    · rw [if_pos hocc, getPieza_setPieza_ne (fun h => (h3 hEP.1 hEP.2 hocc) h.symm)]
    · rw [if_neg hocc]
  · rw [if_neg hEP]

/-- The simulated application touches only the grid, the castling rights
and the en-passant target. -/
theorem aplicarSimulacion_campos (t : Tablero) (pieza : Pieza) (destino : Int × Int) :
    (aplicarSimulacion t pieza destino).piezasCapturadas = t.piezasCapturadas ∧
    (aplicarSimulacion t pieza destino).turno_blanco = t.turno_blanco ∧
    (aplicarSimulacion t pieza destino).contadorRegla50Movimientos =
      t.contadorRegla50Movimientos ∧
    (aplicarSimulacion t pieza destino).contadorPly = t.contadorPly ∧
    (aplicarSimulacion t pieza destino).numero_movimiento = t.numero_movimiento ∧
    (aplicarSimulacion t pieza destino).ultimo_movimiento = t.ultimo_movimiento ∧
    (aplicarSimulacion t pieza destino).historial_movimientos = t.historial_movimientos ∧
    (aplicarSimulacion t pieza destino).historial_posiciones = t.historial_posiciones ∧
    (aplicarSimulacion t pieza destino).estado_juego = t.estado_juego ∧
    (aplicarSimulacion t pieza destino).motivo_tablas = t.motivo_tablas := by
  refine ⟨?_, ?_, ?_, ?_, ?_, ?_, ?_, ?_, ?_, ?_⟩ <;>
    · simp only [aplicarSimulacion]
      split <;> first | rfl | (split <;> rfl)

/-- The restore phase reinstates the saved en-passant target and rights
and touches nothing else beyond the grid. -/
theorem restaurarSimulacion_campos (t : Tablero) (pieza : Pieza) (destino : Int × Int)
    (tSim : Tablero) :
    (restaurarSimulacion t pieza destino tSim).piezasCapturadas = tSim.piezasCapturadas ∧
    (restaurarSimulacion t pieza destino tSim).derechosEnroque = t.derechosEnroque ∧
    (restaurarSimulacion t pieza destino tSim).objetivoPeonAlPaso = t.objetivoPeonAlPaso ∧
    (restaurarSimulacion t pieza destino tSim).turno_blanco = tSim.turno_blanco ∧
    (restaurarSimulacion t pieza destino tSim).contadorRegla50Movimientos =
      tSim.contadorRegla50Movimientos ∧
    (restaurarSimulacion t pieza destino tSim).contadorPly = tSim.contadorPly ∧
    (restaurarSimulacion t pieza destino tSim).numero_movimiento = tSim.numero_movimiento ∧
    (restaurarSimulacion t pieza destino tSim).ultimo_movimiento = tSim.ultimo_movimiento ∧
    (restaurarSimulacion t pieza destino tSim).historial_movimientos =
      tSim.historial_movimientos ∧
    (restaurarSimulacion t pieza destino tSim).historial_posiciones =
      tSim.historial_posiciones ∧
    (restaurarSimulacion t pieza destino tSim).estado_juego = tSim.estado_juego ∧
    (restaurarSimulacion t pieza destino tSim).motivo_tablas = tSim.motivo_tablas := by
  refine ⟨?_, ?_, ?_, ?_, ?_, ?_, ?_, ?_, ?_, ?_, ?_, ?_⟩ <;>
    · simp only [restaurarSimulacion]
      try split <;> first | rfl | (split <;> rfl)

/-- Claim C3, general form: the simulation hands back the board exactly
as it was, for any piece genuinely on the board and any valid
destination, whatever the verdict. -/
theorem simular_restaura (t : Tablero) (pieza : Pieza) (destino : Int × Int)
    (hdv : esPosicionValida destino = true)
    (hp : getPieza t pieza.posicion = some pieza) :
    (simular_y_verificar_seguridad t pieza destino).2 = t := by
  have hov : esPosicionValida pieza.posicion = true := esPosicionValida_of_getPieza_eq_some hp
  have hev : esPosicionValida (pieza.posicion.1, destino.2) = true := by
    rw [esPosicionValida_iff] at hov hdv ⊢
    exact ⟨hov.1, hov.2.1, hdv.2.2.1, hdv.2.2.2⟩
  have hsnd : (simular_y_verificar_seguridad t pieza destino).2 =
      restaurarSimulacion t pieza destino (aplicarSimulacion t pieza destino) := rfl
  rw [hsnd]
  obtain ⟨a1, a2, a3, a4, a5, a6, a7, a8, a9, a10⟩ := aplicarSimulacion_campos t pieza destino
  obtain ⟨r1, r2, r3, r4, r5, r6, r7, r8, r9, r10, r11, r12⟩ :=
    restaurarSimulacion_campos t pieza destino (aplicarSimulacion t pieza destino)
  refine Tablero.ext_campos ?_ (r1.trans a1) r2 r3 (r4.trans a2) (r5.trans a3) (r6.trans a4)
    (r7.trans a5) (r8.trans a6) (r9.trans a7) (r10.trans a8) (r11.trans a9) (r12.trans a10)
  apply casillas_ext
  intro p hpv
  rw [getPieza_restaurarSimulacion]
  by_cases hEP : pieza.tipo = .peon ∧ t.objetivoPeonAlPaso = some destino
  · rw [if_pos hEP]
    by_cases hocc : (getPieza t (pieza.posicion.1, destino.2)).isSome
    · rw [if_pos hocc]
      by_cases hpe : p = (pieza.posicion.1, destino.2)
      · subst hpe
        rw [getPieza_setPieza_self hev]
      · rw [getPieza_setPieza_ne (fun h => hpe h.symm)]
        by_cases hpd : p = destino
        · subst hpd
          rw [getPieza_setPieza_self hpv]
        · rw [getPieza_setPieza_ne (fun h => hpd h.symm)]
          by_cases hpo : p = pieza.posicion
          · subst hpo
            rw [getPieza_setPieza_self hpv, hp]
          · rw [getPieza_setPieza_ne (fun h => hpo h.symm)]
            exact getPieza_aplicarSimulacion_otro t pieza destino p hpo hpd (fun _ _ _ => hpe)
    · rw [if_neg hocc]
      by_cases hpd : p = destino
      · subst hpd
        rw [getPieza_setPieza_self hpv]
      · rw [getPieza_setPieza_ne (fun h => hpd h.symm)]
        by_cases hpo : p = pieza.posicion
        · subst hpo
          rw [getPieza_setPieza_self hpv, hp]
        · rw [getPieza_setPieza_ne (fun h => hpo h.symm)]
          exact getPieza_aplicarSimulacion_otro t pieza destino p hpo hpd
            (fun _ _ ho => absurd ho hocc)
  · have hnone : (if pieza.tipo = .peon ∧ t.objetivoPeonAlPaso = some destino then
        getPieza t (pieza.posicion.1, destino.2) else none) = none := if_neg hEP
    rw [hnone]
    simp only [Option.isSome_none, Bool.false_eq_true, if_false]
    by_cases hpd : p = destino
    · subst hpd
      rw [getPieza_setPieza_self hpv]
    · rw [getPieza_setPieza_ne (fun h => hpd h.symm)]
      by_cases hpo : p = pieza.posicion
      · subst hpo
        rw [getPieza_setPieza_self hpv, hp]
      · rw [getPieza_setPieza_ne (fun h => hpo h.symm)]
        exact getPieza_aplicarSimulacion_otro t pieza destino p hpo hpd
          (fun h1 h2 _ => absurd ⟨h1, h2⟩ hEP)

-- ============================================================
-- GestorDelHistorico: canonical position string and repetition
-- ============================================================

/-- Modelled from the spec: the stable FEN letter of each piece class
(the `obtenerNotacionFEN` methods live in the missing `model/piezas/`
files); the letters are fixed by §4.5 of the specification and by the
expected strings of the repository's tests
(`"rnbqkbnr/pppppppp/8/8/8/8/PPPPPPPP/RNBQKBNR"`). -/
def obtenerNotacionFEN : TipoPieza → String
  | .peon => "p"
  | .caballo => "n"
  | .alfil => "b"
  | .torre => "r"
  | .reina => "q"
  | .rey => "k"

/-- One rank of the piece-placement field: piece letters (uppercase for
white), run-length digits for empty squares. -/
def filaFEN (t : Tablero) (fila : Nat) : String :=
  let paso := (List.range 8).foldl
    (fun (acc : String × Nat) col =>
      match getPieza t ((fila : Int), (col : Int)) with
      | none => (acc.1, acc.2 + 1)
      | some pieza =>
        let con_huecos := if acc.2 > 0 then acc.1 ++ toString acc.2 else acc.1
        let letra := obtenerNotacionFEN pieza.tipo
        (con_huecos ++ (if pieza.color = .blanco then letra.toUpper else letra), 0))
    ("", 0)
  if paso.2 > 0 then paso.1 ++ toString paso.2 else paso.1

/-- `GestorDelHistorico.obtenerPosicionActual`: ranks 8 down to 1 joined
by `/`, then side to move, castling rights (`-` when none) and the
en-passant target in algebraic notation (`-` when none). -/
def obtenerPosicionActual (t : Tablero) : String :=
  let piezas_str := String.intercalate "/" (((List.range 8).reverse).map (filaFEN t))
  let turno_str := if t.turno_blanco then "w" else "b"
  let enroque_acc :=
    (if t.derechosEnroque.blancoCorto then "K" else "") ++
    (if t.derechosEnroque.blancoLargo then "Q" else "") ++
    (if t.derechosEnroque.negroCorto then "k" else "") ++
    (if t.derechosEnroque.negroLargo then "q" else "")
  let enroque_str := if enroque_acc = "" then "-" else enroque_acc
  let al_paso_str :=
    match t.objetivoPeonAlPaso with
    | none => "-"
    | some fc => String.mk [Char.ofNat (97 + fc.2.toNat)] ++ toString (fc.1 + 1)
  piezas_str ++ " " ++ turno_str ++ " " ++ enroque_str ++ " " ++ al_paso_str

/-- Occurrence count of a canonical string in the history table, with
the `defaultdict(int)` convention that an absent key counts 0. -/
def cuentaPosicion : List (String × Nat) → String → Nat
  | [], _ => 0
  | (k, v) :: resto, s => if k = s then v else cuentaPosicion resto s

/-- `self.historial_posiciones[estado_actual] += 1` on the association
list: bump the existing entry or append a fresh one at count 1. -/
def incrementaPosicion : List (String × Nat) → String → List (String × Nat)
  | [], s => [(s, 1)]
  | (k, v) :: resto, s =>
    if k = s then (k, v + 1) :: resto else (k, v) :: incrementaPosicion resto s

/-- `GestorDelHistorico.registrar_posicion`: register the current
canonical position. -/
def registrar_posicion (t : Tablero) : Tablero :=
  { t with historial_posiciones :=
      incrementaPosicion t.historial_posiciones (obtenerPosicionActual t) }

/-- `GestorDelHistorico.esTripleRepeticion`: the current canonical
position has been seen three or more times. -/
def esTripleRepeticion (t : Tablero) : Bool :=
  cuentaPosicion t.historial_posiciones (obtenerPosicionActual t) ≥ 3

theorem cuentaPosicion_incrementa_self (h : List (String × Nat)) (s : String) :
    cuentaPosicion (incrementaPosicion h s) s = cuentaPosicion h s + 1 := by
  induction h with
  | nil => simp [incrementaPosicion, cuentaPosicion]
  | cons kv resto ih =>
    obtain ⟨k, v⟩ := kv
    by_cases hk : k = s
    · simp [incrementaPosicion, cuentaPosicion, hk]
    · simp [incrementaPosicion, cuentaPosicion, hk, ih]

theorem cuentaPosicion_incrementa_otro (h : List (String × Nat)) (s s' : String)
    (hne : s ≠ s') :
    cuentaPosicion (incrementaPosicion h s) s' = cuentaPosicion h s' := by
  induction h with
  | nil => simp [incrementaPosicion, cuentaPosicion, hne]
  | cons kv resto ih =>
    obtain ⟨k, v⟩ := kv
    by_cases hk : k = s
    · subst hk
      simp [incrementaPosicion, cuentaPosicion, hne]
    · simp only [incrementaPosicion, if_neg hk, cuentaPosicion]
      by_cases hk' : k = s'
      · simp [hk']
      · simp [hk', ih]

-- ============================================================
-- Material evaluation: Tablero.esMaterialInsuficiente
-- ============================================================

/-- The row-major list of all board squares, as scanned by every
`for r in range(8): for c in range(8)` loop of the source. -/
def listaCasillas : List (Int × Int) :=
  (List.range 8).flatMap fun r => (List.range 8).map fun c => (Int.ofNat r, Int.ofNat c)

/-- Accumulator of the counting loop of `Tablero.esMaterialInsuficiente`:
the non-king piece classes per colour, and the bishop counts by square
colour (`(r+c) % 2 == 0` is a dark square). -/
structure ConteoMaterial : Type where
  piezasBlancas : List TipoPieza
  piezasNegras : List TipoPieza
  alfilesBlancosClara : Nat
  alfilesBlancosOscura : Nat
  alfilesNegrosClara : Nat
  alfilesNegrosOscura : Nat
  deriving DecidableEq, Repr

/-- One iteration of the counting loop, split on the cell content;
`none` is the early `return False` on a queen, rook or pawn. -/
def pasoMaterialPieza (st : ConteoMaterial) (p : Int × Int) :
    Option Pieza → Option ConteoMaterial
  | none => some st
  | some pieza =>
    if pieza.tipo = .rey then some st
    else if pieza.tipo = .reina ∨ pieza.tipo = .torre ∨ pieza.tipo = .peon then none
    else
      match pieza.color with
      | .blanco =>
        some { st with
          piezasBlancas := st.piezasBlancas ++ [pieza.tipo]
          alfilesBlancosOscura := st.alfilesBlancosOscura +
            (if pieza.tipo = .alfil ∧ (p.1 + p.2) % 2 = 0 then 1 else 0)
          alfilesBlancosClara := st.alfilesBlancosClara +
            (if pieza.tipo = .alfil ∧ (p.1 + p.2) % 2 ≠ 0 then 1 else 0) }
      | .negro =>
        some { st with
          piezasNegras := st.piezasNegras ++ [pieza.tipo]
          alfilesNegrosOscura := st.alfilesNegrosOscura +
            (if pieza.tipo = .alfil ∧ (p.1 + p.2) % 2 = 0 then 1 else 0)
          alfilesNegrosClara := st.alfilesNegrosClara +
            (if pieza.tipo = .alfil ∧ (p.1 + p.2) % 2 ≠ 0 then 1 else 0) }

def pasoMaterial (t : Tablero) (st : ConteoMaterial) (p : Int × Int) :
    Option ConteoMaterial :=
  pasoMaterialPieza st p (getPieza t p)

def conteoVacio : ConteoMaterial := ⟨[], [], 0, 0, 0, 0⟩

/-- The four-case test of `Tablero.esMaterialInsuficiente` performed on
the collected counts.  `lista == [x]` embeds the Python conjunction
`len(lista) == 1 and lista[0] == X`. -/
def materialCadena (c : ConteoMaterial) : Bool :=
  if c.piezasBlancas = [] ∧ c.piezasNegras = [] then true
  else if (c.piezasBlancas = [.caballo] ∧ c.piezasNegras = []) ∨
      (c.piezasNegras = [.caballo] ∧ c.piezasBlancas = []) then true
  else if (c.piezasBlancas = [.alfil] ∧ c.piezasNegras = []) ∨
      (c.piezasNegras = [.alfil] ∧ c.piezasBlancas = []) then true
  else if c.piezasBlancas = [.alfil] ∧ c.piezasNegras = [.alfil] ∧
      ((c.alfilesBlancosClara = 1 ∧ c.alfilesNegrosClara = 1) ∨
        (c.alfilesBlancosOscura = 1 ∧ c.alfilesNegrosOscura = 1)) then true
  else false

/-- Dispatch on the outcome of the scan: `none` is the early
`return False` on a queen, rook or pawn. -/
def materialResultado : Option ConteoMaterial → Bool
  | none => false
  | some c => materialCadena c

/-- `Tablero.esMaterialInsuficiente`: scan the board (early `False` on
queen/rook/pawn), then test the four FIDE insufficient-material shapes. -/
def Tablero.esMaterialInsuficiente (t : Tablero) : Bool :=
  materialResultado (List.foldlM (pasoMaterial t) conteoVacio listaCasillas)

-- ============================================================
-- Material evaluation: EvaluadorEstadoDeJuego.esMaterialInsuficiente
-- ============================================================

/-- Accumulator of the counting loop of
`EvaluadorEstadoDeJuego.esMaterialInsuficiente`: every piece class per
colour (kings included), and the set of square colours holding bishops,
represented by its two membership flags (`EnClara` = `'blanca' in set`,
`EnOscura` = `'negra' in set`). -/
structure ConteoEvaluador : Type where
  piezasBlancas : List TipoPieza
  piezasNegras : List TipoPieza
  alfilesBlancosEnClara : Bool
  alfilesBlancosEnOscura : Bool
  alfilesNegrosEnClara : Bool
  alfilesNegrosEnOscura : Bool
  deriving DecidableEq, Repr

def pasoEvaluadorPieza (st : ConteoEvaluador) (p : Int × Int) :
    Option Pieza → ConteoEvaluador
  | none => st
  | some pieza =>
    match pieza.color with
    | .blanco =>
      { st with
        piezasBlancas := st.piezasBlancas ++ [pieza.tipo]
        alfilesBlancosEnOscura := st.alfilesBlancosEnOscura ||
          (pieza.tipo = .alfil ∧ (p.1 + p.2) % 2 = 0)
        alfilesBlancosEnClara := st.alfilesBlancosEnClara ||
          (pieza.tipo = .alfil ∧ (p.1 + p.2) % 2 ≠ 0) }
    | .negro =>
      { st with
        piezasNegras := st.piezasNegras ++ [pieza.tipo]
        alfilesNegrosEnOscura := st.alfilesNegrosEnOscura ||
          (pieza.tipo = .alfil ∧ (p.1 + p.2) % 2 = 0)
        alfilesNegrosEnClara := st.alfilesNegrosEnClara ||
          (pieza.tipo = .alfil ∧ (p.1 + p.2) % 2 ≠ 0) }

def pasoEvaluador (t : Tablero) (st : ConteoEvaluador) (p : Int × Int) : ConteoEvaluador :=
  pasoEvaluadorPieza st p (getPieza t p)

def conteoEvaluadorVacio : ConteoEvaluador := ⟨[], [], false, false, false, false⟩

/-- Number of square colours in a bishop set, from its membership
flags (`len(alfiles_color_casilla[color])`). -/
def tamanoConjunto (enClara enOscura : Bool) : Nat :=
  (if enClara then 1 else 0) + (if enOscura then 1 else 0)

/-- `EvaluadorEstadoDeJuego.esMaterialInsuficiente`: collect every piece
(kings included) and the square-colour sets of the bishops, then test
the four cases; `'Caballo' in piezas_blancas` becomes membership of the
class in the collected list, and the set comparison of case 2.4 becomes
equality of the membership flags. -/
def EvaluadorEstadoDeJuego.esMaterialInsuficiente (t : Tablero) : Bool :=
  let c := List.foldl (pasoEvaluador t) conteoEvaluadorVacio listaCasillas
  let num_blancas := c.piezasBlancas.length
  let num_negras := c.piezasNegras.length
  if num_blancas = 1 ∧ num_negras = 1 then true
  else if (num_blancas = 2 ∧ TipoPieza.caballo ∈ c.piezasBlancas ∧ num_negras = 1) ∨
      (num_negras = 2 ∧ TipoPieza.caballo ∈ c.piezasNegras ∧ num_blancas = 1) then true
  else if (num_blancas = 2 ∧ TipoPieza.alfil ∈ c.piezasBlancas ∧ num_negras = 1) ∨
      (num_negras = 2 ∧ TipoPieza.alfil ∈ c.piezasNegras ∧ num_blancas = 1) then true
  else if num_blancas = 2 ∧ TipoPieza.alfil ∈ c.piezasBlancas ∧
      num_negras = 2 ∧ TipoPieza.alfil ∈ c.piezasNegras ∧
      tamanoConjunto c.alfilesBlancosEnClara c.alfilesBlancosEnOscura = 1 ∧
      tamanoConjunto c.alfilesNegrosEnClara c.alfilesNegrosEnOscura = 1 ∧
      c.alfilesBlancosEnClara = c.alfilesNegrosEnClara ∧
      c.alfilesBlancosEnOscura = c.alfilesNegrosEnOscura then true
  else false

-- ============================================================
-- Board-level material vocabulary (used to state claims C6/C10)
-- ============================================================

/-- The class of a non-king piece of `color`, from a cell content. -/
def tipoNoReyDe (color : Color) : Option Pieza → Option TipoPieza
  | some pieza => if pieza.color = color ∧ pieza.tipo ≠ .rey then some pieza.tipo else none
  | none => none

/-- The class of the piece of `color` on `p`, excluding kings. -/
def tipoNoRey (t : Tablero) (color : Color) (p : Int × Int) : Option TipoPieza :=
  tipoNoReyDe color (getPieza t p)

/-- The class of a piece of `color` (kings included), from a cell
content. -/
def tipoDePiezaDe (color : Color) : Option Pieza → Option TipoPieza
  | some pieza => if pieza.color = color then some pieza.tipo else none
  | none => none

/-- The class of the piece of `color` on `p` (kings included). -/
def tipoDePieza (t : Tablero) (color : Color) (p : Int × Int) : Option TipoPieza :=
  tipoDePiezaDe color (getPieza t p)

/-- The non-king material of a colour, in board scan order. -/
def piezasNoRey (t : Tablero) (color : Color) : List TipoPieza :=
  listaCasillas.filterMap (tipoNoRey t color)

/-- All pieces of a colour, in board scan order. -/
def piezasTodas (t : Tablero) (color : Color) : List TipoPieza :=
  listaCasillas.filterMap (tipoDePieza t color)

/-- The cell content is a bishop of `color` on a square of shade
`oscura` (`oscura = true` is `(r+c) % 2 == 0`). -/
def esAlfilDe (color : Color) (oscura : Bool) (p : Int × Int) : Option Pieza → Bool
  | some pieza =>
    pieza.color = color ∧ pieza.tipo = .alfil ∧ decide ((p.1 + p.2) % 2 = 0) = oscura
  | none => false

/-- `p` holds a bishop of `color` on a square of the given shade. -/
def esAlfilEn (t : Tablero) (color : Color) (oscura : Bool) (p : Int × Int) : Bool :=
  esAlfilDe color oscura p (getPieza t p)

/-- Number of bishops of a colour on squares of one shade. -/
def alfilesEn (t : Tablero) (color : Color) (oscura : Bool) : Nat :=
  listaCasillas.countP (esAlfilEn t color oscura)

/-- The cell content is a king of `color`. -/
def esReyDe (color : Color) : Option Pieza → Bool
  | some pieza => pieza.tipo = .rey ∧ pieza.color = color
  | none => false

/-- Number of kings of a colour on the board. -/
def cuentaReyes (t : Tablero) (color : Color) : Nat :=
  listaCasillas.countP fun p => esReyDe color (getPieza t p)

/-- Exactly one king of each colour. -/
def unReyPorColor (t : Tablero) : Prop :=
  cuentaReyes t .blanco = 1 ∧ cuentaReyes t .negro = 1

instance (t : Tablero) : Decidable (unReyPorColor t) := by
  unfold unReyPorColor
  infer_instance

/-- A queen, rook or pawn of either colour stands on some square of
`l`. -/
def hayPiezaMayor (t : Tablero) (l : List (Int × Int)) : Prop :=
  ∃ p ∈ l, ∃ pieza, getPieza t p = some pieza ∧
    (pieza.tipo = .reina ∨ pieza.tipo = .torre ∨ pieza.tipo = .peon)

theorem foldlM_cons_paso {α σ : Type} (f : σ → α → Option σ) (st st' : σ) (a : α)
    (l : List α) (h : f st a = some st') :
    List.foldlM f st (a :: l) = List.foldlM f st' l := by
  rw [List.foldlM_cons, h]
  rfl

theorem foldlM_cons_corta {α σ : Type} (f : σ → α → Option σ) (st : σ) (a : α)
    (l : List α) (h : f st a = none) : List.foldlM f st (a :: l) = none := by
  rw [List.foldlM_cons, h]
  rfl

/-- Invariant of the counting loop of `Tablero.esMaterialInsuficiente`:
early `False` exactly on a queen/rook/pawn, and otherwise the collected
lists and bishop counters are the non-king material of each colour. -/
theorem pasoMaterial_foldlM (t : Tablero) :
    ∀ (l : List (Int × Int)) (st : ConteoMaterial),
      (List.foldlM (pasoMaterial t) st l = none ↔ hayPiezaMayor t l) ∧
      ∀ c, List.foldlM (pasoMaterial t) st l = some c →
        c.piezasBlancas = st.piezasBlancas ++ l.filterMap (tipoNoRey t .blanco) ∧
        c.piezasNegras = st.piezasNegras ++ l.filterMap (tipoNoRey t .negro) ∧
        c.alfilesBlancosClara = st.alfilesBlancosClara + l.countP (esAlfilEn t .blanco false) ∧
        c.alfilesBlancosOscura = st.alfilesBlancosOscura + l.countP (esAlfilEn t .blanco true) ∧
        c.alfilesNegrosClara = st.alfilesNegrosClara + l.countP (esAlfilEn t .negro false) ∧
        c.alfilesNegrosOscura = st.alfilesNegrosOscura + l.countP (esAlfilEn t .negro true) := by
  intro l
  induction l with
  | nil =>
    intro st
    constructor
    · simp [List.foldlM_nil, hayPiezaMayor]
    · intro c hc
      simp only [List.foldlM_nil] at hc
      cases hc
      simp
  | cons p l ih =>
    intro st
    cases hg : getPieza t p with
    | none =>
      have hpaso : pasoMaterial t st p = some st := by
        simp only [pasoMaterial, hg, pasoMaterialPieza]
      rw [foldlM_cons_paso _ _ _ _ _ hpaso]
      obtain ⟨ih1, ih2⟩ := ih st
      constructor
      · rw [ih1]
        unfold hayPiezaMayor
        simp only [List.mem_cons]
        constructor
        · rintro ⟨q, hq, pz, hgp, hm⟩
          exact ⟨q, Or.inr hq, pz, hgp, hm⟩
        · rintro ⟨q, hq | hq, pz, hgp, hm⟩
          · subst hq
            rw [hg] at hgp
            exact Option.noConfusion hgp
          · exact ⟨q, hq, pz, hgp, hm⟩
      · intro c hc
        obtain ⟨e1, e2, e3, e4, e5, e6⟩ := ih2 c hc
        have hnr1 : tipoNoRey t .blanco p = none := by
          simp only [tipoNoRey, hg, tipoNoReyDe]
        have hnr2 : tipoNoRey t .negro p = none := by
          simp only [tipoNoRey, hg, tipoNoReyDe]
        have hae : ∀ color oscura, esAlfilEn t color oscura p = false := by
          intro color oscura
          simp only [esAlfilEn, hg, esAlfilDe]
        simp [List.filterMap_cons, List.countP_cons, hnr1, hnr2, hae, e1, e2, e3, e4, e5, e6]
    | some pieza =>
      by_cases hrey : pieza.tipo = .rey
      · have hpaso : pasoMaterial t st p = some st := by
          simp only [pasoMaterial, hg, pasoMaterialPieza]
          rw [if_pos hrey]
        rw [foldlM_cons_paso _ _ _ _ _ hpaso]
        obtain ⟨ih1, ih2⟩ := ih st
        constructor
        · rw [ih1]
          unfold hayPiezaMayor
          simp only [List.mem_cons]
          constructor
          · rintro ⟨q, hq, pz, hgp, hm⟩
            exact ⟨q, Or.inr hq, pz, hgp, hm⟩
          · rintro ⟨q, hq | hq, pz, hgp, hm⟩
            · subst hq
              rw [hg] at hgp
              cases hgp
              rw [hrey] at hm
              rcases hm with h | h | h <;> exact TipoPieza.noConfusion h
            · exact ⟨q, hq, pz, hgp, hm⟩
        · intro c hc
          obtain ⟨e1, e2, e3, e4, e5, e6⟩ := ih2 c hc
          have hnr1 : tipoNoRey t .blanco p = none := by
            simp only [tipoNoRey, hg, tipoNoReyDe]
            rw [if_neg (by simp [hrey])]
          have hnr2 : tipoNoRey t .negro p = none := by
            simp only [tipoNoRey, hg, tipoNoReyDe]
            rw [if_neg (by simp [hrey])]
          have hae : ∀ color oscura, esAlfilEn t color oscura p = false := by
            intro color oscura
            simp only [esAlfilEn, hg, esAlfilDe]
            simp [hrey]
          simp [List.filterMap_cons, List.countP_cons, hnr1, hnr2, hae, e1, e2, e3, e4, e5, e6]
      · by_cases hmay : pieza.tipo = .reina ∨ pieza.tipo = .torre ∨ pieza.tipo = .peon
        · have hpaso : pasoMaterial t st p = none := by
            simp only [pasoMaterial, hg, pasoMaterialPieza]
            rw [if_neg hrey, if_pos hmay]
          rw [foldlM_cons_corta _ _ _ _ hpaso]
          constructor
          · constructor
            · intro _
              exact ⟨p, List.mem_cons_self _ _, pieza, hg, hmay⟩
            · intro _
              rfl
          · intro c hc
            exact Option.noConfusion hc
        · cases hcolor : pieza.color with
          | blanco =>
            have hpaso : pasoMaterial t st p = some { st with
                piezasBlancas := st.piezasBlancas ++ [pieza.tipo]
                alfilesBlancosOscura := st.alfilesBlancosOscura +
                  (if pieza.tipo = .alfil ∧ (p.1 + p.2) % 2 = 0 then 1 else 0)
                alfilesBlancosClara := st.alfilesBlancosClara +
                  (if pieza.tipo = .alfil ∧ (p.1 + p.2) % 2 ≠ 0 then 1 else 0) } := by
              simp only [pasoMaterial, hg, pasoMaterialPieza]
              rw [if_neg hrey, if_neg hmay, hcolor]
            rw [foldlM_cons_paso _ _ _ _ _ hpaso]
            obtain ⟨ih1, ih2⟩ := ih _
            constructor
            · rw [ih1]
              unfold hayPiezaMayor
              simp only [List.mem_cons]
              constructor
              · rintro ⟨q, hq, pz, hgp, hm⟩
                exact ⟨q, Or.inr hq, pz, hgp, hm⟩
              · rintro ⟨q, hq | hq, pz, hgp, hm⟩
                · subst hq
                  rw [hg] at hgp
                  cases hgp
                  exact absurd hm hmay
                · exact ⟨q, hq, pz, hgp, hm⟩
            · intro c hc
              obtain ⟨e1, e2, e3, e4, e5, e6⟩ := ih2 c hc
              have hnr1 : tipoNoRey t .blanco p = some pieza.tipo := by
                simp only [tipoNoRey, hg, tipoNoReyDe]
                rw [if_pos ⟨hcolor, hrey⟩]
              have hnr2 : tipoNoRey t .negro p = none := by
                simp only [tipoNoRey, hg, tipoNoReyDe]
                rw [if_neg (by simp [hcolor])]
              have haeN : ∀ oscura, esAlfilEn t .negro oscura p = false := by
                intro oscura
                simp only [esAlfilEn, hg, esAlfilDe]
                simp [hcolor]
              have haeBo : esAlfilEn t .blanco true p =
                  decide (pieza.tipo = .alfil ∧ (p.1 + p.2) % 2 = 0) := by
                simp only [esAlfilEn, hg, esAlfilDe]
                simp [hcolor]
              have haeBc : esAlfilEn t .blanco false p =
                  decide (pieza.tipo = .alfil ∧ ¬ (p.1 + p.2) % 2 = 0) := by
                simp only [esAlfilEn, hg, esAlfilDe]
                simp [hcolor, decide_eq_false_iff_not]
              rw [e1, e2, e3, e4, e5, e6]
              simp only [List.filterMap_cons, hnr1, hnr2, List.countP_cons, haeN, haeBo, haeBc]
              refine ⟨by simp, by simp, ?_, ?_, by simp, by simp⟩
              · by_cases hcl : pieza.tipo = .alfil ∧ ¬ (p.1 + p.2) % 2 = 0 <;>
                  simp [hcl] <;> omega
              · by_cases hcl : pieza.tipo = .alfil ∧ (p.1 + p.2) % 2 = 0 <;>
                  simp [hcl] <;> omega
          | negro =>
            have hpaso : pasoMaterial t st p = some { st with
                piezasNegras := st.piezasNegras ++ [pieza.tipo]
                alfilesNegrosOscura := st.alfilesNegrosOscura +
                  (if pieza.tipo = .alfil ∧ (p.1 + p.2) % 2 = 0 then 1 else 0)
                alfilesNegrosClara := st.alfilesNegrosClara +
                  (if pieza.tipo = .alfil ∧ (p.1 + p.2) % 2 ≠ 0 then 1 else 0) } := by
              simp only [pasoMaterial, hg, pasoMaterialPieza]
              rw [if_neg hrey, if_neg hmay, hcolor]
            rw [foldlM_cons_paso _ _ _ _ _ hpaso]
            obtain ⟨ih1, ih2⟩ := ih _
            constructor
            · rw [ih1]
              unfold hayPiezaMayor
              simp only [List.mem_cons]
              constructor
              · rintro ⟨q, hq, pz, hgp, hm⟩
                exact ⟨q, Or.inr hq, pz, hgp, hm⟩
              · rintro ⟨q, hq | hq, pz, hgp, hm⟩
                · subst hq
                  rw [hg] at hgp
                  cases hgp
                  exact absurd hm hmay
                · exact ⟨q, hq, pz, hgp, hm⟩
            · intro c hc
              obtain ⟨e1, e2, e3, e4, e5, e6⟩ := ih2 c hc
              have hnr1 : tipoNoRey t .blanco p = none := by
                simp only [tipoNoRey, hg, tipoNoReyDe]
                rw [if_neg (by simp [hcolor])]
              have hnr2 : tipoNoRey t .negro p = some pieza.tipo := by
                simp only [tipoNoRey, hg, tipoNoReyDe]
                rw [if_pos ⟨hcolor, hrey⟩]
              have haeB : ∀ oscura, esAlfilEn t .blanco oscura p = false := by
                intro oscura
                simp only [esAlfilEn, hg, esAlfilDe]
                simp [hcolor]
              have haeNo : esAlfilEn t .negro true p =
                  decide (pieza.tipo = .alfil ∧ (p.1 + p.2) % 2 = 0) := by
                simp only [esAlfilEn, hg, esAlfilDe]
                simp [hcolor]
              have haeNc : esAlfilEn t .negro false p =
                  decide (pieza.tipo = .alfil ∧ ¬ (p.1 + p.2) % 2 = 0) := by
                simp only [esAlfilEn, hg, esAlfilDe]
                simp [hcolor, decide_eq_false_iff_not]
              rw [e1, e2, e3, e4, e5, e6]
              simp only [List.filterMap_cons, hnr1, hnr2, List.countP_cons, haeB, haeNo, haeNc]
              refine ⟨by simp, by simp, by simp, by simp, ?_, ?_⟩
              · by_cases hcl : pieza.tipo = .alfil ∧ ¬ (p.1 + p.2) % 2 = 0 <;>
                  simp [hcl] <;> omega
              · by_cases hcl : pieza.tipo = .alfil ∧ (p.1 + p.2) % 2 = 0 <;>
                  simp [hcl] <;> omega

-- ============================================================
-- Counting lemmas relating the two material scans to the board
-- vocabulary (piezasNoRey / piezasTodas / alfilesEn / cuentaReyes)
-- ============================================================

theorem lista_singleton {α : Type} {l : List α} {x : α} :
    l = [x] ↔ l.length = 1 ∧ x ∈ l := by
  constructor
  · rintro rfl
    simp
  · rintro ⟨h1, h2⟩
    cases l with
    | nil => simp at h1
    | cons a r =>
      cases r with
      | nil =>
        rw [List.mem_singleton] at h2
        rw [h2]
      | cons b r2 => simp at h1

/-- On any one cell the king-inclusive and king-free class readers agree
for a non-king class. -/
theorem tipoDePieza_eq_tipoNoRey {t : Tablero} {c : Color} {p : Int × Int} {x : TipoPieza}
    (hx : x ≠ .rey) : tipoDePieza t c p = some x ↔ tipoNoRey t c p = some x := by
  unfold tipoDePieza tipoNoRey
  cases getPieza t p with
  | none => simp [tipoDePiezaDe, tipoNoReyDe]
  | some pieza =>
    simp only [tipoDePiezaDe, tipoNoReyDe]
    by_cases hcol : pieza.color = c
    · by_cases hrey : pieza.tipo = .rey
      · rw [if_pos hcol, if_neg (by simp [hrey])]
        constructor
        · intro h
          rw [Option.some_inj] at h
          rw [← h, hrey] at hx
          exact absurd rfl hx
        · intro h
          exact Option.noConfusion h
      · rw [if_pos hcol, if_pos ⟨hcol, hrey⟩]
    · rw [if_neg hcol, if_neg (by rintro ⟨h, -⟩; exact hcol h)]

/-- Every piece of a colour is a king or a non-king piece: the lengths of
the two class scans differ by the number of kings. -/
theorem tipos_longitud (t : Tablero) (c : Color) :
    ∀ l : List (Int × Int),
      (l.filterMap (tipoDePieza t c)).length =
        (l.filterMap (tipoNoRey t c)).length +
          l.countP (fun p => esReyDe c (getPieza t p)) := by
  intro l
  induction l with
  | nil => simp
  | cons p l ih =>
    cases hg : getPieza t p with
    | none =>
      have h1 : tipoDePieza t c p = none := by
        simp only [tipoDePieza, hg, tipoDePiezaDe]
      have h2 : tipoNoRey t c p = none := by
        simp only [tipoNoRey, hg, tipoNoReyDe]
      have h3 : esReyDe c (getPieza t p) = false := by
        rw [hg]
        simp only [esReyDe]
      rw [List.filterMap_cons, List.filterMap_cons, List.countP_cons, h1, h2, h3]
      simp [ih]
    | some pieza =>
      by_cases hcol : pieza.color = c
      · by_cases hrey : pieza.tipo = .rey
        · have h1 : tipoDePieza t c p = some pieza.tipo := by
            simp only [tipoDePieza, hg, tipoDePiezaDe]
            rw [if_pos hcol]
          have h2 : tipoNoRey t c p = none := by
            simp only [tipoNoRey, hg, tipoNoReyDe]
            rw [if_neg (by simp [hrey])]
          have h3 : esReyDe c (getPieza t p) = true := by
            rw [hg]
            simp [esReyDe, hrey, hcol]
          rw [List.filterMap_cons, List.filterMap_cons, List.countP_cons, h1, h2, h3]
          simp [ih]
          omega
        · have h1 : tipoDePieza t c p = some pieza.tipo := by
            simp only [tipoDePieza, hg, tipoDePiezaDe]
            rw [if_pos hcol]
          have h2 : tipoNoRey t c p = some pieza.tipo := by
            simp only [tipoNoRey, hg, tipoNoReyDe]
            rw [if_pos ⟨hcol, hrey⟩]
          have h3 : esReyDe c (getPieza t p) = false := by
            rw [hg]
            simp [esReyDe, hrey]
          rw [List.filterMap_cons, List.filterMap_cons, List.countP_cons, h1, h2, h3]
          simp [ih]
          omega
      · have h1 : tipoDePieza t c p = none := by
          simp only [tipoDePieza, hg, tipoDePiezaDe]
          rw [if_neg hcol]
        have h2 : tipoNoRey t c p = none := by
          simp only [tipoNoRey, hg, tipoNoReyDe]
          rw [if_neg (by rintro ⟨h, -⟩; exact hcol h)]
        have h3 : esReyDe c (getPieza t p) = false := by
          rw [hg]
          simp [esReyDe, hcol]
        rw [List.filterMap_cons, List.filterMap_cons, List.countP_cons, h1, h2, h3]
        simp [ih]

/-- A non-king class occurs among all pieces of a colour exactly when it
occurs among the non-king pieces. -/
theorem mem_tipos_iff (t : Tablero) (c : Color) {x : TipoPieza} (hx : x ≠ .rey)
    (l : List (Int × Int)) :
    x ∈ l.filterMap (tipoDePieza t c) ↔ x ∈ l.filterMap (tipoNoRey t c) := by
  rw [List.mem_filterMap, List.mem_filterMap]
  constructor
  · rintro ⟨p, hp, hv⟩
    exact ⟨p, hp, (tipoDePieza_eq_tipoNoRey hx).1 hv⟩
  · rintro ⟨p, hp, hv⟩
    exact ⟨p, hp, (tipoDePieza_eq_tipoNoRey hx).2 hv⟩

/-- The bishops of a colour split by square shade: the two shade counts
sum to the number of bishops among the colour's non-king pieces. -/
theorem alfiles_cuenta (t : Tablero) (c : Color) :
    ∀ l : List (Int × Int),
      l.countP (esAlfilEn t c false) + l.countP (esAlfilEn t c true) =
        (l.filterMap (tipoNoRey t c)).count .alfil := by
  intro l
  induction l with
  | nil => simp
  | cons p l ih =>
    cases hg : getPieza t p with
    | none =>
      have h1 : ∀ sh, esAlfilEn t c sh p = false := by
        intro sh
        simp only [esAlfilEn, hg, esAlfilDe]
      have h2 : tipoNoRey t c p = none := by
        simp only [tipoNoRey, hg, tipoNoReyDe]
      rw [List.filterMap_cons, List.countP_cons, List.countP_cons, h2, h1, h1]
      simp [ih]
    | some pieza =>
      by_cases hcol : pieza.color = c
      · by_cases hrey : pieza.tipo = .rey
        · have h1 : ∀ sh, esAlfilEn t c sh p = false := by
            intro sh
            simp only [esAlfilEn, hg, esAlfilDe]
            simp [hrey]
          have h2 : tipoNoRey t c p = none := by
            simp only [tipoNoRey, hg, tipoNoReyDe]
            rw [if_neg (by simp [hrey])]
          rw [List.filterMap_cons, List.countP_cons, List.countP_cons, h2, h1, h1]
          simp [ih]
        · have h2 : tipoNoRey t c p = some pieza.tipo := by
            simp only [tipoNoRey, hg, tipoNoReyDe]
            rw [if_pos ⟨hcol, hrey⟩]
          rw [List.filterMap_cons, List.countP_cons, List.countP_cons, h2, List.count_cons]
          by_cases half : pieza.tipo = .alfil
          · by_cases hsq : (p.1 + p.2) % 2 = 0
            · have e1 : esAlfilEn t c false p = false := by
                simp only [esAlfilEn, hg, esAlfilDe]
                simp [hsq]
              have e2 : esAlfilEn t c true p = true := by
                simp only [esAlfilEn, hg, esAlfilDe]
                simp [hcol, half, hsq]
              rw [e1, e2]
              simp [half, ih]
              omega
            · have e1 : esAlfilEn t c false p = true := by
                simp only [esAlfilEn, hg, esAlfilDe]
                simp [hcol, half, hsq]
              have e2 : esAlfilEn t c true p = false := by
                simp only [esAlfilEn, hg, esAlfilDe]
                simp [hsq]
              rw [e1, e2]
              simp [half, ih]
              omega
          · have e1 : ∀ sh, esAlfilEn t c sh p = false := by
              intro sh
              simp only [esAlfilEn, hg, esAlfilDe]
              simp [half]
            rw [e1, e1]
            have hbeq : (pieza.tipo == TipoPieza.alfil) = false := by
              simp [half]
            simp [hbeq, ih]
      · have h1 : ∀ sh, esAlfilEn t c sh p = false := by
          intro sh
          simp only [esAlfilEn, hg, esAlfilDe]
          simp [hcol]
        have h2 : tipoNoRey t c p = none := by
          simp only [tipoNoRey, hg, tipoNoReyDe]
          rw [if_neg (by rintro ⟨h, -⟩; exact hcol h)]
        rw [List.filterMap_cons, List.countP_cons, List.countP_cons, h2, h1, h1]
        simp [ih]

/-- Invariant of the counting loop of
`EvaluadorEstadoDeJuego.esMaterialInsuficiente`: the collected lists are
the full material of each colour (kings included) and each shade flag
records whether some bishop of the colour stands on that shade. -/
theorem pasoEvaluador_foldl (t : Tablero) :
    ∀ (l : List (Int × Int)) (st : ConteoEvaluador),
      (List.foldl (pasoEvaluador t) st l).piezasBlancas =
          st.piezasBlancas ++ l.filterMap (tipoDePieza t .blanco) ∧
      (List.foldl (pasoEvaluador t) st l).piezasNegras =
          st.piezasNegras ++ l.filterMap (tipoDePieza t .negro) ∧
      (List.foldl (pasoEvaluador t) st l).alfilesBlancosEnClara =
          (st.alfilesBlancosEnClara || l.any (esAlfilEn t .blanco false)) ∧
      (List.foldl (pasoEvaluador t) st l).alfilesBlancosEnOscura =
          (st.alfilesBlancosEnOscura || l.any (esAlfilEn t .blanco true)) ∧
      (List.foldl (pasoEvaluador t) st l).alfilesNegrosEnClara =
          (st.alfilesNegrosEnClara || l.any (esAlfilEn t .negro false)) ∧
      (List.foldl (pasoEvaluador t) st l).alfilesNegrosEnOscura =
          (st.alfilesNegrosEnOscura || l.any (esAlfilEn t .negro true)) := by
  intro l
  induction l with
  | nil =>
    intro st
    simp
  | cons p l ih =>
    intro st
    rw [List.foldl_cons]
    cases hg : getPieza t p with
    | none =>
      have hstep : pasoEvaluador t st p = st := by
        simp only [pasoEvaluador, hg, pasoEvaluadorPieza]
      rw [hstep]
      obtain ⟨e1, e2, e3, e4, e5, e6⟩ := ih st
      have hn1 : ∀ c, tipoDePieza t c p = none := by
        intro c
        simp only [tipoDePieza, hg, tipoDePiezaDe]
      have hn2 : ∀ c sh, esAlfilEn t c sh p = false := by
        intro c sh
        simp only [esAlfilEn, hg, esAlfilDe]
      simp [List.filterMap_cons, List.any_cons, hn1, hn2, e1, e2, e3, e4, e5, e6]
    | some pieza =>
      cases hcol : pieza.color with
      | blanco =>
        have hstep : pasoEvaluador t st p = { st with
            piezasBlancas := st.piezasBlancas ++ [pieza.tipo]
            alfilesBlancosEnOscura := st.alfilesBlancosEnOscura ||
              decide (pieza.tipo = .alfil ∧ (p.1 + p.2) % 2 = 0)
            alfilesBlancosEnClara := st.alfilesBlancosEnClara ||
              decide (pieza.tipo = .alfil ∧ (p.1 + p.2) % 2 ≠ 0) } := by
          simp only [pasoEvaluador, hg, pasoEvaluadorPieza]
          rw [hcol]
        rw [hstep]
        obtain ⟨e1, e2, e3, e4, e5, e6⟩ := ih _
        have hb1 : tipoDePieza t .blanco p = some pieza.tipo := by
          simp only [tipoDePieza, hg, tipoDePiezaDe]
          rw [if_pos hcol]
        have hn1 : tipoDePieza t .negro p = none := by
          simp only [tipoDePieza, hg, tipoDePiezaDe]
          rw [if_neg (by simp [hcol])]
        have hnA : ∀ sh, esAlfilEn t .negro sh p = false := by
          intro sh
          simp only [esAlfilEn, hg, esAlfilDe]
          simp [hcol]
        have hbo : esAlfilEn t .blanco true p =
            decide (pieza.tipo = .alfil ∧ (p.1 + p.2) % 2 = 0) := by
          simp only [esAlfilEn, hg, esAlfilDe]
          simp [hcol]
        have hbc : esAlfilEn t .blanco false p =
            decide (pieza.tipo = .alfil ∧ ¬ (p.1 + p.2) % 2 = 0) := by
          simp only [esAlfilEn, hg, esAlfilDe]
          simp [hcol, decide_eq_false_iff_not]
        rw [e1, e2, e3, e4, e5, e6]
        simp only [List.filterMap_cons, hb1, hn1, List.any_cons, hnA, hbo, hbc]
        refine ⟨by simp, by simp, by simp [Bool.or_assoc], by simp [Bool.or_assoc],
          by simp, by simp⟩
      | negro =>
        have hstep : pasoEvaluador t st p = { st with
            piezasNegras := st.piezasNegras ++ [pieza.tipo]
            alfilesNegrosEnOscura := st.alfilesNegrosEnOscura ||
              decide (pieza.tipo = .alfil ∧ (p.1 + p.2) % 2 = 0)
            alfilesNegrosEnClara := st.alfilesNegrosEnClara ||
              decide (pieza.tipo = .alfil ∧ (p.1 + p.2) % 2 ≠ 0) } := by
          simp only [pasoEvaluador, hg, pasoEvaluadorPieza]
          rw [hcol]
        rw [hstep]
        obtain ⟨e1, e2, e3, e4, e5, e6⟩ := ih _
        have hb1 : tipoDePieza t .negro p = some pieza.tipo := by
          simp only [tipoDePieza, hg, tipoDePiezaDe]
          rw [if_pos hcol]
        have hn1 : tipoDePieza t .blanco p = none := by
          simp only [tipoDePieza, hg, tipoDePiezaDe]
          rw [if_neg (by simp [hcol])]
        have hnA : ∀ sh, esAlfilEn t .blanco sh p = false := by
          intro sh
          simp only [esAlfilEn, hg, esAlfilDe]
          simp [hcol]
        have hbo : esAlfilEn t .negro true p =
            decide (pieza.tipo = .alfil ∧ (p.1 + p.2) % 2 = 0) := by
          simp only [esAlfilEn, hg, esAlfilDe]
          simp [hcol]
        have hbc : esAlfilEn t .negro false p =
            decide (pieza.tipo = .alfil ∧ ¬ (p.1 + p.2) % 2 = 0) := by
          simp only [esAlfilEn, hg, esAlfilDe]
          simp [hcol, decide_eq_false_iff_not]
        rw [e1, e2, e3, e4, e5, e6]
        simp only [List.filterMap_cons, hb1, hn1, List.any_cons, hnA, hbo, hbc]
        refine ⟨by simp, by simp, by simp, by simp,
          by simp [Bool.or_assoc], by simp [Bool.or_assoc]⟩

/-- Inversion of the king-free class reader: a reported class comes from
an actual non-king piece of the colour on that square. -/
theorem tipoNoRey_inv {t : Tablero} {c : Color} {p : Int × Int} {x : TipoPieza}
    (h : tipoNoRey t c p = some x) :
    ∃ pieza, getPieza t p = some pieza ∧ pieza.color = c ∧ pieza.tipo = x ∧ x ≠ .rey := by
  unfold tipoNoRey at h
  cases hg : getPieza t p with
  | none =>
    rw [hg] at h
    simp [tipoNoReyDe] at h
  | some pieza =>
    rw [hg] at h
    simp only [tipoNoReyDe] at h
    by_cases hc : pieza.color = c ∧ pieza.tipo ≠ .rey
    · rw [if_pos hc, Option.some_inj] at h
      exact ⟨pieza, rfl, hc.1, h, by rw [← h]; exact hc.2⟩
    · rw [if_neg hc] at h
      exact Option.noConfusion h

/-- The early-exit condition of the `Tablero` scan in terms of the
collected class lists: a queen, rook or pawn somewhere on the board is a
queen, rook or pawn among some colour's non-king material. -/
theorem hayPiezaMayor_tipos (t : Tablero) :
    hayPiezaMayor t listaCasillas ↔
      ∃ tipo, (tipo ∈ piezasNoRey t .blanco ∨ tipo ∈ piezasNoRey t .negro) ∧
        (tipo = .reina ∨ tipo = .torre ∨ tipo = .peon) := by
  constructor
  · rintro ⟨p, hp, pieza, hg, hm⟩
    have hrey : pieza.tipo ≠ .rey := by
      rcases hm with h | h | h <;> rw [h] <;> simp
    refine ⟨pieza.tipo, ?_, hm⟩
    cases hc : pieza.color with
    | blanco =>
      left
      rw [piezasNoRey, List.mem_filterMap]
      refine ⟨p, hp, ?_⟩
      simp only [tipoNoRey, hg, tipoNoReyDe]
      rw [if_pos ⟨hc, hrey⟩]
    | negro =>
      right
      rw [piezasNoRey, List.mem_filterMap]
      refine ⟨p, hp, ?_⟩
      simp only [tipoNoRey, hg, tipoNoReyDe]
      rw [if_pos ⟨hc, hrey⟩]
  · rintro ⟨tipo, hmem, htm⟩
    have : ∃ col, tipo ∈ piezasNoRey t col := by
      rcases hmem with h | h
      exacts [⟨.blanco, h⟩, ⟨.negro, h⟩]
    obtain ⟨col, hcol⟩ := this
    rw [piezasNoRey, List.mem_filterMap] at hcol
    obtain ⟨p, hp, hv⟩ := hcol
    obtain ⟨pieza, hg, -, htipo, -⟩ := tipoNoRey_inv hv
    refine ⟨p, hp, pieza, hg, ?_⟩
    rw [htipo]
    exact htm

/-- The insufficient-material positions as the specification enumerates
them, stated over the board vocabulary: bare kings; a lone knight; a
lone bishop; or one bishop each with both on squares of the same shade.
Specification-side definition, to be compared with the two scans. -/
def casoMaterialInsuficiente (t : Tablero) : Prop :=
  (piezasNoRey t .blanco = [] ∧ piezasNoRey t .negro = []) ∨
  ((piezasNoRey t .blanco = [.caballo] ∧ piezasNoRey t .negro = []) ∨
    (piezasNoRey t .negro = [.caballo] ∧ piezasNoRey t .blanco = [])) ∨
  ((piezasNoRey t .blanco = [.alfil] ∧ piezasNoRey t .negro = []) ∨
    (piezasNoRey t .negro = [.alfil] ∧ piezasNoRey t .blanco = [])) ∨
  (piezasNoRey t .blanco = [.alfil] ∧ piezasNoRey t .negro = [.alfil] ∧
    ((alfilesEn t .blanco false = 1 ∧ alfilesEn t .negro false = 1) ∨
      (alfilesEn t .blanco true = 1 ∧ alfilesEn t .negro true = 1)))

/-- `Tablero.esMaterialInsuficiente` decides exactly the enumerated
insufficient-material positions (no king-count hypothesis is needed:
this scan ignores kings entirely). -/
theorem material_tablero_iff_caso (t : Tablero) :
    Tablero.esMaterialInsuficiente t = true ↔ casoMaterialInsuficiente t := by
  obtain ⟨hnone_iff, hsome⟩ := pasoMaterial_foldlM t listaCasillas conteoVacio
  by_cases hmay : hayPiezaMayor t listaCasillas
  · have hnone := hnone_iff.2 hmay
    unfold Tablero.esMaterialInsuficiente
    rw [hnone]
    simp only [materialResultado]
    apply iff_of_false (by simp)
    intro hcaso
    obtain ⟨tipo, hmem, htm⟩ := (hayPiezaMayor_tipos t).1 hmay
    have hni : tipo ≠ TipoPieza.caballo ∧ tipo ≠ TipoPieza.alfil := by
      rcases htm with h | h | h <;> rw [h] <;> exact ⟨by simp, by simp⟩
    rcases hcaso with ⟨hb, hn⟩ | (⟨hb, hn⟩ | ⟨hn, hb⟩) | (⟨hb, hn⟩ | ⟨hn, hb⟩) | ⟨hb, hn, -⟩
    · rcases hmem with hm | hm
      · rw [hb] at hm
        simp at hm
      · rw [hn] at hm
        simp at hm
    · rcases hmem with hm | hm
      · rw [hb] at hm
        rw [List.mem_singleton] at hm
        exact hni.1 hm
      · rw [hn] at hm
        simp at hm
    · rcases hmem with hm | hm
      · rw [hb] at hm
        simp at hm
      · rw [hn] at hm
        rw [List.mem_singleton] at hm
        exact hni.1 hm
    · rcases hmem with hm | hm
      · rw [hb] at hm
        rw [List.mem_singleton] at hm
        exact hni.2 hm
      · rw [hn] at hm
        simp at hm
    · rcases hmem with hm | hm
      · rw [hb] at hm
        simp at hm
      · rw [hn] at hm
        rw [List.mem_singleton] at hm
        exact hni.2 hm
    · rcases hmem with hm | hm
      · rw [hb] at hm
        rw [List.mem_singleton] at hm
        exact hni.2 hm
      · rw [hn] at hm
        rw [List.mem_singleton] at hm
        exact hni.2 hm
  · cases hfold : List.foldlM (pasoMaterial t) conteoVacio listaCasillas with
    | none => exact absurd (hnone_iff.1 hfold) hmay
    | some c =>
      obtain ⟨e1, e2, e3, e4, e5, e6⟩ := hsome c hfold
      have f1 : c.piezasBlancas = piezasNoRey t .blanco := by
        rw [e1]
        simp [conteoVacio, piezasNoRey]
      have f2 : c.piezasNegras = piezasNoRey t .negro := by
        rw [e2]
        simp [conteoVacio, piezasNoRey]
      have f3 : c.alfilesBlancosClara = alfilesEn t .blanco false := by
        rw [e3]
        simp [conteoVacio, alfilesEn]
      have f4 : c.alfilesBlancosOscura = alfilesEn t .blanco true := by
        rw [e4]
        simp [conteoVacio, alfilesEn]
      have f5 : c.alfilesNegrosClara = alfilesEn t .negro false := by
        rw [e5]
        simp [conteoVacio, alfilesEn]
      have f6 : c.alfilesNegrosOscura = alfilesEn t .negro true := by
        rw [e6]
        simp [conteoVacio, alfilesEn]
      unfold Tablero.esMaterialInsuficiente
      rw [hfold]
      simp only [materialResultado, materialCadena, casoMaterialInsuficiente,
        f1, f2, f3, f4, f5, f6]
      split_ifs with h1 h2 h3 h4
      · exact iff_of_true rfl (Or.inl h1)
      · exact iff_of_true rfl (Or.inr (Or.inl h2))
      · exact iff_of_true rfl (Or.inr (Or.inr (Or.inl h3)))
      · exact iff_of_true rfl (Or.inr (Or.inr (Or.inr h4)))
      · apply iff_of_false (by simp)
        rintro (h | h | h | h)
        exacts [h1 h, h2 h, h3 h, h4 h]

/-- All pieces of a colour are its non-king pieces plus its kings. -/
theorem piezasTodas_longitud (t : Tablero) (c : Color) :
    (piezasTodas t c).length = (piezasNoRey t c).length + cuentaReyes t c :=
  tipos_longitud t c listaCasillas

/-- With exactly one king of the colour, "one piece in total" says
"no non-king material". -/
theorem todas_len_uno {t : Tablero} {c : Color} (h : cuentaReyes t c = 1) :
    (piezasTodas t c).length = 1 ↔ piezasNoRey t c = [] := by
  rw [piezasTodas_longitud, h]
  constructor
  · intro h2
    exact List.length_eq_zero.mp (by omega)
  · intro h2
    rw [h2]
    rfl

/-- With exactly one king of the colour, "two pieces in total, one of
them of class `x`" says "the non-king material is exactly `[x]`". -/
theorem todas_singleton {t : Tablero} {c : Color} {x : TipoPieza} (hx : x ≠ .rey)
    (h : cuentaReyes t c = 1) :
    ((piezasTodas t c).length = 2 ∧ x ∈ piezasTodas t c) ↔ piezasNoRey t c = [x] := by
  have hlen := piezasTodas_longitud t c
  rw [h] at hlen
  have hmem : x ∈ piezasTodas t c ↔ x ∈ piezasNoRey t c := mem_tipos_iff t c hx listaCasillas
  rw [lista_singleton]
  constructor
  · rintro ⟨h2, hx2⟩
    exact ⟨by omega, hmem.mp hx2⟩
  · rintro ⟨h2, hx2⟩
    exact ⟨by omega, hmem.mpr hx2⟩

/-- A colour whose non-king material is one bishop has shade counts
summing to one. -/
theorem alfiles_suma_uno {t : Tablero} {c : Color}
    (h : piezasNoRey t c = [.alfil]) :
    alfilesEn t c false + alfilesEn t c true = 1 := by
  have h2 : alfilesEn t c false + alfilesEn t c true = (piezasNoRey t c).count .alfil :=
    alfiles_cuenta t c listaCasillas
  rw [h] at h2
  simpa using h2

/-- A shade flag of the evaluator scan is set exactly when the shade
count is positive. -/
theorem any_alfil_iff (t : Tablero) (c : Color) (sh : Bool) :
    listaCasillas.any (esAlfilEn t c sh) = true ↔ 0 < alfilesEn t c sh := by
  unfold alfilesEn
  rw [List.any_eq_true, List.countP_pos_iff]

/-- Set-size and set-equality tests on the shade flags, for one bishop a
side, say exactly that both bishops share a shade. -/
theorem alfiles_flags_iff (cbf cbt cnf cnt : Nat) (hb : cbf + cbt = 1) (hn : cnf + cnt = 1)
    (fBC fBO fNC fNO : Bool)
    (hfBC : fBC = true ↔ 0 < cbf) (hfBO : fBO = true ↔ 0 < cbt)
    (hfNC : fNC = true ↔ 0 < cnf) (hfNO : fNO = true ↔ 0 < cnt) :
    (tamanoConjunto fBC fBO = 1 ∧ tamanoConjunto fNC fNO = 1 ∧ fBC = fNC ∧ fBO = fNO) ↔
      ((cbf = 1 ∧ cnf = 1) ∨ (cbt = 1 ∧ cnt = 1)) := by
  cases fBC <;> cases fBO <;> cases fNC <;> cases fNO <;>
    simp_all [tamanoConjunto] <;> omega

/-- `EvaluadorEstadoDeJuego.esMaterialInsuficiente` decides exactly the
enumerated insufficient-material positions, on boards with one king a
side (this scan counts kings among the pieces, so the hypothesis is
essential). -/
theorem material_evaluador_iff_caso (t : Tablero) (h : unReyPorColor t) :
    EvaluadorEstadoDeJuego.esMaterialInsuficiente t = true ↔ casoMaterialInsuficiente t := by
  obtain ⟨hkb, hkn⟩ := h
  obtain ⟨e1, e2, e3, e4, e5, e6⟩ := pasoEvaluador_foldl t listaCasillas conteoEvaluadorVacio
  have f1 : (List.foldl (pasoEvaluador t) conteoEvaluadorVacio listaCasillas).piezasBlancas =
      piezasTodas t .blanco := by
    rw [e1]
    simp [conteoEvaluadorVacio, piezasTodas]
  have f2 : (List.foldl (pasoEvaluador t) conteoEvaluadorVacio listaCasillas).piezasNegras =
      piezasTodas t .negro := by
    rw [e2]
    simp [conteoEvaluadorVacio, piezasTodas]
  have f3 : (List.foldl (pasoEvaluador t) conteoEvaluadorVacio
        listaCasillas).alfilesBlancosEnClara =
      listaCasillas.any (esAlfilEn t .blanco false) := by
    rw [e3]
    simp [conteoEvaluadorVacio]
  have f4 : (List.foldl (pasoEvaluador t) conteoEvaluadorVacio
        listaCasillas).alfilesBlancosEnOscura =
      listaCasillas.any (esAlfilEn t .blanco true) := by
    rw [e4]
    simp [conteoEvaluadorVacio]
  have f5 : (List.foldl (pasoEvaluador t) conteoEvaluadorVacio
        listaCasillas).alfilesNegrosEnClara =
      listaCasillas.any (esAlfilEn t .negro false) := by
    rw [e5]
    simp [conteoEvaluadorVacio]
  have f6 : (List.foldl (pasoEvaluador t) conteoEvaluadorVacio
        listaCasillas).alfilesNegrosEnOscura =
      listaCasillas.any (esAlfilEn t .negro true) := by
    rw [e6]
    simp [conteoEvaluadorVacio]
  have c1 : ((piezasTodas t .blanco).length = 1 ∧ (piezasTodas t .negro).length = 1) ↔
      (piezasNoRey t .blanco = [] ∧ piezasNoRey t .negro = []) :=
    and_congr (todas_len_uno hkb) (todas_len_uno hkn)
  have c2 : (((piezasTodas t .blanco).length = 2 ∧ TipoPieza.caballo ∈ piezasTodas t .blanco ∧
        (piezasTodas t .negro).length = 1) ∨
      ((piezasTodas t .negro).length = 2 ∧ TipoPieza.caballo ∈ piezasTodas t .negro ∧
        (piezasTodas t .blanco).length = 1)) ↔
      ((piezasNoRey t .blanco = [.caballo] ∧ piezasNoRey t .negro = []) ∨
        (piezasNoRey t .negro = [.caballo] ∧ piezasNoRey t .blanco = [])) := by
    apply or_congr
    · constructor
      · rintro ⟨ha, hb2, hc2⟩
        exact ⟨(todas_singleton (by simp) hkb).1 ⟨ha, hb2⟩, (todas_len_uno hkn).1 hc2⟩
      · rintro ⟨ha, hb2⟩
        obtain ⟨h2, h3⟩ := (todas_singleton (by simp) hkb).2 ha
        exact ⟨h2, h3, (todas_len_uno hkn).2 hb2⟩
    · constructor
      · rintro ⟨ha, hb2, hc2⟩
        exact ⟨(todas_singleton (by simp) hkn).1 ⟨ha, hb2⟩, (todas_len_uno hkb).1 hc2⟩
      · rintro ⟨ha, hb2⟩
        obtain ⟨h2, h3⟩ := (todas_singleton (by simp) hkn).2 ha
        exact ⟨h2, h3, (todas_len_uno hkb).2 hb2⟩
  have c3 : (((piezasTodas t .blanco).length = 2 ∧ TipoPieza.alfil ∈ piezasTodas t .blanco ∧
        (piezasTodas t .negro).length = 1) ∨
      ((piezasTodas t .negro).length = 2 ∧ TipoPieza.alfil ∈ piezasTodas t .negro ∧
        (piezasTodas t .blanco).length = 1)) ↔
      ((piezasNoRey t .blanco = [.alfil] ∧ piezasNoRey t .negro = []) ∨
        (piezasNoRey t .negro = [.alfil] ∧ piezasNoRey t .blanco = [])) := by
    apply or_congr
    · constructor
      · rintro ⟨ha, hb2, hc2⟩
        exact ⟨(todas_singleton (by simp) hkb).1 ⟨ha, hb2⟩, (todas_len_uno hkn).1 hc2⟩
      · rintro ⟨ha, hb2⟩
        obtain ⟨h2, h3⟩ := (todas_singleton (by simp) hkb).2 ha
        exact ⟨h2, h3, (todas_len_uno hkn).2 hb2⟩
    · constructor
      · rintro ⟨ha, hb2, hc2⟩
        exact ⟨(todas_singleton (by simp) hkn).1 ⟨ha, hb2⟩, (todas_len_uno hkb).1 hc2⟩
      · rintro ⟨ha, hb2⟩
        obtain ⟨h2, h3⟩ := (todas_singleton (by simp) hkn).2 ha
        exact ⟨h2, h3, (todas_len_uno hkb).2 hb2⟩
  have c4 : ((piezasTodas t .blanco).length = 2 ∧ TipoPieza.alfil ∈ piezasTodas t .blanco ∧
        (piezasTodas t .negro).length = 2 ∧ TipoPieza.alfil ∈ piezasTodas t .negro ∧
        tamanoConjunto (listaCasillas.any (esAlfilEn t .blanco false))
          (listaCasillas.any (esAlfilEn t .blanco true)) = 1 ∧
        tamanoConjunto (listaCasillas.any (esAlfilEn t .negro false))
          (listaCasillas.any (esAlfilEn t .negro true)) = 1 ∧
        listaCasillas.any (esAlfilEn t .blanco false) =
          listaCasillas.any (esAlfilEn t .negro false) ∧
        listaCasillas.any (esAlfilEn t .blanco true) =
          listaCasillas.any (esAlfilEn t .negro true)) ↔
      (piezasNoRey t .blanco = [.alfil] ∧ piezasNoRey t .negro = [.alfil] ∧
        ((alfilesEn t .blanco false = 1 ∧ alfilesEn t .negro false = 1) ∨
          (alfilesEn t .blanco true = 1 ∧ alfilesEn t .negro true = 1))) := by
    constructor
    · rintro ⟨ha, hb2, hc2, hd, ht1, ht2, hq1, hq2⟩
      have hbs := (todas_singleton (by simp) hkb).1 ⟨ha, hb2⟩
      have hns := (todas_singleton (by simp) hkn).1 ⟨hc2, hd⟩
      refine ⟨hbs, hns, ?_⟩
      exact (alfiles_flags_iff _ _ _ _ (alfiles_suma_uno hbs) (alfiles_suma_uno hns)
        _ _ _ _ (any_alfil_iff t .blanco false) (any_alfil_iff t .blanco true)
        (any_alfil_iff t .negro false) (any_alfil_iff t .negro true)).1 ⟨ht1, ht2, hq1, hq2⟩
    · rintro ⟨hbs, hns, hsh⟩
      obtain ⟨ha, hb2⟩ := (todas_singleton (by simp) hkb).2 hbs
      obtain ⟨hc2, hd⟩ := (todas_singleton (by simp) hkn).2 hns
      obtain ⟨ht1, ht2, hq1, hq2⟩ :=
        (alfiles_flags_iff _ _ _ _ (alfiles_suma_uno hbs) (alfiles_suma_uno hns)
          _ _ _ _ (any_alfil_iff t .blanco false) (any_alfil_iff t .blanco true)
          (any_alfil_iff t .negro false) (any_alfil_iff t .negro true)).2 hsh
      exact ⟨ha, hb2, hc2, hd, ht1, ht2, hq1, hq2⟩
  simp only [EvaluadorEstadoDeJuego.esMaterialInsuficiente, f1, f2, f3, f4, f5, f6,
    casoMaterialInsuficiente]
  split_ifs with h1 h2 h3 h4
  · exact iff_of_true rfl (Or.inl (c1.mp h1))
  · exact iff_of_true rfl (Or.inr (Or.inl (c2.mp h2)))
  · exact iff_of_true rfl (Or.inr (Or.inr (Or.inl (c3.mp h3))))
  · exact iff_of_true rfl (Or.inr (Or.inr (Or.inr (c4.mp h4))))
  · apply iff_of_false (by simp)
    rintro (hc | hc | hc | hc)
    exacts [h1 (c1.mpr hc), h2 (c2.mpr hc), h3 (c3.mpr hc), h4 (c4.mpr hc)]

-- ============================================================
-- Concrete boards for evaluation
-- ============================================================

/-- Grid holding exactly the given pieces, each on its recorded
square. -/
def casillasDePiezas (l : List Pieza) : Fin 8 → Fin 8 → Option Pieza :=
  fun i j => l.find? fun pz => decide (pz.posicion = ((i : Int), (j : Int)))

/-- A quiescent board holding exactly the given pieces. -/
def tableroDePiezas (l : List Pieza) : Tablero where
  casillas := casillasDePiezas l
  piezasCapturadas := []
  derechosEnroque := ⟨true, true, true, true⟩
  objetivoPeonAlPaso := none
  turno_blanco := true
  contadorRegla50Movimientos := 0
  contadorPly := 0
  numero_movimiento := 1
  ultimo_movimiento := none
  historial_movimientos := []
  historial_posiciones := []
  estado_juego := .en_curso
  motivo_tablas := none

/-- Bare kings. -/
def reyesSolos : Tablero := tableroDePiezas
  [⟨.blanco, .rey, (0, 0), false⟩, ⟨.negro, .rey, (7, 7), false⟩]

/-- Kings and one bishop a side, both bishops on the dark shade. -/
def reyesYAlfiles : Tablero := tableroDePiezas
  [⟨.blanco, .rey, (0, 0), false⟩, ⟨.negro, .rey, (7, 7), false⟩,
    ⟨.blanco, .alfil, (2, 2), false⟩, ⟨.negro, .alfil, (3, 3), false⟩]

-- ============================================================
-- Claims C6 and C10
-- ============================================================

/-- C6: on every board with exactly one king per colour, both
insufficient-material tests (`Tablero.esMaterialInsuficiente` and
`EvaluadorEstadoDeJuego.esMaterialInsuficiente`) return `True` exactly
for the enumerated positions: bare kings, a lone knight, a lone bishop,
or one bishop each on squares of the same shade — and `False` in every
other position, in particular whenever a queen, rook or pawn is on the
board or the two bishops sit on opposite shades. -/
theorem C6_material_insuficiente_caracterizacion (t : Tablero) (h : unReyPorColor t) :
    (Tablero.esMaterialInsuficiente t = true ↔ casoMaterialInsuficiente t) ∧
    (EvaluadorEstadoDeJuego.esMaterialInsuficiente t = true ↔ casoMaterialInsuficiente t) :=
  ⟨material_tablero_iff_caso t, material_evaluador_iff_caso t h⟩

theorem C6_witness :
    unReyPorColor reyesSolos ∧
      ((Tablero.esMaterialInsuficiente reyesSolos = true ↔
          casoMaterialInsuficiente reyesSolos) ∧
        (EvaluadorEstadoDeJuego.esMaterialInsuficiente reyesSolos = true ↔
          casoMaterialInsuficiente reyesSolos)) :=
  ⟨by decide, C6_material_insuficiente_caracterizacion reyesSolos (by decide)⟩

/-- C10: on every board with exactly one king per colour the two
independent insufficient-material scans agree. -/
theorem C10_material_equivalencia (t : Tablero) (h : unReyPorColor t) :
    Tablero.esMaterialInsuficiente t = EvaluadorEstadoDeJuego.esMaterialInsuficiente t :=
  Bool.coe_iff_coe.mp
    ((material_tablero_iff_caso t).trans (material_evaluador_iff_caso t h).symm)

theorem C10_witness :
    unReyPorColor reyesYAlfiles ∧
      Tablero.esMaterialInsuficiente reyesYAlfiles =
        EvaluadorEstadoDeJuego.esMaterialInsuficiente reyesYAlfiles :=
  ⟨by decide, C10_material_equivalencia reyesYAlfiles (by decide)⟩

-- ============================================================
-- Claims C3, C4, C7
-- ============================================================

/-- C3: for every piece genuinely on the board and every valid
destination, `simular_y_verificar_seguridad` hands the board back
exactly as it was — every cell, the moved piece, any captured piece,
the castling rights and the en-passant target — so in particular the
canonical position string is unchanged, whatever the verdict. -/
theorem C3_simulacion_restaura (t : Tablero) (pieza : Pieza) (destino : Int × Int)
    (hdv : esPosicionValida destino = true)
    (hp : getPieza t pieza.posicion = some pieza) :
    (simular_y_verificar_seguridad t pieza destino).2 = t ∧
    obtenerPosicionActual (simular_y_verificar_seguridad t pieza destino).2 =
      obtenerPosicionActual t := by
  have h := simular_restaura t pieza destino hdv hp
  exact ⟨h, by rw [h]⟩

theorem C3_witness :
    esPosicionValida ((0 : Int), (1 : Int)) = true ∧
    getPieza reyesSolos (Pieza.mk .blanco .rey (0, 0) false).posicion =
      some (Pieza.mk .blanco .rey (0, 0) false) ∧
    ((simular_y_verificar_seguridad reyesSolos (Pieza.mk .blanco .rey (0, 0) false)
        (0, 1)).2 = reyesSolos ∧
      obtenerPosicionActual (simular_y_verificar_seguridad reyesSolos
          (Pieza.mk .blanco .rey (0, 0) false) (0, 1)).2 =
        obtenerPosicionActual reyesSolos) :=
  ⟨by decide, by decide,
    C3_simulacion_restaura reyesSolos (Pieza.mk .blanco .rey (0, 0) false) (0, 1)
      (by decide) (by decide)⟩

/-- C4: on every consistent board (each piece mirrors its square) and
for every valid target square, `esCasillaAmenazada` returns `True`
exactly when some piece of the attacking colour attacks the square
under the specification's rules — pawns by their two forward diagonals,
knights and kings by their fixed offsets, sliders along their axes with
every strictly intermediate square empty (the first occupied square
blocking regardless of colour) — with no special-casing of which king
occupies the target. -/
theorem C4_amenaza_caracterizacion (t : Tablero) (pos : Int × Int) (atk : Color)
    (hval : esPosicionValida pos = true) (hcons : consistente t = true) :
    esCasillaAmenazada t pos atk = true ↔
      ∃ q pieza, getPieza t q = some pieza ∧ pieza.color = atk ∧
        amenazaEspec t q pieza pos :=
  esCasillaAmenazada_iff_espec t pos atk hval hcons

theorem C4_witness :
    esPosicionValida ((1 : Int), (1 : Int)) = true ∧ consistente reyesSolos = true ∧
      (esCasillaAmenazada reyesSolos (1, 1) .blanco = true ↔
        ∃ q pieza, getPieza reyesSolos q = some pieza ∧ pieza.color = .blanco ∧
          amenazaEspec reyesSolos q pieza (1, 1)) :=
  ⟨by decide, by decide,
    C4_amenaza_caracterizacion reyesSolos (1, 1) .blanco (by decide) (by decide)⟩

/-- C7: `registrar_posicion` bumps the stored count of the current
canonical string by exactly one (leaving every other string's count
unchanged), and `esTripleRepeticion` returns `True` exactly when the
stored count of the current canonical string is at least 3. -/
theorem C7_registro_y_repeticion (t : Tablero) :
    cuentaPosicion (registrar_posicion t).historial_posiciones (obtenerPosicionActual t) =
      cuentaPosicion t.historial_posiciones (obtenerPosicionActual t) + 1 ∧
    (∀ s, s ≠ obtenerPosicionActual t →
      cuentaPosicion (registrar_posicion t).historial_posiciones s =
        cuentaPosicion t.historial_posiciones s) ∧
    (esTripleRepeticion t = true ↔
      3 ≤ cuentaPosicion t.historial_posiciones (obtenerPosicionActual t)) := by
  refine ⟨?_, ?_, ?_⟩
  · exact cuentaPosicion_incrementa_self t.historial_posiciones (obtenerPosicionActual t)
  · intro s hs
    exact cuentaPosicion_incrementa_otro t.historial_posiciones (obtenerPosicionActual t) s
      (fun h => hs h.symm)
  · simp [esTripleRepeticion, ge_iff_le]

theorem C7_witness :
    ("x" ≠ obtenerPosicionActual reyesSolos) ∧
    cuentaPosicion (registrar_posicion reyesSolos).historial_posiciones
        (obtenerPosicionActual reyesSolos) =
      cuentaPosicion reyesSolos.historial_posiciones (obtenerPosicionActual reyesSolos) + 1 ∧
    cuentaPosicion (registrar_posicion reyesSolos).historial_posiciones "x" =
      cuentaPosicion reyesSolos.historial_posiciones "x" ∧
    (esTripleRepeticion reyesSolos = true ↔
      3 ≤ cuentaPosicion reyesSolos.historial_posiciones (obtenerPosicionActual reyesSolos)) := by
  have h := C7_registro_y_repeticion reyesSolos
  exact ⟨by decide, h.1, h.2.1 "x" (by decide), h.2.2⟩

-- ============================================================
-- Raw move generation.  Modelled from the spec: the per-piece
-- generators live in the `model/piezas/` files, which are absent from
-- the source tree; §4.6 fixes the raw candidate rules and §4.3 the
-- castling precondition enforced by the king's generator.
-- ============================================================

def direccionesTorre : List (Int × Int) := [(1, 0), (-1, 0), (0, 1), (0, -1)]

def direccionesAlfil : List (Int × Int) := [(1, 1), (1, -1), (-1, 1), (-1, -1)]

def saltosCaballo : List (Int × Int) :=
  [(2, 1), (2, -1), (-2, 1), (-2, -1), (1, 2), (1, -2), (-1, 2), (-1, -2)]

/-- The square is on the board and empty. -/
def casillaLibre (t : Tablero) (p : Int × Int) : Bool :=
  esPosicionValida p && (getPieza t p).isNone

/-- The square is on the board and holds an enemy piece. -/
def hayEnemigo (t : Tablero) (color : Color) (p : Int × Int) : Bool :=
  esPosicionValida p &&
    match getPieza t p with
    | some pz => decide (¬ pz.color = color)
    | none => false

/-- The square is on the board and does not hold an own piece. -/
def puedeOcupar (t : Tablero) (color : Color) (p : Int × Int) : Bool :=
  esPosicionValida p &&
    match getPieza t p with
    | some pz => decide (¬ pz.color = color)
    | none => true

/-- Modelled from the spec: ray-cast of a sliding piece along one
direction, stopped by the first occupied square, inclusive when that
square holds an enemy. -/
def rayo (t : Tablero) (color : Color) (s : Int × Int) : Nat → Int × Int → List (Int × Int)
  | 0, _ => []
  | fuel + 1, actual =>
    if esPosicionValida actual then
      match getPieza t actual with
      | none => actual :: rayo t color s fuel (actual.1 + s.1, actual.2 + s.2)
      | some pz => if pz.color = color then [] else [actual]
    else []

/-- Raw destinations of a sliding piece: the rays in each direction. -/
def destinosDeslizante (t : Tablero) (pieza : Pieza) (dirs : List (Int × Int)) :
    List (Int × Int) :=
  dirs.flatMap fun s => rayo t pieza.color s 8 (pieza.posicion.1 + s.1, pieza.posicion.2 + s.2)

/-- Modelled from the spec: raw pawn candidates — single forward onto an
empty square, double forward from the starting rank across empty
squares, the two diagonal captures, and the current en-passant
target. -/
def movimientosPeon (t : Tablero) (pieza : Pieza) : List (Int × Int) :=
  let q := pieza.posicion
  let d := direccion pieza.color
  let filaInicial : Int := if pieza.color = .blanco then 1 else 6
  let adelante : List (Int × Int) :=
    if casillaLibre t (q.1 + d, q.2) then [(q.1 + d, q.2)] else []
  let doble : List (Int × Int) :=
    if q.1 = filaInicial ∧ casillaLibre t (q.1 + d, q.2) = true ∧
        casillaLibre t (q.1 + 2 * d, q.2) = true then [(q.1 + 2 * d, q.2)] else []
  let cap1 : List (Int × Int) :=
    if hayEnemigo t pieza.color (q.1 + d, q.2 + 1) then [(q.1 + d, q.2 + 1)] else []
  let cap2 : List (Int × Int) :=
    if hayEnemigo t pieza.color (q.1 + d, q.2 - 1) then [(q.1 + d, q.2 - 1)] else []
  let ep1 : List (Int × Int) :=
    if t.objetivoPeonAlPaso = some (q.1 + d, q.2 + 1) then [(q.1 + d, q.2 + 1)] else []
  let ep2 : List (Int × Int) :=
    if t.objetivoPeonAlPaso = some (q.1 + d, q.2 - 1) then [(q.1 + d, q.2 - 1)] else []
  List.flatten [adelante, doble, cap1, cap2, ep1, ep2]

/-- Raw knight candidates: the eight fixed offsets onto squares not
holding an own piece. -/
def movimientosCaballo (t : Tablero) (pieza : Pieza) : List (Int × Int) :=
  (saltosCaballo.map fun s => (pieza.posicion.1 + s.1, pieza.posicion.2 + s.2)).filter
    (puedeOcupar t pieza.color)

/-- The castling-rights flag of one colour and flank. -/
def derechoDe (d : DerechosEnroque) (color : Color) (corto : Bool) : Bool :=
  match color with
  | .blanco => if corto then d.blancoCorto else d.blancoLargo
  | .negro => if corto then d.negroCorto else d.negroLargo

/-- Modelled from the spec (§4.3): the castling precondition enforced by
the king's move generator — king unmoved on its home square with the
flank's right intact, the flank rook unmoved on its corner, the squares
between them empty, the king not in check and neither crossing nor
landing on an attacked square. -/
def condicionesEnroque (t : Tablero) (pieza : Pieza) (corto : Bool) : Bool :=
  let color := pieza.color
  let fila : Int := if color = .blanco then 0 else 7
  let op := color.opuesto
  decide (pieza.posicion = (fila, (4 : Int))) && ! pieza.se_ha_movido &&
  derechoDe t.derechosEnroque color corto &&
  (match getPieza t (fila, if corto then (7 : Int) else 0) with
    | some torre => decide (torre.tipo = .torre ∧ torre.color = color) && ! torre.se_ha_movido
    | none => false) &&
  (if corto then casillaLibre t (fila, 5) && casillaLibre t (fila, 6)
    else casillaLibre t (fila, 1) && casillaLibre t (fila, 2) && casillaLibre t (fila, 3)) &&
  ! esCasillaAmenazada t (fila, 4) op &&
  (if corto then ! esCasillaAmenazada t (fila, 5) op && ! esCasillaAmenazada t (fila, 6) op
    else ! esCasillaAmenazada t (fila, 3) op && ! esCasillaAmenazada t (fila, 2) op)

/-- Raw king candidates: the eight adjacent squares not holding an own
piece, plus the castle destinations when the precondition holds. -/
def movimientosRey (t : Tablero) (pieza : Pieza) : List (Int × Int) :=
  let fila : Int := if pieza.color = .blanco then 0 else 7
  let pasos : List (Int × Int) :=
    ((direccionesTorre ++ direccionesAlfil).map fun s =>
      (pieza.posicion.1 + s.1, pieza.posicion.2 + s.2)).filter (puedeOcupar t pieza.color)
  let corto : List (Int × Int) :=
    if condicionesEnroque t pieza true then [(fila, 6)] else []
  let largo : List (Int × Int) :=
    if condicionesEnroque t pieza false then [(fila, 2)] else []
  List.flatten [pasos, corto, largo]

/-- Modelled from the spec (§4.6): each piece's raw candidate
destinations, ignoring check-safety. -/
def movimientosBrutos (t : Tablero) (pieza : Pieza) : List (Int × Int) :=
  match pieza.tipo with
  | .peon => movimientosPeon t pieza
  | .caballo => movimientosCaballo t pieza
  | .alfil => destinosDeslizante t pieza direccionesAlfil
  | .torre => destinosDeslizante t pieza direccionesTorre
  | .reina => destinosDeslizante t pieza (direccionesTorre ++ direccionesAlfil)
  | .rey => movimientosRey t pieza

/-- `Pieza.obtener_movimientos_legales`: raw candidates filtered through
the check-safety simulation (the single legality gate). -/
def obtener_movimientos_legales (t : Tablero) (pieza : Pieza) : List (Int × Int) :=
  (movimientosBrutos t pieza).filter fun destino =>
    (simular_y_verificar_seguridad t pieza destino).1

/-- The pairs contributed by one scanned cell of
`obtener_todos_movimientos_legales`, by content of the cell. -/
def paresDesde (t : Tablero) (color : Color) (origen : Int × Int) :
    Option Pieza → List ((Int × Int) × (Int × Int))
  | some pieza =>
    if pieza.color = color then
      (obtener_movimientos_legales t pieza).map fun destino => (origen, destino)
    else []
  | none => []

/-- `Tablero.obtener_todos_movimientos_legales`: scan the grid, collect
every legal `(origin, destination)` pair of the colour. -/
def obtener_todos_movimientos_legales (t : Tablero) (color : Color) :
    List ((Int × Int) × (Int × Int)) :=
  listaCasillas.flatMap fun origen => paresDesde t color origen (getPieza t origen)

-- ============================================================
-- Game-state update.  Modelled from the spec: the board delegates to
-- `juego.actualizarEstadoJuego`, which is absent from the source tree;
-- §4.1 fixes the order of consultation, §7 the fail-safe on a missing
-- king.
-- ============================================================

/-- The final branch of the state update, on the outcome of the king
search: a missing king aborts, leaving the board unchanged; otherwise
check and the existence of legal moves classify the position. -/
def estadoSegunRey (t : Tablero) : Option (Int × Int) → Tablero
  | none => t
  | some rey_pos =>
    let en_jaque := esCasillaAmenazada t rey_pos (turnoColor t).opuesto
    let hay := ! (obtener_todos_movimientos_legales t (turnoColor t)).isEmpty
    if en_jaque && ! hay then { t with estado_juego := .jaque_mate }
    else if ! en_jaque && ! hay then
      { t with estado_juego := .tablas, motivo_tablas := some .ahogado }
    else if en_jaque then { t with estado_juego := .jaque }
    else { t with estado_juego := .en_curso }

/-- Modelled from the spec (§4.1): the post-move state update, run after
the side-to-move flip — fifty-move counter, repetition, insufficient
material, then the check/legal-move classification of the new side to
move. -/
def actualizarEstadoJuego (t : Tablero) : Tablero :=
  if 100 ≤ t.contadorRegla50Movimientos then
    { t with estado_juego := .tablas, motivo_tablas := some .regla_50_movimientos }
  else if esTripleRepeticion t then
    { t with estado_juego := .tablas, motivo_tablas := some .repeticion }
  else if EvaluadorEstadoDeJuego.esMaterialInsuficiente t then
    { t with estado_juego := .tablas, motivo_tablas := some .material_insuficiente }
  else estadoSegunRey t (encontrarRey t (turnoColor t))

-- ============================================================
-- The move executor
-- ============================================================

inductive ResultadoMovimiento : Type
  | movimiento_ok
  | promocion_necesaria
  | error
  deriving DecidableEq, Repr

/-- `EjecutorMovimiento._actualizarContadores`: bump the ply counter,
bump the move number when the mover is Black (read before the turn
flip), reset or bump the fifty-move counter. -/
def actualizarContadores (t : Tablero) (pieza_movida : Pieza) (es_captura : Bool) : Tablero :=
  let t1 := { t with contadorPly := t.contadorPly + 1 }
  let t2 := if ¬ t1.turno_blanco = true then
      { t1 with numero_movimiento := t1.numero_movimiento + 1 }
    else t1
  if pieza_movida.tipo = .peon ∨ es_captura = true then
    { t2 with contadorRegla50Movimientos := 0 }
  else { t2 with contadorRegla50Movimientos := t2.contadorRegla50Movimientos + 1 }

/-- Steps 3-6 of `ejecutar_movimiento_normal`: relocate the piece,
append to the move history, update castling rights and the en-passant
target. -/
def prepararTablero (t : Tablero) (pieza_movida : Pieza) (pieza_capturada : Option Pieza)
    (posOrigen posDestino : Int × Int) : Tablero :=
  let t3 := setPieza t posDestino
    (some { pieza_movida with posicion := posDestino, se_ha_movido := true })
  let t4 := setPieza t3 posOrigen none
  let t5 := { t4 with historial_movimientos :=
    t4.historial_movimientos ++ [(pieza_movida.color, posOrigen, posDestino)] }
  let t6 := { t5 with derechosEnroque :=
    (actualizarDerechosEnroqueEjecutor t5.derechosEnroque pieza_movida posOrigen
      pieza_capturada posDestino) }
  { t6 with objetivoPeonAlPaso :=
    objetivoPeonAlPasoNuevo pieza_movida posOrigen posDestino }

/-- Steps 3-8 of `ejecutar_movimiento_normal`: the board as it stands
after counters, last move and the turn flip, before the position is
registered. -/
def prepararMovimiento (t : Tablero) (pieza_movida : Pieza) (pieza_capturada : Option Pieza)
    (es_captura : Bool) (posOrigen posDestino : Int × Int) : Tablero :=
  let t8 := actualizarContadores
    (prepararTablero t pieza_movida pieza_capturada posOrigen posDestino)
    pieza_movida es_captura
  let t9 := { t8 with ultimo_movimiento := some (posOrigen, posDestino) }
  { t9 with turno_blanco := ! t9.turno_blanco }

/-- Steps 3-10 of `ejecutar_movimiento_normal`, shared by its three
surviving branches: relocate the piece and update the bookkeeping,
detect promotion, flip the turn, register the position and update the
game state. -/
def continuarMovimiento (t : Tablero) (pieza_movida : Pieza) (pieza_capturada : Option Pieza)
    (es_captura : Bool) (posOrigen posDestino : Int × Int) : ResultadoMovimiento × Tablero :=
  let es_promocion := pieza_movida.tipo = .peon ∧
    ((pieza_movida.color = .blanco ∧ posDestino.1 = 7) ∨
      (pieza_movida.color = .negro ∧ posDestino.1 = 0))
  (if es_promocion then .promocion_necesaria else .movimiento_ok,
    actualizarEstadoJuego (registrar_posicion
      (prepararMovimiento t pieza_movida pieza_capturada es_captura posOrigen posDestino)))

/-- The en-passant branch of `ejecutar_movimiento_normal`, dispatching
on the content of the square holding the expected captured pawn. -/
def ejecutarAlPaso (t : Tablero) (pieza_movida : Pieza) (posOrigen posDestino : Int × Int) :
    Option Pieza → ResultadoMovimiento × Tablero
  | none => (.error, t)
  | some pieza_capturada_ep =>
    if pieza_capturada_ep.color = pieza_movida.color then (.error, t)
    else
      let t1 := { t with piezasCapturadas := t.piezasCapturadas ++ [pieza_capturada_ep] }
      let t2 := setPieza t1 (posOrigen.1, posDestino.2) none
      continuarMovimiento t2 pieza_movida (getPieza t posDestino) true posOrigen posDestino

/-- The normal-capture branch of `ejecutar_movimiento_normal`,
dispatching on the content of the destination. -/
def ejecutarCaptura (t : Tablero) (pieza_movida : Pieza) (posOrigen posDestino : Int × Int) :
    Option Pieza → ResultadoMovimiento × Tablero
  | some pieza_capturada =>
    if pieza_capturada.color = pieza_movida.color then (.error, t)
    else
      let t1 := { t with piezasCapturadas := t.piezasCapturadas ++ [pieza_capturada] }
      continuarMovimiento t1 pieza_movida (some pieza_capturada) true posOrigen posDestino
  | none => continuarMovimiento t pieza_movida none false posOrigen posDestino

/-- Dispatch of `ejecutar_movimiento_normal` on the piece found at the
origin. -/
def ejecutarConPieza (t : Tablero) (posOrigen posDestino : Int × Int) :
    Option Pieza → ResultadoMovimiento × Tablero
  | none => (.error, t)
  | some pieza_movida =>
    if pieza_movida.tipo = .peon ∧ t.objetivoPeonAlPaso = some posDestino then
      ejecutarAlPaso t pieza_movida posOrigen posDestino
        (getPieza t (posOrigen.1, posDestino.2))
    else ejecutarCaptura t pieza_movida posOrigen posDestino (getPieza t posDestino)

/-- `EjecutorMovimiento.ejecutar_movimiento_normal`: validity and
occupancy checks, the en-passant or capture branch, then the shared
tail.  The in-place mutation of the Python executor becomes explicit
state passing: the result is returned with the updated board. -/
def ejecutar_movimiento_normal (t : Tablero) (posOrigen posDestino : Int × Int) :
    ResultadoMovimiento × Tablero :=
  if ¬ (esPosicionValida posOrigen = true ∧ esPosicionValida posDestino = true) then
    (.error, t)
  else ejecutarConPieza t posOrigen posDestino (getPieza t posOrigen)

/-- Both castling rights of one colour revoked. -/
def sinDerechos (d : DerechosEnroque) : Color → DerechosEnroque
  | .blanco => { d with blancoCorto := false, blancoLargo := false }
  | .negro => { d with negroCorto := false, negroLargo := false }

/-- The board mutations of `ejecutar_enroque`: move king and rook,
append to the move history, revoke the colour\'s rights, clear the
en-passant target. -/
def prepararEnroqueTablero (t : Tablero) (color : Color) (corto : Bool)
    (rey torre : Pieza) : Tablero :=
  let fila : Int := if color = .blanco then 0 else 7
  let rey_pos_origen : Int × Int := (fila, 4)
  let rey_pos_destino : Int × Int := (fila, if corto then 6 else 2)
  let torre_pos_origen : Int × Int := (fila, if corto then 7 else 0)
  let torre_pos_destino : Int × Int := (fila, if corto then 5 else 3)
  let t1 := setPieza t rey_pos_destino
    (some { rey with posicion := rey_pos_destino, se_ha_movido := true })
  let t2 := setPieza t1 rey_pos_origen none
  let t3 := setPieza t2 torre_pos_destino
    (some { torre with posicion := torre_pos_destino, se_ha_movido := true })
  let t4 := setPieza t3 torre_pos_origen none
  let t5 := { t4 with historial_movimientos :=
    t4.historial_movimientos ++ [(color, rey_pos_origen, rey_pos_destino)] }
  let t6 := { t5 with derechosEnroque := sinDerechos t5.derechosEnroque color }
  { t6 with objetivoPeonAlPaso := none }

/-- The castle board after counters, last move and the turn flip. -/
def prepararEnroque (t : Tablero) (color : Color) (corto : Bool)
    (rey torre : Pieza) : Tablero :=
  let fila : Int := if color = .blanco then 0 else 7
  let t8 := actualizarContadores (prepararEnroqueTablero t color corto rey torre) rey false
  let t9 := { t8 with ultimo_movimiento :=
    (some ((fila, 4), (fila, if corto then 6 else 2))) }
  { t9 with turno_blanco := ! t9.turno_blanco }

/-- The body of `ejecutar_enroque` once king and rook have been read,
dispatching on the two cells. -/
def ejecutarEnroqueCon (t : Tablero) (color : Color) (corto : Bool) :
    Option Pieza → Option Pieza → Bool × Tablero
  | some rey, some torre =>
    if rey.tipo = .rey ∧ torre.tipo = .torre then
      (true, actualizarEstadoJuego (registrar_posicion
        (prepararEnroque t color corto rey torre)))
    else (false, t)
  | _, _ => (false, t)

/-- `EjecutorMovimiento.ejecutar_enroque`: move king and rook from their
fixed squares, revoke the colour's rights, clear the en-passant target,
advance counters as a non-pawn non-capture move, flip the turn, register
the position and update the state; `False` (board unchanged) when the
expected king or rook is not in place. -/
def ejecutar_enroque (t : Tablero) (color : Color) (corto : Bool) : Bool × Tablero :=
  let fila : Int := if color = .blanco then 0 else 7
  ejecutarEnroqueCon t color corto (getPieza t (fila, 4))
    (getPieza t (fila, if corto then 7 else 0))

-- ============================================================
-- Claim C5: the error sentinel of ejecutar_movimiento_normal
-- ============================================================

/-- The conditions under which `ejecutar_movimiento_normal` actually
returns the `error` sentinel: invalid squares, empty origin, a
malformed en-passant capture (expected captured pawn absent or own),
or an own-colour destination on a move that is *not* a pawn move onto
the current en-passant target — the en-passant branch takes precedence
over the own-colour check. -/
def condicionError (t : Tablero) (posOrigen posDestino : Int × Int) : Prop :=
  ¬ (esPosicionValida posOrigen = true ∧ esPosicionValida posDestino = true) ∨
  getPieza t posOrigen = none ∨
  (∃ pieza, getPieza t posOrigen = some pieza ∧
    (pieza.tipo = .peon ∧ t.objetivoPeonAlPaso = some posDestino) ∧
    (getPieza t (posOrigen.1, posDestino.2) = none ∨
      ∃ cap, getPieza t (posOrigen.1, posDestino.2) = some cap ∧ cap.color = pieza.color)) ∨
  (∃ pieza, getPieza t posOrigen = some pieza ∧
    ¬ (pieza.tipo = .peon ∧ t.objetivoPeonAlPaso = some posDestino) ∧
    ∃ cap, getPieza t posDestino = some cap ∧ cap.color = pieza.color)

/-- The shared tail of the executor never reports the error
sentinel. -/
theorem continuarMovimiento_fst (t : Tablero) (pieza_movida : Pieza)
    (pieza_capturada : Option Pieza) (es_captura : Bool) (posOrigen posDestino : Int × Int) :
    (continuarMovimiento t pieza_movida pieza_capturada es_captura
      posOrigen posDestino).1 ≠ .error := by
  simp only [continuarMovimiento]
  split <;> simp

/-- C5 (amended): `ejecutar_movimiento_normal` returns `error` exactly
under `condicionError`, and every `error` return leaves the board
unchanged. -/
theorem C5_condiciones_error (t : Tablero) (posOrigen posDestino : Int × Int) :
    ((ejecutar_movimiento_normal t posOrigen posDestino).1 = .error ↔
      condicionError t posOrigen posDestino) ∧
    ((ejecutar_movimiento_normal t posOrigen posDestino).1 = .error →
      (ejecutar_movimiento_normal t posOrigen posDestino).2 = t) := by
  unfold ejecutar_movimiento_normal
  by_cases hval : esPosicionValida posOrigen = true ∧ esPosicionValida posDestino = true
  · rw [if_neg (not_not_intro hval)]
    cases hgo : getPieza t posOrigen with
    | none =>
      have he : ejecutarConPieza t posOrigen posDestino none = (.error, t) := rfl
      rw [he]
      exact ⟨iff_of_true rfl (Or.inr (Or.inl hgo)), fun _ => rfl⟩
    | some pieza =>
      simp only [ejecutarConPieza]
      by_cases hep : pieza.tipo = .peon ∧ t.objetivoPeonAlPaso = some posDestino
      · rw [if_pos hep]
        cases hge : getPieza t (posOrigen.1, posDestino.2) with
        | none =>
          have he : ejecutarAlPaso t pieza posOrigen posDestino none = (.error, t) := rfl
          rw [he]
          exact ⟨iff_of_true rfl (Or.inr (Or.inr (Or.inl ⟨pieza, hgo, hep, Or.inl hge⟩))),
            fun _ => rfl⟩
        | some pcap =>
          simp only [ejecutarAlPaso]
          by_cases hcol : pcap.color = pieza.color
          · rw [if_pos hcol]
            exact ⟨iff_of_true rfl
              (Or.inr (Or.inr (Or.inl ⟨pieza, hgo, hep, Or.inr ⟨pcap, hge, hcol⟩⟩))),
              fun _ => rfl⟩
          · rw [if_neg hcol]
            constructor
            · apply iff_of_false (continuarMovimiento_fst _ _ _ _ _ _)
              rintro (h | h | ⟨pieza2, hgo2, -, hcase⟩ | ⟨pieza2, hgo2, hnep, -⟩)
              · exact h hval
              · rw [hgo] at h
                exact Option.noConfusion h
              · rw [hgo, Option.some_inj] at hgo2
                subst hgo2
                rcases hcase with h | ⟨cap, hge2, hcol2⟩
                · rw [hge] at h
                  exact Option.noConfusion h
                · rw [hge, Option.some_inj] at hge2
                  subst hge2
                  exact hcol hcol2
              · rw [hgo, Option.some_inj] at hgo2
                subst hgo2
                exact hnep hep
            · intro h
              exact absurd h (continuarMovimiento_fst _ _ _ _ _ _)
      · rw [if_neg hep]
        cases hgd : getPieza t posDestino with
        | none =>
          simp only [ejecutarCaptura]
          constructor
          · apply iff_of_false (continuarMovimiento_fst _ _ _ _ _ _)
            rintro (h | h | ⟨pieza2, hgo2, hep2, -⟩ | ⟨pieza2, hgo2, -, cap, hgd2, -⟩)
            · exact h hval
            · rw [hgo] at h
              exact Option.noConfusion h
            · rw [hgo, Option.some_inj] at hgo2
              subst hgo2
              exact hep hep2
            · rw [hgd] at hgd2
              exact Option.noConfusion hgd2
          · intro h
            exact absurd h (continuarMovimiento_fst _ _ _ _ _ _)
        | some cap =>
          simp only [ejecutarCaptura]
          by_cases hcol : cap.color = pieza.color
          · rw [if_pos hcol]
            exact ⟨iff_of_true rfl
              (Or.inr (Or.inr (Or.inr ⟨pieza, hgo, hep, cap, hgd, hcol⟩))),
              fun _ => rfl⟩
          · rw [if_neg hcol]
            constructor
            · apply iff_of_false (continuarMovimiento_fst _ _ _ _ _ _)
              rintro (h | h | ⟨pieza2, hgo2, hep2, -⟩ | ⟨pieza2, hgo2, -, cap2, hgd2, hcol2⟩)
              · exact h hval
              · rw [hgo] at h
                exact Option.noConfusion h
              · rw [hgo, Option.some_inj] at hgo2
                subst hgo2
                exact hep hep2
              · rw [hgo, Option.some_inj] at hgo2
                subst hgo2
                rw [hgd, Option.some_inj] at hgd2
                subst hgd2
                exact hcol hcol2
            · intro h
              exact absurd h (continuarMovimiento_fst _ _ _ _ _ _)
  · rw [if_pos hval]
    exact ⟨iff_of_true rfl (Or.inl hval), fun _ => rfl⟩

/-- Board of the C5 counterexample: white pawn on (4,4), white knight
standing on the en-passant target (5,5), black pawn on (4,5) backing
the target. -/
def tableroC5 : Tablero :=
  { tableroDePiezas
      [⟨.blanco, .peon, (4, 4), true⟩, ⟨.blanco, .caballo, (5, 5), false⟩,
        ⟨.negro, .peon, (4, 5), true⟩] with
    objetivoPeonAlPaso := some (5, 5) }

/-- C5 counterexample: a pawn move onto the en-passant target whose
destination holds a piece of the mover's own colour is *not* rejected —
the en-passant branch runs first, so the claimed "error exactly when
... the destination holds a piece of the mover's own color" fails. -/
theorem C5_contraejemplo :
    (∃ pieza cap, getPieza tableroC5 ((4 : Int), (4 : Int)) = some pieza ∧
      pieza.tipo = .peon ∧
      getPieza tableroC5 ((5 : Int), (5 : Int)) = some cap ∧ cap.color = pieza.color) ∧
    (ejecutar_movimiento_normal tableroC5 (4, 4) (5, 5)).1 ≠ .error := by
  constructor
  · exact ⟨⟨.blanco, .peon, (4, 4), true⟩, ⟨.blanco, .caballo, (5, 5), false⟩,
      by decide, rfl, by decide, rfl⟩
  · decide

theorem C5_witness :
    (ejecutar_movimiento_normal tableroC5 ((0 : Int), (0 : Int)) (4, 4)).1 = .error ∧
    condicionError tableroC5 (0, 0) (4, 4) ∧
    (ejecutar_movimiento_normal tableroC5 (0, 0) (4, 4)).2 = tableroC5 := by
  have h := C5_condiciones_error tableroC5 (0, 0) (4, 4)
  exact ⟨by decide, h.1.mp (by decide), h.2 (by decide)⟩

-- ============================================================
-- Frame lemmas for the executor tail
-- ============================================================

theorem actualizarContadores_campos (t : Tablero) (pz : Pieza) (b : Bool) :
    (actualizarContadores t pz b).contadorPly = t.contadorPly + 1 ∧
    (actualizarContadores t pz b).numero_movimiento =
      (if ¬ t.turno_blanco = true then t.numero_movimiento + 1 else t.numero_movimiento) ∧
    (actualizarContadores t pz b).contadorRegla50Movimientos =
      (if pz.tipo = .peon ∨ b = true then 0 else t.contadorRegla50Movimientos + 1) ∧
    (actualizarContadores t pz b).casillas = t.casillas ∧
    (actualizarContadores t pz b).turno_blanco = t.turno_blanco ∧
    (actualizarContadores t pz b).piezasCapturadas = t.piezasCapturadas ∧
    (actualizarContadores t pz b).derechosEnroque = t.derechosEnroque ∧
    (actualizarContadores t pz b).objetivoPeonAlPaso = t.objetivoPeonAlPaso ∧
    (actualizarContadores t pz b).ultimo_movimiento = t.ultimo_movimiento ∧
    (actualizarContadores t pz b).historial_movimientos = t.historial_movimientos ∧
    (actualizarContadores t pz b).historial_posiciones = t.historial_posiciones ∧
    (actualizarContadores t pz b).estado_juego = t.estado_juego ∧
    (actualizarContadores t pz b).motivo_tablas = t.motivo_tablas := by
  refine ⟨?_, ?_, ?_, ?_, ?_, ?_, ?_, ?_, ?_, ?_, ?_, ?_, ?_⟩ <;>
    · simp only [actualizarContadores]
      split_ifs <;> rfl

/-- The modelled state update writes only the `estado_juego` and
`motivo_tablas` fields. -/
theorem actualizarEstadoJuego_frame (t : Tablero) :
    ∃ e m, actualizarEstadoJuego t =
      { t with estado_juego := e
               motivo_tablas := m } := by
  unfold actualizarEstadoJuego
  split_ifs
  · exact ⟨_, _, rfl⟩
  · exact ⟨_, _, rfl⟩
  · exact ⟨_, _, rfl⟩
  · cases hE : encontrarRey t (turnoColor t) with
    | none => exact ⟨t.estado_juego, t.motivo_tablas, rfl⟩
    | some rey_pos =>
      simp only [estadoSegunRey]
      split_ifs <;> exact ⟨_, _, rfl⟩

/-- Registering the position and updating the state touch nothing but
the occurrence table and the two state fields. -/
theorem finalizar_campos (x : Tablero) :
    (actualizarEstadoJuego (registrar_posicion x)).casillas = x.casillas ∧
    (actualizarEstadoJuego (registrar_posicion x)).contadorPly = x.contadorPly ∧
    (actualizarEstadoJuego (registrar_posicion x)).numero_movimiento = x.numero_movimiento ∧
    (actualizarEstadoJuego (registrar_posicion x)).contadorRegla50Movimientos =
      x.contadorRegla50Movimientos ∧
    (actualizarEstadoJuego (registrar_posicion x)).turno_blanco = x.turno_blanco ∧
    (actualizarEstadoJuego (registrar_posicion x)).objetivoPeonAlPaso =
      x.objetivoPeonAlPaso ∧
    (actualizarEstadoJuego (registrar_posicion x)).derechosEnroque = x.derechosEnroque ∧
    (actualizarEstadoJuego (registrar_posicion x)).piezasCapturadas = x.piezasCapturadas ∧
    (actualizarEstadoJuego (registrar_posicion x)).ultimo_movimiento =
      x.ultimo_movimiento ∧
    (actualizarEstadoJuego (registrar_posicion x)).historial_movimientos =
      x.historial_movimientos := by
  obtain ⟨e, m, h⟩ := actualizarEstadoJuego_frame (registrar_posicion x)
  rw [h]
  exact ⟨rfl, rfl, rfl, rfl, rfl, rfl, rfl, rfl, rfl, rfl⟩

theorem prepararMovimiento_campos (t : Tablero) (pz : Pieza) (cap : Option Pieza)
    (b : Bool) (o d : Int × Int) :
    (prepararMovimiento t pz cap b o d).contadorPly = t.contadorPly + 1 ∧
    (prepararMovimiento t pz cap b o d).numero_movimiento =
      (if ¬ t.turno_blanco = true then t.numero_movimiento + 1 else t.numero_movimiento) ∧
    (prepararMovimiento t pz cap b o d).contadorRegla50Movimientos =
      (if pz.tipo = .peon ∨ b = true then 0 else t.contadorRegla50Movimientos + 1) ∧
    (prepararMovimiento t pz cap b o d).turno_blanco = ! t.turno_blanco ∧
    (prepararMovimiento t pz cap b o d).historial_posiciones = t.historial_posiciones ∧
    (prepararMovimiento t pz cap b o d).estado_juego = t.estado_juego ∧
    (prepararMovimiento t pz cap b o d).motivo_tablas = t.motivo_tablas := by
  obtain ⟨h1, h2, h3, h4, h5, h6, h7, h8, h9, h10, h11, h12, h13⟩ :=
    actualizarContadores_campos (prepararTablero t pz cap o d) pz b
  refine ⟨?_, ?_, ?_, ?_, ?_, ?_, ?_⟩
  · simp only [prepararMovimiento]
    rw [h1]
    rfl
  · simp only [prepararMovimiento]
    rw [h2]
    rfl
  · simp only [prepararMovimiento]
    rw [h3]
    rfl
  · simp only [prepararMovimiento]
    rw [h5]
    rfl
  · simp only [prepararMovimiento]
    rw [h11]
    rfl
  · simp only [prepararMovimiento]
    rw [h12]
    rfl
  · simp only [prepararMovimiento]
    rw [h13]
    rfl

theorem prepararEnroque_campos (t : Tablero) (color : Color) (corto : Bool)
    (rey torre : Pieza) :
    (prepararEnroque t color corto rey torre).contadorPly = t.contadorPly + 1 ∧
    (prepararEnroque t color corto rey torre).numero_movimiento =
      (if ¬ t.turno_blanco = true then t.numero_movimiento + 1 else t.numero_movimiento) ∧
    (prepararEnroque t color corto rey torre).contadorRegla50Movimientos =
      (if rey.tipo = .peon ∨ false = true then 0 else t.contadorRegla50Movimientos + 1) ∧
    (prepararEnroque t color corto rey torre).turno_blanco = ! t.turno_blanco ∧
    (prepararEnroque t color corto rey torre).historial_posiciones =
      t.historial_posiciones := by
  obtain ⟨h1, h2, h3, h4, h5, h6, h7, h8, h9, h10, h11, h12, h13⟩ :=
    actualizarContadores_campos (prepararEnroqueTablero t color corto rey torre) rey false
  refine ⟨?_, ?_, ?_, ?_, ?_⟩
  · simp only [prepararEnroque]
    rw [h1]
    rfl
  · simp only [prepararEnroque]
    rw [h2]
    rfl
  · simp only [prepararEnroque]
    rw [h3]
    rfl
  · simp only [prepararEnroque]
    rw [h5]
    rfl
  · simp only [prepararEnroque]
    rw [h11]
    rfl

theorem continuar_contadores (t : Tablero) (pz : Pieza) (cap : Option Pieza) (b : Bool)
    (o d : Int × Int) :
    (continuarMovimiento t pz cap b o d).2.contadorPly = t.contadorPly + 1 ∧
    (continuarMovimiento t pz cap b o d).2.numero_movimiento =
      (if ¬ t.turno_blanco = true then t.numero_movimiento + 1 else t.numero_movimiento) ∧
    (continuarMovimiento t pz cap b o d).2.contadorRegla50Movimientos =
      (if pz.tipo = .peon ∨ b = true then 0 else t.contadorRegla50Movimientos + 1) ∧
    (continuarMovimiento t pz cap b o d).2.turno_blanco = ! t.turno_blanco := by
  obtain ⟨p1, p2, p3, p4, p5, p6, p7⟩ := prepararMovimiento_campos t pz cap b o d
  obtain ⟨f1, f2, f3, f4, f5, f6, f7, f8, f9, f10⟩ :=
    finalizar_campos (prepararMovimiento t pz cap b o d)
  have hsnd : (continuarMovimiento t pz cap b o d).2 =
      actualizarEstadoJuego (registrar_posicion (prepararMovimiento t pz cap b o d)) := rfl
  rw [hsnd]
  exact ⟨f2.trans p1, f3.trans p2, f4.trans p3, f5.trans p4⟩

theorem enroqueCon_contadores (t : Tablero) (color : Color) (corto : Bool)
    (orey otorre : Option Pieza)
    (h : (ejecutarEnroqueCon t color corto orey otorre).1 = true) :
    (ejecutarEnroqueCon t color corto orey otorre).2.contadorPly = t.contadorPly + 1 ∧
    (ejecutarEnroqueCon t color corto orey otorre).2.numero_movimiento =
      (if ¬ t.turno_blanco = true then t.numero_movimiento + 1 else t.numero_movimiento) ∧
    (ejecutarEnroqueCon t color corto orey otorre).2.contadorRegla50Movimientos =
      t.contadorRegla50Movimientos + 1 := by
  cases orey with
  | none => exact Bool.noConfusion h
  | some rey =>
    cases otorre with
    | none => exact Bool.noConfusion h
    | some torre =>
      simp only [ejecutarEnroqueCon] at h ⊢
      by_cases htipo : rey.tipo = .rey ∧ torre.tipo = .torre
      · rw [if_pos htipo] at h ⊢
        obtain ⟨p1, p2, p3, p4, p5⟩ := prepararEnroque_campos t color corto rey torre
        obtain ⟨f1, f2, f3, f4, f5, f6, f7, f8, f9, f10⟩ :=
          finalizar_campos (prepararEnroque t color corto rey torre)
        rw [if_neg (by rw [htipo.1]; simp)] at p3
        exact ⟨f2.trans p1, f3.trans p2, f4.trans p3⟩
      · rw [if_neg htipo] at h
        exact Bool.noConfusion h

/-- C9: on every successfully executed normal move the ply counter goes
up by one, the fifty-move counter resets exactly on a pawn move or a
capture (en-passant included) and otherwise goes up by one, and the
full-move number goes up by one exactly when the mover was Black; a
successful castle behaves as a non-pawn, non-capture move. -/
theorem C9_contadores (t : Tablero) (posOrigen posDestino : Int × Int) (pieza : Pieza)
    (hp : getPieza t posOrigen = some pieza)
    (hok : (ejecutar_movimiento_normal t posOrigen posDestino).1 ≠ .error) :
    ((ejecutar_movimiento_normal t posOrigen posDestino).2.contadorPly =
        t.contadorPly + 1 ∧
      (ejecutar_movimiento_normal t posOrigen posDestino).2.numero_movimiento =
        (if t.turno_blanco = false then t.numero_movimiento + 1 else t.numero_movimiento) ∧
      (ejecutar_movimiento_normal t posOrigen posDestino).2.contadorRegla50Movimientos =
        (if pieza.tipo = .peon ∨ ((pieza.tipo = .peon ∧
              t.objetivoPeonAlPaso = some posDestino) ∨
            (getPieza t posDestino).isSome = true) then 0
          else t.contadorRegla50Movimientos + 1)) ∧
    (∀ color corto, (ejecutar_enroque t color corto).1 = true →
      (ejecutar_enroque t color corto).2.contadorPly = t.contadorPly + 1 ∧
      (ejecutar_enroque t color corto).2.numero_movimiento =
        (if t.turno_blanco = false then t.numero_movimiento + 1 else t.numero_movimiento) ∧
      (ejecutar_enroque t color corto).2.contadorRegla50Movimientos =
        t.contadorRegla50Movimientos + 1) := by
  have hnum : ∀ a b : Nat,
      (if ¬ t.turno_blanco = true then a else b) = (if t.turno_blanco = false then a else b) := by
    intro a b
    cases t.turno_blanco <;> simp
  constructor
  · unfold ejecutar_movimiento_normal at hok ⊢
    by_cases hval : esPosicionValida posOrigen = true ∧ esPosicionValida posDestino = true
    · rw [if_neg (not_not_intro hval)] at hok ⊢
      rw [hp] at hok ⊢
      simp only [ejecutarConPieza] at hok ⊢
      by_cases hep : pieza.tipo = .peon ∧ t.objetivoPeonAlPaso = some posDestino
      · rw [if_pos hep] at hok ⊢
        cases hge : getPieza t (posOrigen.1, posDestino.2) with
        | none =>
          rw [hge] at hok
          exact absurd rfl hok
        | some pcap =>
          rw [hge] at hok
          simp only [ejecutarAlPaso] at hok ⊢
          by_cases hcol : pcap.color = pieza.color
          · rw [if_pos hcol] at hok
            exact absurd rfl hok
          · rw [if_neg hcol] at hok ⊢
            have hc := continuar_contadores
              (setPieza { t with piezasCapturadas := t.piezasCapturadas ++ [pcap] }
                (posOrigen.1, posDestino.2) none)
              pieza (getPieza t posDestino) true posOrigen posDestino
            obtain ⟨c1, c2, c3, c4⟩ := hc
            rw [if_pos (Or.inr rfl)] at c3
            rw [if_pos (Or.inl hep.1), ← hnum]
            exact ⟨c1, c2, c3⟩
      · rw [if_neg hep] at hok ⊢
        cases hgd : getPieza t posDestino with
        | none =>
          rw [hgd] at hok
          simp only [ejecutarCaptura] at hok ⊢
          have hc := continuar_contadores t pieza none false posOrigen posDestino
          obtain ⟨c1, c2, c3, c4⟩ := hc
          by_cases hpeon : pieza.tipo = .peon
          · rw [if_pos (Or.inl hpeon)] at c3
            rw [if_pos (Or.inl hpeon), ← hnum]
            exact ⟨c1, c2, c3⟩
          · have hcond : ¬ (pieza.tipo = TipoPieza.peon ∨ false = true) := by
              rintro (h | h)
              · exact hpeon h
              · exact Bool.noConfusion h
            rw [if_neg hcond] at c3
            have hcond2 : ¬ (pieza.tipo = TipoPieza.peon ∨
                ((pieza.tipo = TipoPieza.peon ∧ t.objetivoPeonAlPaso = some posDestino) ∨
                  (none : Option Pieza).isSome = true)) := by
              rintro (h | h | h)
              · exact hpeon h
              · exact hep h
              · exact Bool.noConfusion h
            rw [if_neg hcond2, ← hnum]
            exact ⟨c1, c2, c3⟩
        | some cap =>
          rw [hgd] at hok
          simp only [ejecutarCaptura] at hok ⊢
          by_cases hcol : cap.color = pieza.color
          · rw [if_pos hcol] at hok
            exact absurd rfl hok
          · rw [if_neg hcol] at hok ⊢
            have hc := continuar_contadores
              { t with piezasCapturadas := t.piezasCapturadas ++ [cap] }
              pieza (some cap) true posOrigen posDestino
            obtain ⟨c1, c2, c3, c4⟩ := hc
            rw [if_pos (Or.inr rfl)] at c3
            have hsome : (some cap : Option Pieza).isSome = true := rfl
            rw [if_pos (Or.inr (Or.inr hsome)), ← hnum]
            exact ⟨c1, c2, c3⟩
    · rw [if_pos hval] at hok
      exact absurd rfl hok
  · intro color corto hexito
    obtain ⟨c1, c2, c3⟩ := enroqueCon_contadores t color corto _ _ hexito
    rw [← hnum]
    exact ⟨c1, c2, c3⟩

-- ============================================================
-- Claims C8 and C9: state update order and counters
-- ============================================================

/-- Board on which a castle is available: kings on their home squares
and the white kingside rook in its corner. -/
def tableroEnroque : Tablero := tableroDePiezas
  [⟨.blanco, .rey, (0, 4), false⟩, ⟨.blanco, .torre, (0, 7), false⟩,
    ⟨.negro, .rey, (7, 4), false⟩]

theorem C9_witness :
    getPieza tableroEnroque ((0 : Int), (4 : Int)) =
      some (Pieza.mk .blanco .rey (0, 4) false) ∧
    (ejecutar_movimiento_normal tableroEnroque (0, 4) (1, 4)).1 ≠ .error ∧
    (ejecutar_enroque tableroEnroque .blanco true).1 = true ∧
    ((ejecutar_movimiento_normal tableroEnroque (0, 4) (1, 4)).2.contadorPly =
        tableroEnroque.contadorPly + 1 ∧
      (ejecutar_movimiento_normal tableroEnroque (0, 4) (1, 4)).2.numero_movimiento =
        (if tableroEnroque.turno_blanco = false then tableroEnroque.numero_movimiento + 1
          else tableroEnroque.numero_movimiento) ∧
      (ejecutar_movimiento_normal tableroEnroque (0, 4) (1, 4)).2.contadorRegla50Movimientos =
        (if (Pieza.mk .blanco .rey (0, 4) false).tipo = .peon ∨
            (((Pieza.mk .blanco .rey (0, 4) false).tipo = .peon ∧
                tableroEnroque.objetivoPeonAlPaso = some (1, 4)) ∨
              (getPieza tableroEnroque (1, 4)).isSome = true) then 0
          else tableroEnroque.contadorRegla50Movimientos + 1)) ∧
    ((ejecutar_enroque tableroEnroque .blanco true).2.contadorPly =
        tableroEnroque.contadorPly + 1 ∧
      (ejecutar_enroque tableroEnroque .blanco true).2.numero_movimiento =
        (if tableroEnroque.turno_blanco = false then tableroEnroque.numero_movimiento + 1
          else tableroEnroque.numero_movimiento) ∧
      (ejecutar_enroque tableroEnroque .blanco true).2.contadorRegla50Movimientos =
        tableroEnroque.contadorRegla50Movimientos + 1) := by
  have h := C9_contadores tableroEnroque (0, 4) (1, 4) (Pieza.mk .blanco .rey (0, 4) false)
    (by decide) (by decide)
  exact ⟨by decide, by decide, by decide, h.1, h.2 .blanco true (by decide)⟩

/-- C8: the modelled state update touches only the state and
draw-reason fields; it consults, in order, the fifty-move counter, the
repetition count, insufficient material, and then classifies the new
side to move by check and legal-move existence (aborting unchanged on a
missing king); and the executor runs it strictly after the side-to-move
flip and the position registration: every successful result equals the
state update applied to a registered board whose turn flag has already
flipped. -/
theorem C8_actualizar_estado (t : Tablero) (posOrigen posDestino : Int × Int) :
    (∃ e m, actualizarEstadoJuego t =
      { t with estado_juego := e
               motivo_tablas := m }) ∧
    (100 ≤ t.contadorRegla50Movimientos →
      (actualizarEstadoJuego t).estado_juego = .tablas ∧
      (actualizarEstadoJuego t).motivo_tablas = some .regla_50_movimientos) ∧
    (¬ 100 ≤ t.contadorRegla50Movimientos → esTripleRepeticion t = true →
      (actualizarEstadoJuego t).estado_juego = .tablas ∧
      (actualizarEstadoJuego t).motivo_tablas = some .repeticion) ∧
    (¬ 100 ≤ t.contadorRegla50Movimientos → ¬ esTripleRepeticion t = true →
      EvaluadorEstadoDeJuego.esMaterialInsuficiente t = true →
      (actualizarEstadoJuego t).estado_juego = .tablas ∧
      (actualizarEstadoJuego t).motivo_tablas = some .material_insuficiente) ∧
    (¬ 100 ≤ t.contadorRegla50Movimientos → ¬ esTripleRepeticion t = true →
      ¬ EvaluadorEstadoDeJuego.esMaterialInsuficiente t = true →
      encontrarRey t (turnoColor t) = none → actualizarEstadoJuego t = t) ∧
    (∀ rey_pos, ¬ 100 ≤ t.contadorRegla50Movimientos → ¬ esTripleRepeticion t = true →
      ¬ EvaluadorEstadoDeJuego.esMaterialInsuficiente t = true →
      encontrarRey t (turnoColor t) = some rey_pos →
      ((esCasillaAmenazada t rey_pos (turnoColor t).opuesto = true →
          obtener_todos_movimientos_legales t (turnoColor t) = [] →
          (actualizarEstadoJuego t).estado_juego = .jaque_mate) ∧
        (esCasillaAmenazada t rey_pos (turnoColor t).opuesto = false →
          obtener_todos_movimientos_legales t (turnoColor t) = [] →
          (actualizarEstadoJuego t).estado_juego = .tablas ∧
          (actualizarEstadoJuego t).motivo_tablas = some .ahogado) ∧
        (esCasillaAmenazada t rey_pos (turnoColor t).opuesto = true →
          obtener_todos_movimientos_legales t (turnoColor t) ≠ [] →
          (actualizarEstadoJuego t).estado_juego = .jaque) ∧
        (esCasillaAmenazada t rey_pos (turnoColor t).opuesto = false →
          obtener_todos_movimientos_legales t (turnoColor t) ≠ [] →
          (actualizarEstadoJuego t).estado_juego = .en_curso))) ∧
    (∀ res t', ejecutar_movimiento_normal t posOrigen posDestino = (res, t') →
      res ≠ .error →
      ∃ tf, t' = actualizarEstadoJuego (registrar_posicion tf) ∧
        tf.turno_blanco = ! t.turno_blanco) := by
  refine ⟨actualizarEstadoJuego_frame t, ?_, ?_, ?_, ?_, ?_, ?_⟩
  · intro h1
    unfold actualizarEstadoJuego
    rw [if_pos h1]
    exact ⟨rfl, rfl⟩
  · intro h1 h2
    unfold actualizarEstadoJuego
    rw [if_neg h1, if_pos h2]
    exact ⟨rfl, rfl⟩
  · intro h1 h2 h3
    unfold actualizarEstadoJuego
    rw [if_neg h1, if_neg h2, if_pos h3]
    exact ⟨rfl, rfl⟩
  · intro h1 h2 h3 h4
    unfold actualizarEstadoJuego
    rw [if_neg h1, if_neg h2, if_neg h3, h4]
    rfl
  · intro rey_pos h1 h2 h3 h4
    have hbase : actualizarEstadoJuego t = estadoSegunRey t (some rey_pos) := by
      unfold actualizarEstadoJuego
      rw [if_neg h1, if_neg h2, if_neg h3, h4]
    refine ⟨?_, ?_, ?_, ?_⟩
    · intro hamen hlist
      rw [hbase]
      simp only [estadoSegunRey, hamen, hlist]
      rfl
    · intro hamen hlist
      rw [hbase]
      simp only [estadoSegunRey, hamen, hlist]
      exact ⟨rfl, rfl⟩
    · intro hamen hlist
      have hL : (obtener_todos_movimientos_legales t (turnoColor t)).isEmpty = false := by
        rw [Bool.eq_false_iff]
        intro hT
        exact hlist (List.isEmpty_iff.mp hT)
      rw [hbase]
      simp only [estadoSegunRey, hamen, hL]
      rfl
    · intro hamen hlist
      have hL : (obtener_todos_movimientos_legales t (turnoColor t)).isEmpty = false := by
        rw [Bool.eq_false_iff]
        intro hT
        exact hlist (List.isEmpty_iff.mp hT)
      rw [hbase]
      simp only [estadoSegunRey, hamen, hL]
      rfl
  · intro res t' heq hres
    unfold ejecutar_movimiento_normal at heq
    by_cases hval : esPosicionValida posOrigen = true ∧ esPosicionValida posDestino = true
    · rw [if_neg (not_not_intro hval)] at heq
      cases hgo : getPieza t posOrigen with
      | none =>
        rw [hgo] at heq
        have : res = .error := (congrArg Prod.fst heq.symm).trans rfl
        exact absurd this hres
      | some pieza =>
        rw [hgo] at heq
        simp only [ejecutarConPieza] at heq
        by_cases hep : pieza.tipo = .peon ∧ t.objetivoPeonAlPaso = some posDestino
        · rw [if_pos hep] at heq
          cases hge : getPieza t (posOrigen.1, posDestino.2) with
          | none =>
            rw [hge] at heq
            have : res = .error := (congrArg Prod.fst heq.symm).trans rfl
            exact absurd this hres
          | some pcap =>
            rw [hge] at heq
            simp only [ejecutarAlPaso] at heq
            by_cases hcol : pcap.color = pieza.color
            · rw [if_pos hcol] at heq
              have : res = .error := (congrArg Prod.fst heq.symm).trans rfl
              exact absurd this hres
            · rw [if_neg hcol] at heq
              have ht' := congrArg Prod.snd heq.symm
              exact ⟨prepararMovimiento
                  (setPieza { t with piezasCapturadas := t.piezasCapturadas ++ [pcap] }
                    (posOrigen.1, posDestino.2) none)
                  pieza (getPieza t posDestino) true posOrigen posDestino,
                ht', (prepararMovimiento_campos _ _ _ _ _ _).2.2.2.1⟩
        · rw [if_neg hep] at heq
          cases hgd : getPieza t posDestino with
          | none =>
            rw [hgd] at heq
            simp only [ejecutarCaptura] at heq
            have ht' := congrArg Prod.snd heq.symm
            exact ⟨prepararMovimiento t pieza none false posOrigen posDestino,
              ht', (prepararMovimiento_campos _ _ _ _ _ _).2.2.2.1⟩
          | some cap =>
            rw [hgd] at heq
            simp only [ejecutarCaptura] at heq
            by_cases hcol : cap.color = pieza.color
            · rw [if_pos hcol] at heq
              have : res = .error := (congrArg Prod.fst heq.symm).trans rfl
              exact absurd this hres
            · rw [if_neg hcol] at heq
              have ht' := congrArg Prod.snd heq.symm
              exact ⟨prepararMovimiento
                  { t with piezasCapturadas := t.piezasCapturadas ++ [cap] }
                  pieza (some cap) true posOrigen posDestino,
                ht', (prepararMovimiento_campos _ _ _ _ _ _).2.2.2.1⟩
    · rw [if_pos hval] at heq
      have : res = .error := (congrArg Prod.fst heq.symm).trans rfl
      exact absurd this hres

theorem C8_witness :
    ¬ 100 ≤ reyesSolos.contadorRegla50Movimientos ∧
    ¬ esTripleRepeticion reyesSolos = true ∧
    EvaluadorEstadoDeJuego.esMaterialInsuficiente reyesSolos = true ∧
    ((actualizarEstadoJuego reyesSolos).estado_juego = .tablas ∧
      (actualizarEstadoJuego reyesSolos).motivo_tablas = some .material_insuficiente) ∧
    (ejecutar_movimiento_normal reyesSolos ((0 : Int), (0 : Int)) (1, 1)).1 ≠ .error ∧
    (∃ tf, (ejecutar_movimiento_normal reyesSolos (0, 0) (1, 1)).2 =
        actualizarEstadoJuego (registrar_posicion tf) ∧
      tf.turno_blanco = ! reyesSolos.turno_blanco) := by
  have h := C8_actualizar_estado reyesSolos (0, 0) (1, 1)
  refine ⟨by decide, by decide, by decide,
    h.2.2.2.1 (by decide) (by decide) (by decide), by decide, ?_⟩
  exact h.2.2.2.2.2.2 (ejecutar_movimiento_normal reyesSolos (0, 0) (1, 1)).1
    (ejecutar_movimiento_normal reyesSolos (0, 0) (1, 1)).2 rfl (by decide)

-- ============================================================
-- Claim C1: every enumerated legal move is check-safe
-- ============================================================

/-- Unpacking membership in the legal-move enumeration: the origin
holds a piece of the colour, the destination is one of its raw
candidates, and the check-safety simulation approved it. -/
theorem mem_legales {t : Tablero} {color : Color} {o d : Int × Int}
    (h : (o, d) ∈ obtener_todos_movimientos_legales t color) :
    ∃ pieza, getPieza t o = some pieza ∧ pieza.color = color ∧
      d ∈ movimientosBrutos t pieza ∧
      (simular_y_verificar_seguridad t pieza d).1 = true := by
  unfold obtener_todos_movimientos_legales at h
  rw [List.mem_flatMap] at h
  obtain ⟨origen, -, hmem⟩ := h
  cases hg : getPieza t origen with
  | none =>
    rw [hg] at hmem
    simp [paresDesde] at hmem
  | some pieza =>
    rw [hg] at hmem
    simp only [paresDesde] at hmem
    by_cases hc : pieza.color = color
    · rw [if_pos hc] at hmem
      rw [List.mem_map] at hmem
      obtain ⟨destino, hdm, heq⟩ := hmem
      injection heq with e1 e2
      subst e1
      subst e2
      rw [obtener_movimientos_legales, List.mem_filter] at hdm
      exact ⟨pieza, hg, hc, hdm.1, hdm.2⟩
    · rw [if_neg hc] at hmem
      exact absurd hmem (List.not_mem_nil _)

/-- C1: every `(origin, destination)` pair returned by the legal-move
enumeration is check-safe — applying the move (as the simulation does)
leaves the moving colour's king, as located on the post-move board, on
a square not attacked by the opposite colour according to
`esCasillaAmenazada`. -/
theorem C1_movimientos_seguros (t : Tablero) (color : Color) (origen destino : Int × Int)
    (hmem : (origen, destino) ∈ obtener_todos_movimientos_legales t color) :
    ∃ pieza rey_pos, getPieza t origen = some pieza ∧ pieza.color = color ∧
      encontrarRey (aplicarSimulacion t pieza destino) pieza.color = some rey_pos ∧
      esCasillaAmenazada (aplicarSimulacion t pieza destino) rey_pos
        pieza.color.opuesto = false := by
  obtain ⟨pieza, hg, hc, -, hseg⟩ := mem_legales hmem
  refine ⟨pieza, ?_⟩
  have hseg' : (match encontrarRey (aplicarSimulacion t pieza destino) pieza.color with
      | none => false
      | some rey_pos =>
        ! esCasillaAmenazada (aplicarSimulacion t pieza destino) rey_pos
            pieza.color.opuesto) = true := hseg
  cases hrey : encontrarRey (aplicarSimulacion t pieza destino) pieza.color with
  | none =>
    rw [hrey] at hseg'
    exact Bool.noConfusion hseg'
  | some rey_pos =>
    rw [hrey] at hseg'
    refine ⟨rey_pos, hg, hc, rfl, ?_⟩
    cases hE : esCasillaAmenazada (aplicarSimulacion t pieza destino) rey_pos
        pieza.color.opuesto with
    | false => rfl
    | true =>
      have hseg2 : (! esCasillaAmenazada (aplicarSimulacion t pieza destino) rey_pos
          pieza.color.opuesto) = true := hseg'
      rw [hE] at hseg2
      exact Bool.noConfusion hseg2

theorem C1_witness :
    (((0 : Int), (0 : Int)), ((1 : Int), (1 : Int))) ∈
      obtener_todos_movimientos_legales reyesSolos .blanco ∧
    ∃ pieza rey_pos, getPieza reyesSolos (0, 0) = some pieza ∧ pieza.color = .blanco ∧
      encontrarRey (aplicarSimulacion reyesSolos pieza (1, 1)) pieza.color = some rey_pos ∧
      esCasillaAmenazada (aplicarSimulacion reyesSolos pieza (1, 1)) rey_pos
        pieza.color.opuesto = false :=
  ⟨by decide, C1_movimientos_seguros reyesSolos .blanco (0, 0) (1, 1) (by decide)⟩

-- ============================================================
-- Claim C2: infrastructure.  Congruence: threat detection, king
-- search and the counting scans read the board only through `getPieza`.
-- ============================================================

theorem countP_puntual {α : Type} (l : List α) (p q : α → Bool)
    (h : ∀ a ∈ l, p a = q a) : l.countP p = l.countP q := by
  induction l with
  | nil => rfl
  | cons a l ih =>
    rw [List.countP_cons, List.countP_cons, h a (List.mem_cons_self _ _),
      ih (fun b hb => h b (List.mem_cons_of_mem _ hb))]

theorem caminoLibre_congr {a b : Tablero} (h : ∀ p, getPieza a p = getPieza b p)
    (obj paso : Int × Int) :
    ∀ (fuel : Nat) (actual : Int × Int),
      caminoLibre a obj paso fuel actual = caminoLibre b obj paso fuel actual := by
  intro fuel
  induction fuel with
  | zero => intro actual; rfl
  | succ n ih =>
    intro actual
    rw [caminoLibre, caminoLibre, h actual, ih]

theorem amenazaDeslizante_congr {a b : Tablero} (h : ∀ p, getPieza a p = getPieza b p)
    (pieza : Pieza) (pos : Int × Int) :
    amenazaDeslizante a pieza pos = amenazaDeslizante b pieza pos := by
  unfold amenazaDeslizante
  split_ifs <;> first | rfl | rw [caminoLibre_congr h]

theorem amenazaDePieza_congr {a b : Tablero} (h : ∀ p, getPieza a p = getPieza b p)
    (pieza : Pieza) (pos : Int × Int) :
    amenazaDePieza a pieza pos = amenazaDePieza b pieza pos := by
  unfold amenazaDePieza
  cases pieza.tipo <;> first | rfl | rw [amenazaDeslizante_congr h]

theorem any_puntual {α : Type} (l : List α) (p q : α → Bool)
    (h : ∀ a ∈ l, p a = q a) : l.any p = l.any q := by
  induction l with
  | nil => rfl
  | cons a l ih =>
    rw [List.any_cons, List.any_cons, h a (List.mem_cons_self _ _),
      ih (fun b hb => h b (List.mem_cons_of_mem _ hb))]

theorem findQ_puntual {α : Type} (l : List α) (p q : α → Bool)
    (h : ∀ a, p a = q a) : l.find? p = l.find? q := by
  induction l with
  | nil => rfl
  | cons a l ih => rw [List.find?_cons, List.find?_cons, h a, ih]

theorem esCasillaAmenazada_congr {a b : Tablero} (h : ∀ p, getPieza a p = getPieza b p)
    (pos : Int × Int) (atk : Color) :
    esCasillaAmenazada a pos atk = esCasillaAmenazada b pos atk := by
  unfold esCasillaAmenazada
  split_ifs with hv
  · apply any_puntual
    intro r hr
    apply any_puntual
    intro c hc
    rw [h ((r : Int), (c : Int))]
    cases getPieza b ((r : Int), (c : Int)) with
    | none => rfl
    | some pieza =>
      show (if pieza.color ≠ atk then false else amenazaDePieza a pieza pos) =
        (if pieza.color ≠ atk then false else amenazaDePieza b pieza pos)
      rw [amenazaDePieza_congr h]
  · rfl

theorem encontrarRey_congr {a b : Tablero} (h : ∀ p, getPieza a p = getPieza b p)
    (color : Color) : encontrarRey a color = encontrarRey b color := by
  unfold encontrarRey buscarCasilla
  apply findQ_puntual
  intro p
  rw [h p]

theorem consistente_congr {a b : Tablero} (h : ∀ p, getPieza a p = getPieza b p) :
    consistente a = consistente b := by
  unfold consistente
  apply congrArg
  funext r
  apply congrArg
  funext c
  rw [h ((r : Int), (c : Int))]

theorem cuentaReyes_congr {a b : Tablero} (h : ∀ p, getPieza a p = getPieza b p)
    (color : Color) : cuentaReyes a color = cuentaReyes b color := by
  unfold cuentaReyes
  apply countP_puntual
  intro p hp
  rw [h p]

-- ============================================================
-- The reachability invariant and its vocabulary
-- ============================================================

/-- The mover of the last completed move left their own king safe: the
king of the colour that is *not* to move is not attacked by the colour
to move. -/
def kSafe (t : Tablero) : Bool :=
  match encontrarRey t ((turnoColor t).opuesto) with
  | none => true
  | some rey_pos => ! esCasillaAmenazada t rey_pos (turnoColor t)

/-- A live en-passant target is the empty square jumped over by an
enemy pawn standing right behind it. -/
def epRespaldado (t : Tablero) : Bool :=
  match t.objetivoPeonAlPaso with
  | none => true
  | some rc =>
    (match getPieza t (rc.1 + direccion ((turnoColor t).opuesto), rc.2) with
     | some pz =>
       decide (pz.color = (turnoColor t).opuesto) && decide (pz.tipo = TipoPieza.peon)
     | none => false) && (getPieza t rc).isNone

/-- The inductive invariant of reachable boards: pieces mirror their
squares, one king a side, the side that just moved is not in check, and
the en-passant target is well-formed. -/
def invariante (t : Tablero) : Prop :=
  consistente t = true ∧ unReyPorColor t ∧ kSafe t = true ∧ epRespaldado t = true

theorem mem_listaCasillas {p : Int × Int} :
    p ∈ listaCasillas ↔ esPosicionValida p = true := by
  constructor
  · intro hmem
    have hall : listaCasillas.all esPosicionValida = true := by decide
    rw [List.all_eq_true] at hall
    exact hall p hmem
  · intro hv
    rw [esPosicionValida_iff] at hv
    obtain ⟨h1, h2, h3, h4⟩ := hv
    have h1m : p.1.toNat ∈ List.range 8 := List.mem_range.mpr (by omega)
    have h2m : p.2.toNat ∈ List.range 8 := List.mem_range.mpr (by omega)
    have heq : (((p.1.toNat : Nat) : Int), ((p.2.toNat : Nat) : Int)) = p := by
      apply Prod.ext <;> simp <;> omega
    rw [← heq]
    exact List.mem_flatMap.mpr ⟨p.1.toNat, h1m,
      List.mem_map_of_mem (fun c => (Int.ofNat p.1.toNat, Int.ofNat c)) h2m⟩

theorem listaCasillas_nodup : listaCasillas.Nodup := by decide

/-- A predicate counted once on a list holds on a unique element. -/
theorem countP_unico {α : Type} {l : List α} {f : α → Bool}
    (h1 : l.countP f = 1) {a b : α} (ha : a ∈ l) (hfa : f a = true)
    (hb : b ∈ l) (hfb : f b = true) : a = b := by
  have hfilter : (l.filter f).length = 1 := by
    rw [← List.countP_eq_length_filter]
    exact h1
  have ha' : a ∈ l.filter f := List.mem_filter.mpr ⟨ha, hfa⟩
  have hb' : b ∈ l.filter f := List.mem_filter.mpr ⟨hb, hfb⟩
  have hsing : l.filter f = [a] := lista_singleton.mpr ⟨hfilter, ha'⟩
  rw [hsing, List.mem_singleton] at hb'
  exact hb'.symm

theorem consistente_iff {t : Tablero} :
    consistente t = true ↔ ∀ p pz, getPieza t p = some pz → pz.posicion = p := by
  constructor
  · intro hc p pz h
    exact consistente_getPieza hc h
  · intro h
    unfold consistente
    rw [List.all_eq_true]
    intro r hr
    rw [List.all_eq_true]
    intro c hc
    cases hg : getPieza t ((r : Int), (c : Int)) with
    | none => rfl
    | some pz => exact decide_eq_true (h _ pz hg)

/-- With exactly one king of the colour on the board, the king search
returns precisely the square of that king. -/
theorem encontrarRey_unico {t : Tablero} {c : Color} {q : Int × Int} {kz : Pieza}
    (hcount : cuentaReyes t c = 1) (hq : getPieza t q = some kz)
    (hrey : kz.tipo = .rey) (hcol : kz.color = c) :
    encontrarRey t c = some q := by
  have hqv := esPosicionValida_of_getPieza_eq_some hq
  have hqmem : q ∈ listaCasillas := mem_listaCasillas.mpr hqv
  have hfq : esReyDe c (getPieza t q) = true := by
    rw [hq]
    simp [esReyDe, hrey, hcol]
  have hpaso : encontrarRey t c =
      listaCasillas.find? fun p => esReyDe c (getPieza t p) := by
    unfold encontrarRey buscarCasilla
    apply findQ_puntual
    intro p
    cases getPieza t p <;> rfl
  rw [hpaso]
  have hsome : (listaCasillas.find? fun p => esReyDe c (getPieza t p)).isSome := by
    rw [List.find?_isSome]
    exact ⟨q, hqmem, hfq⟩
  obtain ⟨aq, ha⟩ := Option.isSome_iff_exists.mp hsome
  have hfa := List.find?_some ha
  have hamem := List.mem_of_find?_eq_some ha
  have hcount' : listaCasillas.countP (fun p => esReyDe c (getPieza t p)) = 1 := hcount
  rw [ha, countP_unico hcount' hamem hfa hqmem hfq]

/-- Writing one valid cell changes the king count by swapping the old
content's contribution for the new one. -/
theorem countP_getPieza_set {t : Tablero} {q : Int × Int} (hq : esPosicionValida q = true)
    (v : Option Pieza) (f : Option Pieza → Bool) :
    ∀ l : List (Int × Int), l.Nodup → q ∈ l →
      l.countP (fun p => f (getPieza (setPieza t q v) p)) +
          (if f (getPieza t q) then 1 else 0) =
        l.countP (fun p => f (getPieza t p)) + (if f v then 1 else 0) := by
  intro l
  induction l with
  | nil =>
    intro _ h
    exact absurd h (List.not_mem_nil _)
  | cons a l ih =>
    intro hnd hmem
    rw [List.countP_cons, List.countP_cons]
    rcases List.mem_cons.mp hmem with rfl | hmem2
    · have hself : getPieza (setPieza t q v) q = v := getPieza_setPieza_self hq v
      have hrest : l.countP (fun p => f (getPieza (setPieza t q v) p)) =
          l.countP (fun p => f (getPieza t p)) := by
        apply countP_puntual
        intro p hp
        have hne : q ≠ p := by
          intro he
          rw [he] at hnd
          exact (List.nodup_cons.mp hnd).1 hp
        rw [getPieza_setPieza_ne hne]
      rw [hself, hrest]
      ring
    · have hne : a ≠ q := by
        intro he
        rw [he] at hnd
        exact (List.nodup_cons.mp hnd).1 hmem2
      rw [getPieza_setPieza_ne (fun hh => hne hh.symm)]
      have harith := ih (List.nodup_cons.mp hnd).2 hmem2
      rw [Nat.add_right_comm _ (if f (getPieza t a) = true then 1 else 0),
        Nat.add_right_comm _ (if f (getPieza t a) = true then 1 else 0), harith]

theorem cuentaReyes_setPieza (t : Tablero) {q : Int × Int} (hq : esPosicionValida q = true)
    (v : Option Pieza) (c : Color) :
    cuentaReyes (setPieza t q v) c + (if esReyDe c (getPieza t q) then 1 else 0) =
      cuentaReyes t c + (if esReyDe c v then 1 else 0) :=
  countP_getPieza_set hq v (esReyDe c) listaCasillas listaCasillas_nodup
    (mem_listaCasillas.mpr hq)

-- ============================================================
-- Raw capture moves attack their destination
-- ============================================================

theorem mem_si {α : Type} {c : Prop} [Decidable c] {x p : α}
    (h : p ∈ if c then [x] else ([] : List α)) : c ∧ p = x := by
  by_cases hc : c
  · rw [if_pos hc] at h
    exact ⟨hc, List.mem_singleton.mp h⟩
  · rw [if_neg hc] at h
    exact absurd h (List.not_mem_nil _)

/-- Every square produced by a ray-cast is on the board, reached from
the origin by a positive number of unit steps with every strictly
earlier square empty. -/
theorem rayo_analisis {t : Tablero} {color : Color} {s q : Int × Int} :
    ∀ (fuel k : Nat), 1 ≤ k →
      (∀ j : Nat, 1 ≤ j → j < k →
        getPieza t (q.1 + (j : Int) * s.1, q.2 + (j : Int) * s.2) = none) →
      ∀ p ∈ rayo t color s fuel (q.1 + (k : Int) * s.1, q.2 + (k : Int) * s.2),
        ∃ m : Nat, 1 ≤ m ∧ p = (q.1 + (m : Int) * s.1, q.2 + (m : Int) * s.2) ∧
          (∀ j : Nat, 1 ≤ j → j < m →
            getPieza t (q.1 + (j : Int) * s.1, q.2 + (j : Int) * s.2) = none) ∧
          esPosicionValida p = true := by
  intro fuel
  induction fuel with
  | zero =>
    intro k hk hvac p hp
    exact absurd hp (List.not_mem_nil _)
  | succ n ih =>
    intro k hk hvac p hp
    rw [rayo] at hp
    by_cases hv : esPosicionValida (q.1 + (k : Int) * s.1, q.2 + (k : Int) * s.2) = true
    · rw [if_pos hv] at hp
      cases hg : getPieza t (q.1 + (k : Int) * s.1, q.2 + (k : Int) * s.2) with
      | none =>
        rw [hg] at hp
        rcases List.mem_cons.mp hp with rfl | hp2
        · exact ⟨k, hk, rfl, hvac, hv⟩
        · have hvac2 : ∀ j : Nat, 1 ≤ j → j < k + 1 →
              getPieza t (q.1 + (j : Int) * s.1, q.2 + (j : Int) * s.2) = none := by
            intro j hj1 hj2
            by_cases hjk : j = k
            · rw [hjk]
              exact hg
            · exact hvac j hj1 (by omega)
          have hnext : ((q.1 + (k : Int) * s.1) + s.1, (q.2 + (k : Int) * s.2) + s.2) =
              (q.1 + ((k + 1 : Nat) : Int) * s.1, q.2 + ((k + 1 : Nat) : Int) * s.2) := by
            simp only [Prod.mk.injEq]
            push_cast
            constructor <;> ring
          rw [hnext] at hp2
          exact ih (k + 1) (by omega) hvac2 p hp2
      | some pz =>
        rw [hg] at hp
        have hp2 : p ∈ (if pz.color = color then ([] : List (Int × Int))
            else [(q.1 + (k : Int) * s.1, q.2 + (k : Int) * s.2)]) := hp
        by_cases hcol : pz.color = color
        · rw [if_pos hcol] at hp2
          exact absurd hp2 (List.not_mem_nil _)
        · rw [if_neg hcol] at hp2
          have hpe := List.mem_singleton.mp hp2
          subst hpe
          exact ⟨k, hk, rfl, hvac, hv⟩
    · rw [if_neg hv] at hp
      exact absurd hp (List.not_mem_nil _)

/-- A destination reached by unit steps over empty squares has its
strictly intermediate squares empty. -/
theorem entreLibre_de_vacios {t : Tablero} {q d s : Int × Int} {m : Nat}
    (hs1 : s.1 = 0 ∨ s.1 = 1 ∨ s.1 = -1) (hs2 : s.2 = 0 ∨ s.2 = 1 ∨ s.2 = -1)
    (hnz : ¬ (s.1 = 0 ∧ s.2 = 0)) (hm : 1 ≤ m)
    (hd1 : d.1 = q.1 + (m : Int) * s.1) (hd2 : d.2 = q.2 + (m : Int) * s.2)
    (hvac : ∀ j : Nat, 1 ≤ j → j < m →
      getPieza t (q.1 + (j : Int) * s.1, q.2 + (j : Int) * s.2) = none) :
    entreLibre t q d := by
  intro p hp
  unfold casillasEntre at hp
  have hps1 : pasoHacia q.1 d.1 = s.1 := by
    unfold pasoHacia
    rcases hs1 with h | h | h <;> rw [h] at hd1 ⊢ <;> split_ifs <;> omega
  have hps2 : pasoHacia q.2 d.2 = s.2 := by
    unfold pasoHacia
    rcases hs2 with h | h | h <;> rw [h] at hd2 ⊢ <;> split_ifs <;> omega
  have hdist : distEntre q d = m := by
    simp only [distEntre, Nat.max_def]
    rcases hs1 with h | h | h <;> rcases hs2 with h2 | h2 | h2
    · exact absurd ⟨h, h2⟩ hnz
    all_goals
      rw [h] at hd1
      rw [h2] at hd2
      simp only [mul_zero, mul_one, mul_neg_one] at hd1 hd2
      split_ifs <;> omega
  rw [hps1, hps2, hdist] at hp
  rw [mem_segmento] at hp
  obtain ⟨k, hk1, hkd, rfl⟩ := hp
  exact hvac k hk1 (by omega)

theorem direcciones_unitarias :
    ∀ s ∈ direccionesTorre ++ direccionesAlfil,
      (s.1 = 0 ∨ s.1 = 1 ∨ s.1 = -1) ∧ (s.2 = 0 ∨ s.2 = 1 ∨ s.2 = -1) ∧
        ¬ (s.1 = 0 ∧ s.2 = 0) := by decide

/-- Decomposition of a slider's raw destination: some direction of the
list, a positive number of steps, every strictly earlier square empty,
and the destination on the board. -/
theorem deslizante_analisis {t : Tablero} {pieza : Pieza} {dirs : List (Int × Int)}
    {d : Int × Int} (hd : d ∈ destinosDeslizante t pieza dirs) :
    ∃ s, s ∈ dirs ∧ ∃ m : Nat, 1 ≤ m ∧
      d = (pieza.posicion.1 + (m : Int) * s.1, pieza.posicion.2 + (m : Int) * s.2) ∧
      (∀ j : Nat, 1 ≤ j → j < m →
        getPieza t (pieza.posicion.1 + (j : Int) * s.1,
          pieza.posicion.2 + (j : Int) * s.2) = none) ∧
      esPosicionValida d = true := by
  rw [destinosDeslizante, List.mem_flatMap] at hd
  obtain ⟨s, hs, hray⟩ := hd
  have h1 : ((pieza.posicion.1 + s.1, pieza.posicion.2 + s.2) : Int × Int) =
      (pieza.posicion.1 + ((1 : Nat) : Int) * s.1,
        pieza.posicion.2 + ((1 : Nat) : Int) * s.2) := by
    simp
  rw [h1] at hray
  obtain ⟨m, hm, heq, hvac, hv⟩ := rayo_analisis (q := pieza.posicion) 8 1 (le_refl 1)
    (fun j hj1 hj2 => absurd (Nat.lt_of_lt_of_le hj2 hj1) (lt_irrefl j)) d hray
  exact ⟨s, hs, m, hm, heq, hvac, hv⟩

/-- A positive multiple of a rook direction lands on the row or column
of the origin. -/
theorem paso_recta {q d s : Int × Int} {m : Nat} (hs : s ∈ direccionesTorre) (hm : 1 ≤ m)
    (h1 : d.1 = q.1 + (m : Int) * s.1) (h2 : d.2 = q.2 + (m : Int) * s.2) :
    enLineaRecta q d := by
  unfold enLineaRecta
  fin_cases hs <;>
    (simp only [mul_one, mul_zero, mul_neg_one] at h1 h2
     exact ⟨by omega, by omega⟩)

/-- A positive multiple of a bishop direction lands on a diagonal of the
origin. -/
theorem paso_diagonal {q d s : Int × Int} {m : Nat} (hs : s ∈ direccionesAlfil) (hm : 1 ≤ m)
    (h1 : d.1 = q.1 + (m : Int) * s.1) (h2 : d.2 = q.2 + (m : Int) * s.2) :
    enDiagonal q d := by
  unfold enDiagonal
  fin_cases hs <;>
    (simp only [mul_one, mul_neg_one] at h1 h2
     simp only [Int.abs_eq_natAbs]
     exact ⟨by omega, by omega⟩)

/-- A raw candidate whose destination square is occupied attacks that
square in the sense of the specification's threat rule.  The non-attack
candidates are excluded: forward pawn pushes and castle destinations
require an empty square, and with a live well-formed en-passant target
(`epRespaldado`) the en-passant destination is empty too. -/
theorem brutos_ocupado_ataca {t : Tablero} {pieza : Pieza} {d : Int × Int}
    (hep : epRespaldado t = true)
    (hmem : d ∈ movimientosBrutos t pieza)
    (hocc : (getPieza t d).isSome = true) :
    amenazaEspec t pieza.posicion pieza d := by
  cases htipo : pieza.tipo with
  | peon =>
    simp only [movimientosBrutos, htipo] at hmem
    simp only [amenazaEspec, htipo]
    simp only [movimientosPeon] at hmem
    simp only [List.flatten_cons, List.flatten_nil, List.append_nil,
      List.mem_append] at hmem
    rcases hmem with h | h | h | h | h | h
    · obtain ⟨hc, rfl⟩ := mem_si h
      simp only [casillaLibre, Bool.and_eq_true] at hc
      have hnone := hc.2
      rw [Option.isNone_iff_eq_none] at hnone
      rw [hnone] at hocc
      simp at hocc
    · obtain ⟨hc, rfl⟩ := mem_si h
      simp only [casillaLibre, Bool.and_eq_true] at hc
      have hnone := hc.2.2.2
      rw [Option.isNone_iff_eq_none] at hnone
      rw [hnone] at hocc
      simp at hocc
    · obtain ⟨hc, rfl⟩ := mem_si h
      exact ⟨rfl, Or.inl rfl⟩
    · obtain ⟨hc, rfl⟩ := mem_si h
      exact ⟨rfl, Or.inr rfl⟩
    · obtain ⟨hc, rfl⟩ := mem_si h
      simp only [epRespaldado, hc, Bool.and_eq_true] at hep
      have hnone := hep.2
      rw [Option.isNone_iff_eq_none] at hnone
      rw [hnone] at hocc
      simp at hocc
    · obtain ⟨hc, rfl⟩ := mem_si h
      simp only [epRespaldado, hc, Bool.and_eq_true] at hep
      have hnone := hep.2
      rw [Option.isNone_iff_eq_none] at hnone
      rw [hnone] at hocc
      simp at hocc
  | caballo =>
    simp only [movimientosBrutos, htipo] at hmem
    simp only [amenazaEspec, htipo]
    simp only [movimientosCaballo, List.mem_filter, List.mem_map] at hmem
    obtain ⟨⟨s, hs, heq⟩, -⟩ := hmem
    have h1 : d.1 = pieza.posicion.1 + s.1 := congrArg Prod.fst heq.symm
    have h2 : d.2 = pieza.posicion.2 + s.2 := congrArg Prod.snd heq.symm
    fin_cases hs <;>
      (simp only [Int.abs_eq_natAbs]
       simp only at h1 h2
       omega)
  | rey =>
    simp only [movimientosBrutos, htipo] at hmem
    simp only [amenazaEspec, htipo]
    simp only [movimientosRey] at hmem
    simp only [List.flatten_cons, List.flatten_nil, List.append_nil,
      List.mem_append] at hmem
    rcases hmem with h | h | h
    · rw [List.mem_filter, List.mem_map] at h
      obtain ⟨⟨s, hs, heq⟩, -⟩ := h
      have h1 : d.1 = pieza.posicion.1 + s.1 := congrArg Prod.fst heq.symm
      have h2 : d.2 = pieza.posicion.2 + s.2 := congrArg Prod.snd heq.symm
      fin_cases hs <;>
        (simp only [Int.abs_eq_natAbs]
         simp only at h1 h2
         refine ⟨by omega, by omega, fun he => ?_⟩
         have e1 : d.1 = pieza.posicion.1 := congrArg Prod.fst he
         have e2 : d.2 = pieza.posicion.2 := congrArg Prod.snd he
         omega)
    · obtain ⟨hc, rfl⟩ := mem_si h
      simp only [condicionesEnroque, Bool.and_eq_true] at hc
      have h5 := hc.1.1.2
      simp only [if_true, Bool.and_eq_true] at h5
      have hlibre := h5.2
      simp only [casillaLibre, Bool.and_eq_true] at hlibre
      have hnone := hlibre.2
      rw [Option.isNone_iff_eq_none] at hnone
      rw [hnone] at hocc
      simp at hocc
    · obtain ⟨hc, rfl⟩ := mem_si h
      simp only [condicionesEnroque, Bool.and_eq_true] at hc
      have h5 := hc.1.1.2
      rw [if_neg Bool.false_ne_true] at h5
      simp only [Bool.and_eq_true] at h5
      have hlibre := h5.1.2
      simp only [casillaLibre, Bool.and_eq_true] at hlibre
      have hnone := hlibre.2
      rw [Option.isNone_iff_eq_none] at hnone
      rw [hnone] at hocc
      simp at hocc
  | torre =>
    simp only [movimientosBrutos, htipo] at hmem
    simp only [amenazaEspec, htipo]
    obtain ⟨s, hs, m, hm, heq, hvac, hv⟩ := deslizante_analisis hmem
    have h1 : d.1 = pieza.posicion.1 + (m : Int) * s.1 := congrArg Prod.fst heq
    have h2 : d.2 = pieza.posicion.2 + (m : Int) * s.2 := congrArg Prod.snd heq
    have hu := direcciones_unitarias s (List.mem_append_left _ hs)
    exact ⟨paso_recta hs hm h1 h2,
      entreLibre_de_vacios hu.1 hu.2.1 hu.2.2 hm h1 h2 hvac⟩
  | alfil =>
    simp only [movimientosBrutos, htipo] at hmem
    simp only [amenazaEspec, htipo]
    obtain ⟨s, hs, m, hm, heq, hvac, hv⟩ := deslizante_analisis hmem
    have h1 : d.1 = pieza.posicion.1 + (m : Int) * s.1 := congrArg Prod.fst heq
    have h2 : d.2 = pieza.posicion.2 + (m : Int) * s.2 := congrArg Prod.snd heq
    have hu := direcciones_unitarias s (List.mem_append_right _ hs)
    exact ⟨paso_diagonal hs hm h1 h2,
      entreLibre_de_vacios hu.1 hu.2.1 hu.2.2 hm h1 h2 hvac⟩
  | reina =>
    simp only [movimientosBrutos, htipo] at hmem
    simp only [amenazaEspec, htipo]
    obtain ⟨s, hs, m, hm, heq, hvac, hv⟩ := deslizante_analisis hmem
    have h1 : d.1 = pieza.posicion.1 + (m : Int) * s.1 := congrArg Prod.fst heq
    have h2 : d.2 = pieza.posicion.2 + (m : Int) * s.2 := congrArg Prod.snd heq
    have hu := direcciones_unitarias s hs
    refine ⟨?_, entreLibre_de_vacios hu.1 hu.2.1 hu.2.2 hm h1 h2 hvac⟩
    rcases List.mem_append.mp hs with hsl | hsl
    · exact Or.inl (paso_recta hsl hm h1 h2)
    · exact Or.inr (paso_diagonal hsl hm h1 h2)

-- ============================================================
-- Small colour, turn and grid congruence facts
-- ============================================================

theorem opuesto_opuesto (c : Color) : c.opuesto.opuesto = c := by
  cases c <;> rfl

theorem opuesto_de_ne {a b : Color} (h : ¬ a = b) : a = b.opuesto := by
  cases a <;> cases b
  · exact absurd rfl h
  · rfl
  · rfl
  · exact absurd rfl h

theorem direccion_no_cero (c : Color) : direccion c = 1 ∨ direccion c = -1 := by
  cases c <;> simp [direccion]

theorem turnoColor_congr {a b : Tablero} (h : a.turno_blanco = b.turno_blanco) :
    turnoColor a = turnoColor b := by
  unfold turnoColor
  rw [h]

theorem turnoColor_flip {a b : Tablero} (h : a.turno_blanco = ! b.turno_blanco) :
    turnoColor a = (turnoColor b).opuesto := by
  unfold turnoColor
  rw [h]
  cases b.turno_blanco <;> rfl

theorem getPieza_de_casillas {a b : Tablero} (h : a.casillas = b.casillas) (p : Int × Int) :
    getPieza a p = getPieza b p := by
  unfold getPieza
  rw [h]

theorem getPieza_setPieza_congr {a b : Tablero} (h : ∀ r, getPieza a r = getPieza b r)
    (q : Int × Int) (x : Option Pieza) (p : Int × Int) :
    getPieza (setPieza a q x) p = getPieza (setPieza b q x) p := by
  by_cases hq : q = p
  · subst hq
    by_cases hv : esPosicionValida q = true
    · rw [getPieza_setPieza_self hv, getPieza_setPieza_self hv]
    · rw [getPieza, if_neg hv, getPieza, if_neg hv]
  · rw [getPieza_setPieza_ne hq, getPieza_setPieza_ne hq, h p]

theorem casillaLibre_none {t : Tablero} {p : Int × Int} (h : casillaLibre t p = true) :
    getPieza t p = none := by
  simp only [casillaLibre, Bool.and_eq_true] at h
  exact Option.isNone_iff_eq_none.mp h.2

-- ============================================================
-- Shape of the raw pawn candidates
-- ============================================================

/-- Every raw pawn candidate is the single push, the double push (with
its two required empty squares) or a diagonal square. -/
theorem peon_movimiento_filas {t : Tablero} {pieza : Pieza} {d : Int × Int}
    (hmem : d ∈ movimientosPeon t pieza) :
    d = (pieza.posicion.1 + direccion pieza.color, pieza.posicion.2) ∨
    (d = (pieza.posicion.1 + 2 * direccion pieza.color, pieza.posicion.2) ∧
      casillaLibre t (pieza.posicion.1 + direccion pieza.color, pieza.posicion.2) = true ∧
      casillaLibre t d = true) ∨
    (d.1 = pieza.posicion.1 + direccion pieza.color ∧
      (d.2 = pieza.posicion.2 + 1 ∨ d.2 = pieza.posicion.2 - 1)) := by
  simp only [movimientosPeon] at hmem
  simp only [List.flatten_cons, List.flatten_nil, List.append_nil,
    List.mem_append] at hmem
  rcases hmem with h | h | h | h | h | h
  · obtain ⟨-, rfl⟩ := mem_si h
    exact Or.inl rfl
  · obtain ⟨hc, rfl⟩ := mem_si h
    exact Or.inr (Or.inl ⟨rfl, hc.2.1, hc.2.2⟩)
  · obtain ⟨-, rfl⟩ := mem_si h
    exact Or.inr (Or.inr ⟨rfl, Or.inl rfl⟩)
  · obtain ⟨-, rfl⟩ := mem_si h
    exact Or.inr (Or.inr ⟨rfl, Or.inr rfl⟩)
  · obtain ⟨-, rfl⟩ := mem_si h
    exact Or.inr (Or.inr ⟨rfl, Or.inl rfl⟩)
  · obtain ⟨-, rfl⟩ := mem_si h
    exact Or.inr (Or.inr ⟨rfl, Or.inr rfl⟩)

/-- A positive number of unit steps in a nonzero direction leaves the
origin. -/
theorem deslizante_ne {q d s : Int × Int} {m : Nat}
    (hu : (s.1 = 0 ∨ s.1 = 1 ∨ s.1 = -1) ∧ (s.2 = 0 ∨ s.2 = 1 ∨ s.2 = -1) ∧
      ¬ (s.1 = 0 ∧ s.2 = 0))
    (hm : 1 ≤ m) (h1 : d.1 = q.1 + (m : Int) * s.1) (h2 : d.2 = q.2 + (m : Int) * s.2) :
    d ≠ q := by
  intro h
  have e1 : d.1 = q.1 := congrArg Prod.fst h
  have e2 : d.2 = q.2 := congrArg Prod.snd h
  rcases hu.1 with hs1 | hs1 | hs1 <;> rcases hu.2.1 with hs2 | hs2 | hs2
  · exact hu.2.2 ⟨hs1, hs2⟩
  all_goals
    rw [hs1] at h1
    rw [hs2] at h2
    simp only [mul_zero, mul_one, mul_neg_one] at h1 h2
    omega

/-- No raw candidate of any piece is its own square. -/
theorem brutos_ne {t : Tablero} {pieza : Pieza} {d : Int × Int}
    (hmem : d ∈ movimientosBrutos t pieza) : d ≠ pieza.posicion := by
  have hdir := direccion_no_cero pieza.color
  cases htipo : pieza.tipo with
  | peon =>
    simp only [movimientosBrutos, htipo] at hmem
    rcases peon_movimiento_filas hmem with hdeq | ⟨hdeq, -, -⟩ | ⟨hd1, -⟩
    · intro h
      have e1 : d.1 = pieza.posicion.1 := congrArg Prod.fst h
      have f1 : d.1 = pieza.posicion.1 + direccion pieza.color := congrArg Prod.fst hdeq
      omega
    · intro h
      have e1 : d.1 = pieza.posicion.1 := congrArg Prod.fst h
      have f1 : d.1 = pieza.posicion.1 + 2 * direccion pieza.color := congrArg Prod.fst hdeq
      omega
    · intro h
      have e1 : d.1 = pieza.posicion.1 := congrArg Prod.fst h
      omega
  | caballo =>
    simp only [movimientosBrutos, htipo] at hmem
    simp only [movimientosCaballo, List.mem_filter, List.mem_map] at hmem
    obtain ⟨⟨s, hs, heq⟩, -⟩ := hmem
    have h1 : d.1 = pieza.posicion.1 + s.1 := congrArg Prod.fst heq.symm
    have h2 : d.2 = pieza.posicion.2 + s.2 := congrArg Prod.snd heq.symm
    intro h
    have e1 : d.1 = pieza.posicion.1 := congrArg Prod.fst h
    have e2 : d.2 = pieza.posicion.2 := congrArg Prod.snd h
    fin_cases hs <;>
      (simp only at h1 h2
       omega)
  | rey =>
    simp only [movimientosBrutos, htipo] at hmem
    simp only [movimientosRey] at hmem
    simp only [List.flatten_cons, List.flatten_nil, List.append_nil,
      List.mem_append] at hmem
    rcases hmem with h | h | h
    · rw [List.mem_filter, List.mem_map] at h
      obtain ⟨⟨s, hs, heq⟩, -⟩ := h
      have h1 : d.1 = pieza.posicion.1 + s.1 := congrArg Prod.fst heq.symm
      have h2 : d.2 = pieza.posicion.2 + s.2 := congrArg Prod.snd heq.symm
      intro h
      have e1 : d.1 = pieza.posicion.1 := congrArg Prod.fst h
      have e2 : d.2 = pieza.posicion.2 := congrArg Prod.snd h
      fin_cases hs <;>
        (simp only at h1 h2
         omega)
    · obtain ⟨hc, rfl⟩ := mem_si h
      simp only [condicionesEnroque, Bool.and_eq_true] at hc
      have hpos4 := of_decide_eq_true hc.1.1.1.1.1.1
      intro h
      rw [hpos4] at h
      have e2 := congrArg Prod.snd h
      simp only at e2
      omega
    · obtain ⟨hc, rfl⟩ := mem_si h
      simp only [condicionesEnroque, Bool.and_eq_true] at hc
      have hpos4 := of_decide_eq_true hc.1.1.1.1.1.1
      intro h
      rw [hpos4] at h
      have e2 := congrArg Prod.snd h
      simp only at e2
      omega
  | torre =>
    simp only [movimientosBrutos, htipo] at hmem
    obtain ⟨s, hs, m, hm, heq, -, -⟩ := deslizante_analisis hmem
    exact deslizante_ne (direcciones_unitarias s (List.mem_append_left _ hs)) hm
      (congrArg Prod.fst heq) (congrArg Prod.snd heq)
  | alfil =>
    simp only [movimientosBrutos, htipo] at hmem
    obtain ⟨s, hs, m, hm, heq, -, -⟩ := deslizante_analisis hmem
    exact deslizante_ne (direcciones_unitarias s (List.mem_append_right _ hs)) hm
      (congrArg Prod.fst heq) (congrArg Prod.snd heq)
  | reina =>
    simp only [movimientosBrutos, htipo] at hmem
    obtain ⟨s, hs, m, hm, heq, -, -⟩ := deslizante_analisis hmem
    exact deslizante_ne (direcciones_unitarias s hs) hm
      (congrArg Prod.fst heq) (congrArg Prod.snd heq)

theorem kSafe_congr {a b : Tablero} (hg : ∀ p, getPieza a p = getPieza b p)
    (ht : a.turno_blanco = b.turno_blanco) : kSafe a = kSafe b := by
  unfold kSafe
  rw [turnoColor_congr ht, encontrarRey_congr hg]
  cases encontrarRey b ((turnoColor b).opuesto) with
  | none => rfl
  | some rp => exact congrArg Bool.not (esCasillaAmenazada_congr hg rp (turnoColor b))

theorem epRespaldado_congr {a b : Tablero} (hg : ∀ p, getPieza a p = getPieza b p)
    (hep : a.objetivoPeonAlPaso = b.objetivoPeonAlPaso)
    (ht : a.turno_blanco = b.turno_blanco) : epRespaldado a = epRespaldado b := by
  unfold epRespaldado
  rw [turnoColor_congr ht, hep]
  cases b.objetivoPeonAlPaso with
  | none => rfl
  | some rc =>
    exact congrArg₂
      (fun x y => (match x with
        | some pz =>
          decide (pz.color = (turnoColor b).opuesto) && decide (pz.tipo = TipoPieza.peon)
        | none => false) && Option.isNone y)
      (hg (rc.1 + direccion (turnoColor b).opuesto, rc.2)) (hg rc)

theorem invariante_congr {a b : Tablero} (hg : ∀ p, getPieza a p = getPieza b p)
    (hep : a.objetivoPeonAlPaso = b.objetivoPeonAlPaso)
    (ht : a.turno_blanco = b.turno_blanco) : invariante a ↔ invariante b := by
  unfold invariante unReyPorColor
  rw [consistente_congr hg, kSafe_congr hg ht, epRespaldado_congr hg hep ht,
    cuentaReyes_congr hg .blanco, cuentaReyes_congr hg .negro]

/-- The grid of the prepared board is the two-write chain over the
intermediate board. -/
theorem getPieza_prepararMovimiento (tX : Tablero) (pz : Pieza) (cap : Option Pieza)
    (b : Bool) (o d p : Int × Int) :
    getPieza (prepararMovimiento tX pz cap b o d) p =
      getPieza (setPieza (setPieza tX d
        (some { pz with posicion := d, se_ha_movido := true })) o none) p := by
  have h1 : (prepararMovimiento tX pz cap b o d).casillas =
      (actualizarContadores (prepararTablero tX pz cap o d) pz b).casillas := rfl
  have h2 := (actualizarContadores_campos (prepararTablero tX pz cap o d) pz b).2.2.2.1
  have h3 : (prepararTablero tX pz cap o d).casillas =
      (setPieza (setPieza tX d
        (some { pz with posicion := d, se_ha_movido := true })) o none).casillas := rfl
  unfold getPieza
  rw [h1, h2, h3]

theorem prepararMovimiento_alPaso (tX : Tablero) (pz : Pieza) (cap : Option Pieza)
    (b : Bool) (o d : Int × Int) :
    (prepararMovimiento tX pz cap b o d).objetivoPeonAlPaso =
      objetivoPeonAlPasoNuevo pz o d := by
  have h1 : (prepararMovimiento tX pz cap b o d).objetivoPeonAlPaso =
      (actualizarContadores (prepararTablero tX pz cap o d) pz b).objetivoPeonAlPaso := rfl
  have h2 := (actualizarContadores_campos (prepararTablero tX pz cap o d) pz b).2.2.2.2.2.2.2.1
  rw [h1, h2]
  rfl

/-- Invariant preservation along the shared tail of the executor's three
surviving branches: `tX` is the working board (the pre-move board with at
most the en-passant victim removed), and the structural hypotheses record
how it relates to the pre-move board `t`. -/
theorem continuacion_invariante {t tX : Tablero} {pieza : Pieza} {cap : Option Pieza}
    {b : Bool} {o d : Int × Int}
    (hcons : consistente t = true) (hreyes : unReyPorColor t)
    (hcol : pieza.color = turnoColor t)
    (hseg : (simular_y_verificar_seguridad t pieza d).1 = true)
    (hpos : pieza.posicion = o)
    (hvo : esPosicionValida o = true) (hvd : esPosicionValida d = true)
    (hdo : d ≠ o)
    (hXo : getPieza tX o = some pieza)
    (hXsub : ∀ p x, getPieza tX p = some x → getPieza t p = some x)
    (hXreyes : ∀ c, cuentaReyes tX c = cuentaReyes t c)
    (hXdnk : ∀ c, esReyDe c (getPieza tX d) = false)
    (hXsim : ∀ u, getPieza tX u =
      getPieza (if pieza.tipo = TipoPieza.peon ∧ t.objetivoPeonAlPaso = some d then
          (if (getPieza t (o.1, d.2)).isSome then setPieza t (o.1, d.2) none else t)
        else t) u)
    (hXturno : tX.turno_blanco = t.turno_blanco)
    (hnuevoEp : ∀ rc, objetivoPeonAlPasoNuevo pieza o d = some rc →
      getPieza tX rc = none ∧ d = (rc.1 + direccion pieza.color, rc.2) ∧
      pieza.tipo = TipoPieza.peon ∧ o ≠ rc ∧ d ≠ rc) :
    invariante (actualizarEstadoJuego (registrar_posicion
      (prepararMovimiento tX pieza cap b o d))) := by
  have hF := finalizar_campos (prepararMovimiento tX pieza cap b o d)
  have hFgrid : ∀ p, getPieza (actualizarEstadoJuego (registrar_posicion
      (prepararMovimiento tX pieza cap b o d))) p =
      getPieza (prepararMovimiento tX pieza cap b o d) p :=
    getPieza_de_casillas hF.1
  rw [invariante_congr hFgrid hF.2.2.2.2.2.1 hF.2.2.2.2.1]
  have hPgrid := getPieza_prepararMovimiento tX pieza cap b o d
  have hPturno : (prepararMovimiento tX pieza cap b o d).turno_blanco =
      ! t.turno_blanco := by
    rw [(prepararMovimiento_campos tX pieza cap b o d).2.2.2.1, hXturno]
  have hturnoP : turnoColor (prepararMovimiento tX pieza cap b o d) =
      (turnoColor t).opuesto := turnoColor_flip hPturno
  have hopp : (turnoColor (prepararMovimiento tX pieza cap b o d)).opuesto =
      pieza.color := by
    rw [hturnoP, opuesto_opuesto]
    exact hcol.symm
  have hconsP : consistente (prepararMovimiento tX pieza cap b o d) = true := by
    rw [consistente_iff]
    intro p x hx
    rw [hPgrid p] at hx
    by_cases hpo : p = o
    · subst hpo
      rw [getPieza_setPieza_self hvo] at hx
      exact Option.noConfusion hx
    · rw [getPieza_setPieza_ne (fun h => hpo h.symm)] at hx
      by_cases hpd : p = d
      · subst hpd
        rw [getPieza_setPieza_self hvd] at hx
        injection hx with hx2
        subst hx2
        rfl
      · rw [getPieza_setPieza_ne (fun h => hpd h.symm)] at hx
        exact consistente_getPieza hcons (hXsub p x hx)
  have hcount : ∀ c, cuentaReyes (prepararMovimiento tX pieza cap b o d) c =
      cuentaReyes t c := by
    intro c
    have s1 := cuentaReyes_setPieza (setPieza tX d
      (some { pieza with posicion := d, se_ha_movido := true })) hvo (none : Option Pieza) c
    have s2 := cuentaReyes_setPieza tX hvd
      (some { pieza with posicion := d, se_ha_movido := true }) c
    have hgo' : getPieza (setPieza tX d
        (some { pieza with posicion := d, se_ha_movido := true })) o = some pieza := by
      rw [getPieza_setPieza_ne hdo, hXo]
    rw [hgo'] at s1
    have e1 : (if esReyDe c (none : Option Pieza) = true then (1 : Nat) else 0) = 0 := rfl
    rw [e1, Nat.add_zero] at s1
    have e2 : (if esReyDe c (getPieza tX d) = true then (1 : Nat) else 0) = 0 := by
      simp [hXdnk c]
    rw [e2, Nat.add_zero] at s2
    have e3 : esReyDe c (some { pieza with posicion := d, se_ha_movido := true }) =
        esReyDe c (some pieza) := rfl
    rw [e3] at s2
    calc cuentaReyes (prepararMovimiento tX pieza cap b o d) c
        = cuentaReyes (setPieza (setPieza tX d
            (some { pieza with posicion := d, se_ha_movido := true })) o none) c :=
          cuentaReyes_congr hPgrid c
      _ = cuentaReyes tX c := Nat.add_right_cancel (s1.trans s2)
      _ = cuentaReyes t c := hXreyes c
  have hsim : ∀ p, getPieza (prepararMovimiento tX pieza cap b o d) p =
      getPieza (aplicarSimulacion t pieza d) p := by
    intro p
    rw [hPgrid p, getPieza_aplicarSimulacion, hpos]
    apply getPieza_setPieza_congr _ o none p
    intro r
    apply getPieza_setPieza_congr _ d _ r
    intro u
    exact hXsim u
  have hksP : kSafe (prepararMovimiento tX pieza cap b o d) = true := by
    unfold kSafe
    rw [hopp, encontrarRey_congr hsim pieza.color]
    have hseg' : (match encontrarRey (aplicarSimulacion t pieza d) pieza.color with
        | none => false
        | some rey_pos => ! esCasillaAmenazada (aplicarSimulacion t pieza d) rey_pos
            pieza.color.opuesto) = true := hseg
    cases hE : encontrarRey (aplicarSimulacion t pieza d) pieza.color with
    | none => rfl
    | some rp =>
      rw [hE] at hseg'
      show (! esCasillaAmenazada (prepararMovimiento tX pieza cap b o d) rp
        (turnoColor (prepararMovimiento tX pieza cap b o d))) = true
      have hattacker : turnoColor (prepararMovimiento tX pieza cap b o d) =
          pieza.color.opuesto := by
        rw [hturnoP, ← hcol]
      rw [hattacker, esCasillaAmenazada_congr hsim rp pieza.color.opuesto]
      exact hseg'
  have hepP : epRespaldado (prepararMovimiento tX pieza cap b o d) = true := by
    unfold epRespaldado
    rw [prepararMovimiento_alPaso tX pieza cap b o d]
    cases hN : objetivoPeonAlPasoNuevo pieza o d with
    | none => rfl
    | some rc =>
      obtain ⟨hrcnone, hdeq, htp, horc, hdrc⟩ := hnuevoEp rc hN
      show ((match getPieza (prepararMovimiento tX pieza cap b o d)
          (rc.1 + direccion ((turnoColor (prepararMovimiento tX pieza cap b o d)).opuesto),
            rc.2) with
        | some pz =>
          decide (pz.color = (turnoColor (prepararMovimiento tX pieza cap b o d)).opuesto) &&
            decide (pz.tipo = TipoPieza.peon)
        | none => false) &&
        (getPieza (prepararMovimiento tX pieza cap b o d) rc).isNone) = true
      rw [hopp]
      have hback : ((rc.1 + direccion pieza.color, rc.2) : Int × Int) = d := hdeq.symm
      rw [hback]
      have hPd : getPieza (prepararMovimiento tX pieza cap b o d) d =
          some { pieza with posicion := d, se_ha_movido := true } := by
        rw [hPgrid d, getPieza_setPieza_ne (Ne.symm hdo), getPieza_setPieza_self hvd]
      rw [hPd]
      have hPrc : getPieza (prepararMovimiento tX pieza cap b o d) rc = none := by
        rw [hPgrid rc, getPieza_setPieza_ne horc, getPieza_setPieza_ne hdrc]
        exact hrcnone
      rw [hPrc]
      simp [htp]
  exact ⟨hconsP, ⟨(hcount .blanco).trans hreyes.1, (hcount .negro).trans hreyes.2⟩,
    hksP, hepP⟩

theorem direccion_opuesto (c : Color) : direccion c.opuesto = - direccion c := by
  cases c <;> rfl

/-- A legal non-castle move executed by `ejecutar_movimiento_normal`
preserves the reachability invariant; error outcomes leave the board
unchanged, so they preserve it trivially. -/
theorem normal_preserva {t : Tablero} {o d : Int × Int} {res : ResultadoMovimiento}
    {t' : Tablero} (hinv : invariante t)
    (hmem : (o, d) ∈ obtener_todos_movimientos_legales t (turnoColor t))
    (hexec : ejecutar_movimiento_normal t o d = (res, t')) :
    invariante t' := by
  obtain ⟨hcons, hreyes, hks, hep⟩ := hinv
  obtain ⟨pieza, hgo, hcol, hbru, hseg⟩ := mem_legales hmem
  have hpos : pieza.posicion = o := consistente_getPieza hcons hgo
  have hdo : d ≠ o := by
    have h := brutos_ne hbru
    rw [hpos] at h
    exact h
  have hdir := direccion_no_cero pieza.color
  simp only [ejecutar_movimiento_normal] at hexec
  by_cases hval : esPosicionValida o = true ∧ esPosicionValida d = true
  · obtain ⟨hvo, hvd⟩ := hval
    rw [if_neg (not_not_intro ⟨hvo, hvd⟩), hgo] at hexec
    simp only [ejecutarConPieza] at hexec
    by_cases hepc : pieza.tipo = TipoPieza.peon ∧ t.objetivoPeonAlPaso = some d
    · rw [if_pos hepc] at hexec
      cases hvic : getPieza t (o.1, d.2) with
      | none =>
        rw [hvic] at hexec
        simp only [ejecutarAlPaso] at hexec
        injection hexec with h1 h2
        subst h2
        exact ⟨hcons, hreyes, hks, hep⟩
      | some victim =>
        rw [hvic] at hexec
        simp only [ejecutarAlPaso] at hexec
        by_cases hvc : victim.color = pieza.color
        · rw [if_pos hvc] at hexec
          injection hexec with h1 h2
          subst h2
          exact ⟨hcons, hreyes, hks, hep⟩
        · rw [if_neg hvc] at hexec
          have hbru' : d ∈ movimientosPeon t pieza := by
            simpa only [movimientosBrutos, hepc.1] using hbru
          have hself : ∀ (hd2 : d.2 = o.2), False := by
            intro hd2
            have hco : ((o.1 : Int), d.2) = o := Prod.ext rfl hd2
            rw [hco, hgo] at hvic
            injection hvic with hv2
            exact hvc (by rw [hv2])
          rcases peon_movimiento_filas hbru' with hdeq | ⟨hdeq, -, -⟩ | ⟨hd1, -⟩
          · exact (hself (by rw [hdeq, hpos])).elim
          · exact (hself (by rw [hdeq, hpos])).elim
          rw [hpos] at hd1
          have hepdet : epRespaldado t = true := hep
          simp only [epRespaldado, hepc.2] at hepdet
          rw [Bool.and_eq_true] at hepdet
          have hdnone : getPieza t d = none := Option.isNone_iff_eq_none.mp hepdet.2
          have hc1 : d.1 + direccion ((turnoColor t).opuesto) = o.1 := by
            rw [← hcol, direccion_opuesto]
            omega
          have hvsq : ((d.1 + direccion ((turnoColor t).opuesto), d.2) : Int × Int) =
              (o.1, d.2) := by
            rw [hc1]
          have hvm := hepdet.1
          rw [hvsq, hvic] at hvm
          have hvm' : (decide (victim.color = (turnoColor t).opuesto) &&
              decide (victim.tipo = TipoPieza.peon)) = true := hvm
          rw [Bool.and_eq_true] at hvm'
          have hvictipo : victim.tipo = TipoPieza.peon := of_decide_eq_true hvm'.2
          have hvv : esPosicionValida ((o.1 : Int), d.2) = true := by
            have h1 := esPosicionValida_iff.mp hvo
            have h2 := esPosicionValida_iff.mp hvd
            rw [esPosicionValida_iff]
            exact ⟨h1.1, h1.2.1, h2.2.2.1, h2.2.2.2⟩
          have hne : ((o.1 : Int), d.2) ≠ o := by
            intro h
            have hs2 := congrArg Prod.snd h
            simp only at hs2
            exact hself hs2
          have hvd_ne : ((o.1 : Int), d.2) ≠ d := by
            intro h
            have hcf := congrArg Prod.fst h
            simp only at hcf
            omega
          have habs1 : ¬ (pieza.tipo = TipoPieza.peon ∧ |o.1 - d.1| = 2) := by
            rintro ⟨-, habs⟩
            rw [Int.abs_eq_natAbs] at habs
            omega
          have ht' : actualizarEstadoJuego (registrar_posicion (prepararMovimiento
              (setPieza { t with piezasCapturadas := t.piezasCapturadas ++ [victim] }
                (o.1, d.2) none) pieza (getPieza t d) true o d)) = t' :=
            congrArg Prod.snd hexec
          rw [← ht']
          refine continuacion_invariante hcons hreyes hcol hseg hpos hvo hvd hdo
            ?_ ?_ ?_ ?_ ?_ rfl ?_
          · rw [getPieza_setPieza_ne hne]
            exact hgo
          · intro p x hx
            by_cases hpv : ((o.1 : Int), d.2) = p
            · rw [← hpv, getPieza_setPieza_self hvv] at hx
              exact Option.noConfusion hx
            · rw [getPieza_setPieza_ne hpv] at hx
              exact hx
          · intro c
            have s1 := cuentaReyes_setPieza
              ({ t with piezasCapturadas := t.piezasCapturadas ++ [victim] }) hvv
              (none : Option Pieza) c
            have hgv : getPieza
                ({ t with piezasCapturadas := t.piezasCapturadas ++ [victim] } : Tablero)
                ((o.1 : Int), d.2) = some victim := hvic
            rw [hgv] at s1
            have e1 : (if esReyDe c (none : Option Pieza) = true then (1:Nat) else 0) = 0 :=
              rfl
            have e2 : (if esReyDe c (some victim) = true then (1:Nat) else 0) = 0 := by
              simp [esReyDe, hvictipo]
            rw [e1, e2, Nat.add_zero, Nat.add_zero] at s1
            rw [s1]
            exact cuentaReyes_congr (fun p => rfl) c
          · intro c
            have hXd : getPieza (setPieza
                { t with piezasCapturadas := t.piezasCapturadas ++ [victim] }
                (o.1, d.2) none) d = none := by
              rw [getPieza_setPieza_ne hvd_ne]
              exact hdnone
            rw [hXd]
            rfl
          · intro u
            rw [if_pos hepc, hvic]
            have hs : (some victim).isSome = true := rfl
            rw [if_pos hs]
            exact getPieza_setPieza_congr (fun r => rfl) (o.1, d.2) none u
          · intro rc hrc
            rw [objetivoPeonAlPasoNuevo, if_neg habs1] at hrc
            exact Option.noConfusion hrc
    · rw [if_neg hepc] at hexec
      cases hcap : getPieza t d with
      | none =>
        rw [hcap] at hexec
        simp only [ejecutarCaptura] at hexec
        have ht' : actualizarEstadoJuego (registrar_posicion (prepararMovimiento
            t pieza none false o d)) = t' := congrArg Prod.snd hexec
        rw [← ht']
        refine continuacion_invariante hcons hreyes hcol hseg hpos hvo hvd hdo hgo
          (fun p x hx => hx) (fun c => rfl) ?_ ?_ rfl ?_
        · intro c
          rw [hcap]
          rfl
        · intro u
          rw [if_neg hepc]
        · intro rc hrc
          rw [objetivoPeonAlPasoNuevo] at hrc
          by_cases hcnd : pieza.tipo = TipoPieza.peon ∧ |o.1 - d.1| = 2
          · rw [if_pos hcnd] at hrc
            injection hrc with hrc
            have hbru' : d ∈ movimientosPeon t pieza := by
              simpa only [movimientosBrutos, hcnd.1] using hbru
            have habs2 := hcnd.2
            rw [Int.abs_eq_natAbs] at habs2
            rcases peon_movimiento_filas hbru' with hdeq | ⟨hdeq, hlib1, hlib2⟩ | ⟨hd1, -⟩
            · exfalso
              have f1 : d.1 = pieza.posicion.1 + direccion pieza.color :=
                congrArg Prod.fst hdeq
              rw [hpos] at f1
              omega
            · have f1 : d.1 = pieza.posicion.1 + 2 * direccion pieza.color :=
                congrArg Prod.fst hdeq
              have f2 := congrArg Prod.snd hdeq
              simp only at f2
              rw [hpos] at f1 f2 hlib1
              have hrc1 : rc.1 = o.1 + direccion pieza.color := by
                have hcf := congrArg Prod.fst hrc
                simp only at hcf
                omega
              have hrc2 : rc.2 = o.2 := by
                have hcs := congrArg Prod.snd hrc
                simp only at hcs
                omega
              have hrceq : rc = ((o.1 + direccion pieza.color : Int), o.2) := by
                apply Prod.ext
                · rw [hrc1]
                · rw [hrc2]
              refine ⟨?_, ?_, hcnd.1, ?_, ?_⟩
              · rw [hrceq]
                exact casillaLibre_none hlib1
              · apply Prod.ext
                · show d.1 = rc.1 + direccion pieza.color
                  omega
                · show d.2 = rc.2
                  omega
              · intro h
                have hcf := congrArg Prod.fst h
                omega
              · intro h
                have hcf := congrArg Prod.fst h
                omega
            · exfalso
              rw [hpos] at hd1
              omega
          · rw [if_neg hcnd] at hrc
            exact Option.noConfusion hrc
      | some cap =>
        rw [hcap] at hexec
        simp only [ejecutarCaptura] at hexec
        by_cases hcc : cap.color = pieza.color
        · rw [if_pos hcc] at hexec
          injection hexec with h1 h2
          subst h2
          exact ⟨hcons, hreyes, hks, hep⟩
        · rw [if_neg hcc] at hexec
          have hnk : cap.tipo ≠ TipoPieza.rey := by
            intro hk
            have hcapcol : cap.color = (turnoColor t).opuesto := by
              rw [← hcol]
              exact opuesto_de_ne hcc
            have hcnt : cuentaReyes t ((turnoColor t).opuesto) = 1 := by
              cases hoc : (turnoColor t).opuesto with
              | blanco => exact hreyes.1
              | negro => exact hreyes.2
            have hfound : encontrarRey t ((turnoColor t).opuesto) = some d :=
              encontrarRey_unico hcnt hcap hk hcapcol
            have hks' : (match encontrarRey t ((turnoColor t).opuesto) with
                | none => true
                | some rp => ! esCasillaAmenazada t rp (turnoColor t)) = true := hks
            rw [hfound] at hks'
            have hks2 : (! esCasillaAmenazada t d (turnoColor t)) = true := hks'
            have hatk : esCasillaAmenazada t d (turnoColor t) = true := by
              rw [esCasillaAmenazada_iff_espec t d (turnoColor t) hvd hcons]
              refine ⟨o, pieza, hgo, hcol, ?_⟩
              have hocc2 : (getPieza t d).isSome = true := by
                rw [hcap]
                rfl
              have ha := brutos_ocupado_ataca hep hbru hocc2
              rw [hpos] at ha
              exact ha
            rw [hatk] at hks2
            exact Bool.noConfusion hks2
          have ht' : actualizarEstadoJuego (registrar_posicion (prepararMovimiento
              { t with piezasCapturadas := t.piezasCapturadas ++ [cap] } pieza
              (some cap) true o d)) = t' := congrArg Prod.snd hexec
          rw [← ht']
          refine continuacion_invariante hcons hreyes hcol hseg hpos hvo hvd hdo hgo
            (fun p x hx => hx) (fun c => cuentaReyes_congr (fun r => rfl) c) ?_ ?_ rfl ?_
          · intro c
            have hXd : getPieza
                ({ t with piezasCapturadas := t.piezasCapturadas ++ [cap] } : Tablero) d =
                some cap := hcap
            rw [hXd]
            exact decide_eq_false (fun hh => hnk hh.1)
          · intro u
            rw [if_neg hepc]
            exact getPieza_de_casillas rfl u
          · intro rc hrc
            rw [objetivoPeonAlPasoNuevo] at hrc
            by_cases hcnd : pieza.tipo = TipoPieza.peon ∧ |o.1 - d.1| = 2
            · exfalso
              have hbru' : d ∈ movimientosPeon t pieza := by
                simpa only [movimientosBrutos, hcnd.1] using hbru
              have habs2 := hcnd.2
              rw [Int.abs_eq_natAbs] at habs2
              rcases peon_movimiento_filas hbru' with hdeq | ⟨-, -, hlib2⟩ | ⟨hd1, -⟩
              · have f1 : d.1 = pieza.posicion.1 + direccion pieza.color :=
                  congrArg Prod.fst hdeq
                rw [hpos] at f1
                omega
              · have hl := casillaLibre_none hlib2
                rw [hcap] at hl
                exact Option.noConfusion hl
              · rw [hpos] at hd1
                omega
            · rw [if_neg hcnd] at hrc
              exact Option.noConfusion hrc
  · rw [if_pos hval] at hexec
    injection hexec with h1 h2
    subst h2
    exact ⟨hcons, hreyes, hks, hep⟩

-- ============================================================
-- Castling: structural lemmas
-- ============================================================

theorem fila_ne {f a b : Int} (h : ¬ a = b) : ((f, a) : Int × Int) ≠ (f, b) := by
  intro hh
  have h2 := congrArg Prod.snd hh
  simp only at h2
  exact h h2

theorem valida_fila {f c : Int} (hf : f = 0 ∨ f = 7) (hc0 : 0 ≤ c) (hc7 : c ≤ 7) :
    esPosicionValida (f, c) = true := by
  rw [esPosicionValida_iff]
  rcases hf with h | h <;> rw [h] <;>
    exact ⟨by norm_num, by norm_num, hc0, hc7⟩

theorem opuesto_ne (c : Color) : c.opuesto ≠ c := by
  cases c <;> decide

/-- The grid of the castled board is the four-write chain. -/
theorem getPieza_prepararEnroque (t : Tablero) (color : Color) (corto : Bool)
    (rey torre : Pieza) (p : Int × Int) :
    getPieza (prepararEnroque t color corto rey torre) p =
      getPieza (setPieza (setPieza (setPieza (setPieza t
        ((if color = Color.blanco then (0:Int) else 7), if corto then (6:Int) else 2)
        (some { rey with
          posicion := ((if color = Color.blanco then (0:Int) else 7),
            if corto then (6:Int) else 2),
          se_ha_movido := true }))
        ((if color = Color.blanco then (0:Int) else 7), 4) none)
        ((if color = Color.blanco then (0:Int) else 7), if corto then (5:Int) else 3)
        (some { torre with
          posicion := ((if color = Color.blanco then (0:Int) else 7),
            if corto then (5:Int) else 3),
          se_ha_movido := true }))
        ((if color = Color.blanco then (0:Int) else 7), if corto then (7:Int) else 0)
        none) p := by
  have h1 : (prepararEnroque t color corto rey torre).casillas =
      (actualizarContadores (prepararEnroqueTablero t color corto rey torre)
        rey false).casillas := rfl
  have h2 := (actualizarContadores_campos (prepararEnroqueTablero t color corto rey torre)
    rey false).2.2.2.1
  unfold getPieza
  rw [h1, h2]
  rfl

theorem prepararEnroque_alPaso (t : Tablero) (color : Color) (corto : Bool)
    (rey torre : Pieza) :
    (prepararEnroque t color corto rey torre).objetivoPeonAlPaso = none := by
  have h1 : (prepararEnroque t color corto rey torre).objetivoPeonAlPaso =
      (actualizarContadores (prepararEnroqueTablero t color corto rey torre)
        rey false).objetivoPeonAlPaso := rfl
  have h2 := (actualizarContadores_campos (prepararEnroqueTablero t color corto rey torre)
    rey false).2.2.2.2.2.2.2.1
  rw [h1, h2]
  rfl

/-- A raw king candidate two columns away is a castle destination, with
the castling precondition satisfied and the flank read off the column
order. -/
theorem rey_dos_columnas {t : Tablero} {pieza : Pieza} {d : Int × Int}
    (htipo : pieza.tipo = TipoPieza.rey) (hmem : d ∈ movimientosBrutos t pieza)
    (h2 : |pieza.posicion.2 - d.2| = 2) :
    ∃ corto : Bool, condicionesEnroque t pieza corto = true ∧
      d = ((if pieza.color = Color.blanco then (0 : Int) else 7),
        if corto then (6 : Int) else 2) ∧
      (corto = true ↔ pieza.posicion.2 < d.2) := by
  simp only [movimientosBrutos, htipo] at hmem
  simp only [movimientosRey] at hmem
  simp only [List.flatten_cons, List.flatten_nil, List.append_nil,
    List.mem_append] at hmem
  rw [Int.abs_eq_natAbs] at h2
  rcases hmem with h | h | h
  · exfalso
    rw [List.mem_filter, List.mem_map] at h
    obtain ⟨⟨s, hs, heq⟩, -⟩ := h
    have hc2 := congrArg Prod.snd heq.symm
    simp only at hc2
    fin_cases hs <;>
      (simp only at hc2
       omega)
  · obtain ⟨hc, rfl⟩ := mem_si h
    have hpos4 : pieza.posicion =
        ((if pieza.color = Color.blanco then (0 : Int) else 7), 4) := by
      simp only [condicionesEnroque, Bool.and_eq_true] at hc
      exact of_decide_eq_true hc.1.1.1.1.1.1
    refine ⟨true, hc, rfl, ?_⟩
    rw [hpos4]
    exact iff_of_true rfl (by show (4 : Int) < 6; norm_num)
  · obtain ⟨hc, rfl⟩ := mem_si h
    have hpos4 : pieza.posicion =
        ((if pieza.color = Color.blanco then (0 : Int) else 7), 4) := by
      simp only [condicionesEnroque, Bool.and_eq_true] at hc
      exact of_decide_eq_true hc.1.1.1.1.1.1
    refine ⟨false, hc, rfl, ?_⟩
    rw [hpos4]
    exact iff_of_false (fun hf => Bool.noConfusion hf) (by show ¬ (4 : Int) < 2; decide)

/-- Coordinate analysis of the squares strictly between a valid attacker
square and the castle destination `(f, kc)`: the destination and the
rook corner are never among them, and whenever the vacated king square
`(f, 4)` is, the rook's landing square `(f, rd2)` is too. -/
theorem entre_fila_analisis {q : Int × Int} {f kc rd2 rc2 : Int} {p : Int × Int}
    (hcols : (kc = 6 ∧ rd2 = 5 ∧ rc2 = 7) ∨ (kc = 2 ∧ rd2 = 3 ∧ rc2 = 0))
    (hqv : esPosicionValida q = true)
    (hal : f - q.1 = 0 ∨ kc - q.2 = 0 ∨ |f - q.1| = |kc - q.2|)
    (hne : ¬ (f - q.1 = 0 ∧ kc - q.2 = 0))
    (hp : p ∈ casillasEntre q (f, kc)) :
    p ≠ (f, kc) ∧ p ≠ (f, rc2) ∧
      (p = (f, 4) → ((f : Int), rd2) ∈ casillasEntre q (f, kc)) := by
  have hq27 := esPosicionValida_iff.mp hqv
  obtain ⟨r1, r2, hD⟩ := alineados_decomp (q := q) (r := ((f : Int), kc)) hal hne
  simp only at r1 r2
  unfold casillasEntre at hp
  rw [mem_segmento] at hp
  obtain ⟨k, hk1, hkD, hpe⟩ := hp
  simp only at hpe
  have hp1 := congrArg Prod.fst hpe
  have hp2 := congrArg Prod.snd hpe
  simp only at hp1 hp2
  refine ⟨?_, ?_, ?_⟩
  · intro h
    have h1 := congrArg Prod.fst h
    have h2 := congrArg Prod.snd h
    simp only at h1 h2
    rw [h1] at hp1
    rw [h2] at hp2
    rcases pasoHacia_cases q.1 f with hs | hs | hs <;>
      rcases pasoHacia_cases q.2 kc with hs2 | hs2 | hs2 <;>
      (rw [hs] at hp1 r1
       rw [hs2] at hp2 r2
       simp only [mul_zero, mul_one, mul_neg_one] at hp1 hp2 r1 r2
       omega)
  · intro h
    have h1 := congrArg Prod.fst h
    have h2 := congrArg Prod.snd h
    simp only at h1 h2
    rw [h1] at hp1
    rw [h2] at hp2
    rcases pasoHacia_cases q.1 f with hs | hs | hs <;>
      rcases pasoHacia_cases q.2 kc with hs2 | hs2 | hs2 <;>
      (rw [hs] at hp1 r1
       rw [hs2] at hp2 r2
       simp only [mul_zero, mul_one, mul_neg_one] at hp1 hp2 r1 r2
       omega)
  · intro h
    have h1 := congrArg Prod.fst h
    have h2 := congrArg Prod.snd h
    simp only at h1 h2
    rw [h1] at hp1
    rw [h2] at hp2
    have hS1 : pasoHacia q.1 f = 0 := by
      rcases pasoHacia_cases q.1 f with hs | hs | hs
      · exact hs
      · exfalso
        rw [hs] at hp1 r1
        simp only [mul_one] at hp1 r1
        omega
      · exfalso
        rw [hs] at hp1 r1
        simp only [mul_neg_one] at hp1 r1
        omega
    have hfq : f = q.1 := by
      have r1' := r1
      rw [hS1] at r1'
      simpa using r1'
    have hS2 : (kc = 6 ∧ pasoHacia q.2 kc = 1 ∧ rd2 = 5) ∨
        (kc = 2 ∧ pasoHacia q.2 kc = -1 ∧ rd2 = 3) := by
      rcases hcols with ⟨hkc, hrd, -⟩ | ⟨hkc, hrd, -⟩ <;>
        rcases pasoHacia_cases q.2 kc with hs2 | hs2 | hs2
      · exfalso
        rw [hs2] at hp2 r2
        simp only [mul_zero] at hp2 r2
        omega
      · exact Or.inl ⟨hkc, hs2, hrd⟩
      · exfalso
        rw [hs2] at hp2 r2
        simp only [mul_neg_one] at hp2 r2
        omega
      · exfalso
        rw [hs2] at hp2 r2
        simp only [mul_zero] at hp2 r2
        omega
      · exfalso
        rw [hs2] at hp2 r2
        simp only [mul_one] at hp2 r2
        omega
      · exact Or.inr ⟨hkc, hs2, hrd⟩
    unfold casillasEntre
    rw [mem_segmento]
    refine ⟨k + 1, by omega, ?_, ?_⟩
    · rcases hS2 with ⟨hkc, hs2, -⟩ | ⟨hkc, hs2, -⟩ <;>
        (rw [hs2] at hp2 r2
         simp only [mul_one, mul_neg_one] at hp2 r2
         omega)
    · apply Prod.ext
      · show f = q.1 + ((k + 1 : Nat) : Int) * pasoHacia q.1 f
        rw [hS1]
        simp only [mul_zero, add_zero]
        exact hfq
      · show rd2 = q.2 + ((k + 1 : Nat) : Int) * pasoHacia q.2 kc
        rcases hS2 with ⟨hkc, hs2, hrd⟩ | ⟨hkc, hs2, hrd⟩ <;>
          (rw [hs2]
           rw [hs2] at hp2
           omega)

/-- Transfer of clear-ray facts from the castled board back to the
pre-castle board: a ray to the castle destination that is clear after
the castle was already clear before it, because the only vacated square
it could cross forces it through the rook's (now occupied) landing
square. -/
theorem entreLibre_enroque_transfer {a b : Tablero} {f kc rd2 rc2 : Int}
    (hcols : (kc = 6 ∧ rd2 = 5 ∧ rc2 = 7) ∨ (kc = 2 ∧ rd2 = 3 ∧ rc2 = 0))
    (hsame : ∀ p : Int × Int, p ≠ (f, kc) → p ≠ (f, 4) → p ≠ (f, rd2) → p ≠ (f, rc2) →
      getPieza a p = getPieza b p)
    (hrd_occ : getPieza a ((f : Int), rd2) ≠ none)
    {q : Int × Int} (hqv : esPosicionValida q = true)
    (hal : enLineaRecta q ((f : Int), kc) ∨ enDiagonal q ((f : Int), kc))
    (hfree : entreLibre a q ((f : Int), kc)) : entreLibre b q ((f : Int), kc) := by
  have hne : ¬ ((f : Int) - q.1 = 0 ∧ kc - q.2 = 0) := by
    rcases hal with ⟨h1, h2⟩ | ⟨h1, h2⟩
    · rintro ⟨z1, z2⟩
      simp only at h2
      rcases h2 with h | h
      · exact h z1
      · exact h z2
    · rintro ⟨z1, z2⟩
      simp only at h2
      exact h2 z1
  have hal0 : (f : Int) - q.1 = 0 ∨ kc - q.2 = 0 ∨ |(f : Int) - q.1| = |kc - q.2| := by
    rcases hal with ⟨h1, h2⟩ | ⟨h1, h2⟩
    · simp only at h1
      rcases h1 with h | h
      · exact Or.inl h
      · exact Or.inr (Or.inl h)
    · simp only at h1
      exact Or.inr (Or.inr h1)
  intro p hp
  obtain ⟨hnkc, hnrc, himp⟩ := entre_fila_analisis hcols hqv hal0 hne hp
  by_cases hp4 : p = (f, 4)
  · exfalso
    exact hrd_occ (hfree ((f : Int), rd2) (himp hp4))
  · by_cases hprd : p = (f, rd2)
    · exfalso
      have h5 := hfree p hp
      rw [hprd] at h5
      exact hrd_occ h5
    · rw [← hsame p hnkc hp4 hprd hnrc]
      exact hfree p hp

/-- King counts across the four writes of castling: the vacated king
square's king reappears at the destination, the rook relocation moves no
king. -/
theorem cuentaReyes_cuatro {t : Tablero} {KD KO RD RC : Int × Int} {y z : Pieza}
    {ko_pz rc_pz : Pieza}
    (hv1 : esPosicionValida KD = true) (hv2 : esPosicionValida KO = true)
    (hv3 : esPosicionValida RD = true) (hv4 : esPosicionValida RC = true)
    (h12 : KD ≠ KO) (h13 : KD ≠ RD) (h14 : KD ≠ RC) (h23 : KO ≠ RD) (h24 : KO ≠ RC)
    (h34 : RD ≠ RC)
    (hg1 : getPieza t KD = none) (hg2 : getPieza t KO = some ko_pz)
    (hg3 : getPieza t RD = none) (hg4 : getPieza t RC = some rc_pz)
    (hy : ∀ c, esReyDe c (some y) = esReyDe c (some ko_pz))
    (hz : ∀ c, esReyDe c (some z) = false)
    (hrc : ∀ c, esReyDe c (some rc_pz) = false)
    (c : Color) :
    cuentaReyes (setPieza (setPieza (setPieza (setPieza t KD (some y)) KO none)
      RD (some z)) RC none) c = cuentaReyes t c := by
  have s1 := cuentaReyes_setPieza t hv1 (some y) c
  have s2 := cuentaReyes_setPieza (setPieza t KD (some y)) hv2 (none : Option Pieza) c
  have s3 := cuentaReyes_setPieza (setPieza (setPieza t KD (some y)) KO none) hv3
    (some z) c
  have s4 := cuentaReyes_setPieza (setPieza (setPieza (setPieza t KD (some y)) KO none)
    RD (some z)) hv4 (none : Option Pieza) c
  rw [hg1, hy c] at s1
  rw [getPieza_setPieza_ne h12, hg2] at s2
  rw [getPieza_setPieza_ne h23, getPieza_setPieza_ne h13, hg3, hz c] at s3
  rw [getPieza_setPieza_ne h34, getPieza_setPieza_ne h24, getPieza_setPieza_ne h14,
    hg4, hrc c] at s4
  have eN : (if esReyDe c (none : Option Pieza) = true then (1:Nat) else 0) = 0 := rfl
  have eF : (if (false : Bool) = true then (1:Nat) else 0) = 0 := rfl
  rw [eN] at s1 s2 s3 s4
  rw [eF] at s3 s4
  simp only [Nat.add_zero] at s1 s2 s3 s4
  exact s4.trans (s3.trans (Nat.add_right_cancel (s2.trans s1)))

/-- Castling with its precondition satisfied preserves the reachability
invariant. -/
theorem enroque_invariante_general {t : Tablero} {pieza torre : Pieza} {corto : Bool}
    (hcons : consistente t = true) (hreyes : unReyPorColor t)
    (hcol : pieza.color = turnoColor t)
    (hrey : pieza.tipo = TipoPieza.rey)
    (hc : condicionesEnroque t pieza corto = true)
    (hgk : getPieza t ((if pieza.color = Color.blanco then (0:Int) else 7), 4) =
      some pieza)
    (hgr : getPieza t ((if pieza.color = Color.blanco then (0:Int) else 7),
      if corto then (7:Int) else 0) = some torre) :
    invariante (actualizarEstadoJuego (registrar_posicion
      (prepararEnroque t pieza.color corto pieza torre))) := by
  simp only [condicionesEnroque, Bool.and_eq_true] at hc
  have htorre : torre.tipo = TipoPieza.torre ∧ torre.color = pieza.color := by
    have h4 := hc.1.1.1.2
    rw [hgr] at h4
    have h4' : (decide (torre.tipo = TipoPieza.torre ∧ torre.color = pieza.color) &&
        ! torre.se_ha_movido) = true := h4
    rw [Bool.and_eq_true] at h4'
    exact of_decide_eq_true h4'.1
  obtain ⟨htortipo, htorcol⟩ := htorre
  obtain ⟨kc, rd2, rc2, hcols, hkc, hrd, hrc, hlibkd, hlibrd, hamenkd⟩ :
      ∃ kc rd2 rc2 : Int,
        ((kc = 6 ∧ rd2 = 5 ∧ rc2 = 7) ∨ (kc = 2 ∧ rd2 = 3 ∧ rc2 = 0)) ∧
        (if corto then (6 : Int) else 2) = kc ∧
        (if corto then (5 : Int) else 3) = rd2 ∧
        (if corto then (7 : Int) else 0) = rc2 ∧
        getPieza t ((if pieza.color = Color.blanco then (0:Int) else 7), kc) = none ∧
        getPieza t ((if pieza.color = Color.blanco then (0:Int) else 7), rd2) = none ∧
        (! esCasillaAmenazada t ((if pieza.color = Color.blanco then (0:Int) else 7), kc)
          pieza.color.opuesto) = true := by
    cases corto with
    | true =>
      have h5 := hc.1.1.2
      rw [if_pos rfl] at h5
      rw [Bool.and_eq_true] at h5
      have h7 := hc.2
      rw [if_pos rfl] at h7
      rw [Bool.and_eq_true] at h7
      exact ⟨6, 5, 7, Or.inl ⟨rfl, rfl, rfl⟩, rfl, rfl, rfl,
        casillaLibre_none h5.2, casillaLibre_none h5.1, h7.2⟩
    | false =>
      have h5 := hc.1.1.2
      rw [if_neg Bool.false_ne_true] at h5
      simp only [Bool.and_eq_true] at h5
      have h7 := hc.2
      rw [if_neg Bool.false_ne_true] at h7
      rw [Bool.and_eq_true] at h7
      exact ⟨2, 3, 0, Or.inr ⟨rfl, rfl, rfl⟩, rfl, rfl, rfl,
        casillaLibre_none h5.1.2, casillaLibre_none h5.2, h7.2⟩
  obtain ⟨f, hfF, hf07⟩ :
      ∃ f : Int, (if pieza.color = Color.blanco then (0:Int) else 7) = f ∧
        (f = 0 ∨ f = 7) := by
    by_cases hb : pieza.color = Color.blanco
    · rw [if_pos hb]
      exact ⟨0, rfl, Or.inl rfl⟩
    · rw [if_neg hb]
      exact ⟨7, rfl, Or.inr rfl⟩
  have hQgrid0 := getPieza_prepararEnroque t pieza.color corto pieza torre
  rw [hkc, hrd, hrc, hfF] at hQgrid0
  rw [hfF] at hgk hlibkd hlibrd hamenkd
  rw [hrc, hfF] at hgr
  have hne_kd_ko : (((f : Int), kc) : Int × Int) ≠ (f, 4) := fila_ne (by omega)
  have hne_kd_rd : (((f : Int), kc) : Int × Int) ≠ (f, rd2) := fila_ne (by omega)
  have hne_kd_rc : (((f : Int), kc) : Int × Int) ≠ (f, rc2) := fila_ne (by omega)
  have hne_ko_rd : (((f : Int), 4) : Int × Int) ≠ (f, rd2) := fila_ne (by omega)
  have hne_ko_rc : (((f : Int), 4) : Int × Int) ≠ (f, rc2) := fila_ne (by omega)
  have hne_rd_rc : (((f : Int), rd2) : Int × Int) ≠ (f, rc2) := fila_ne (by omega)
  have hv_kd : esPosicionValida ((f : Int), kc) = true :=
    valida_fila hf07 (by omega) (by omega)
  have hv_ko : esPosicionValida ((f : Int), 4) = true :=
    valida_fila hf07 (by omega) (by omega)
  have hv_rd : esPosicionValida ((f : Int), rd2) = true :=
    valida_fila hf07 (by omega) (by omega)
  have hv_rc : esPosicionValida ((f : Int), rc2) = true :=
    valida_fila hf07 (by omega) (by omega)
  have hQ_rc : getPieza (prepararEnroque t pieza.color corto pieza torre) (f, rc2) =
      none := by
    rw [hQgrid0 (f, rc2), getPieza_setPieza_self hv_rc]
  have hQ_rd : getPieza (prepararEnroque t pieza.color corto pieza torre) (f, rd2) =
      some { torre with posicion := ((f : Int), rd2), se_ha_movido := true } := by
    rw [hQgrid0 (f, rd2), getPieza_setPieza_ne (Ne.symm hne_rd_rc),
      getPieza_setPieza_self hv_rd]
  have hQ_ko : getPieza (prepararEnroque t pieza.color corto pieza torre) (f, 4) =
      none := by
    rw [hQgrid0 (f, 4), getPieza_setPieza_ne (Ne.symm hne_ko_rc),
      getPieza_setPieza_ne (Ne.symm hne_ko_rd), getPieza_setPieza_self hv_ko]
  have hQ_kd : getPieza (prepararEnroque t pieza.color corto pieza torre) (f, kc) =
      some { pieza with posicion := ((f : Int), kc), se_ha_movido := true } := by
    rw [hQgrid0 (f, kc), getPieza_setPieza_ne (Ne.symm hne_kd_rc),
      getPieza_setPieza_ne (Ne.symm hne_kd_rd), getPieza_setPieza_ne (Ne.symm hne_kd_ko),
      getPieza_setPieza_self hv_kd]
  have hQ_otro : ∀ p : Int × Int, p ≠ ((f : Int), kc) → p ≠ ((f : Int), 4) →
      p ≠ ((f : Int), rd2) → p ≠ ((f : Int), rc2) →
      getPieza (prepararEnroque t pieza.color corto pieza torre) p = getPieza t p := by
    intro p h1 h2 h3 h4
    rw [hQgrid0 p, getPieza_setPieza_ne (fun hh => h4 hh.symm),
      getPieza_setPieza_ne (fun hh => h3 hh.symm),
      getPieza_setPieza_ne (fun hh => h2 hh.symm),
      getPieza_setPieza_ne (fun hh => h1 hh.symm)]
  have hF := finalizar_campos (prepararEnroque t pieza.color corto pieza torre)
  have hFgrid : ∀ p, getPieza (actualizarEstadoJuego (registrar_posicion
      (prepararEnroque t pieza.color corto pieza torre))) p =
      getPieza (prepararEnroque t pieza.color corto pieza torre) p :=
    getPieza_de_casillas hF.1
  rw [invariante_congr hFgrid hF.2.2.2.2.2.1 hF.2.2.2.2.1]
  have hQturno : (prepararEnroque t pieza.color corto pieza torre).turno_blanco =
      ! t.turno_blanco :=
    (prepararEnroque_campos t pieza.color corto pieza torre).2.2.2.1
  have hturnoQ : turnoColor (prepararEnroque t pieza.color corto pieza torre) =
      (turnoColor t).opuesto := turnoColor_flip hQturno
  have hconsQ : consistente (prepararEnroque t pieza.color corto pieza torre) = true := by
    rw [consistente_iff]
    intro p x hx
    by_cases h1 : p = ((f : Int), kc)
    · subst h1
      rw [hQ_kd] at hx
      injection hx with hx2
      subst hx2
      rfl
    by_cases h2 : p = ((f : Int), 4)
    · subst h2
      rw [hQ_ko] at hx
      exact Option.noConfusion hx
    by_cases h3 : p = ((f : Int), rd2)
    · subst h3
      rw [hQ_rd] at hx
      injection hx with hx2
      subst hx2
      rfl
    by_cases h4 : p = ((f : Int), rc2)
    · subst h4
      rw [hQ_rc] at hx
      exact Option.noConfusion hx
    rw [hQ_otro p h1 h2 h3 h4] at hx
    exact consistente_getPieza hcons hx
  have hcount : ∀ c, cuentaReyes (prepararEnroque t pieza.color corto pieza torre) c =
      cuentaReyes t c := by
    intro c
    rw [cuentaReyes_congr (fun p => hQgrid0 p) c]
    exact cuentaReyes_cuatro
      (y := { pieza with posicion := ((f : Int), kc), se_ha_movido := true })
      (z := { torre with posicion := ((f : Int), rd2), se_ha_movido := true })
      hv_kd hv_ko hv_rd hv_rc hne_kd_ko hne_kd_rd hne_kd_rc
      hne_ko_rd hne_ko_rc hne_rd_rc hlibkd hgk hlibrd hgr
      (fun c2 => rfl)
      (fun c2 => decide_eq_false (by
        intro hh
        have h2 : torre.tipo = TipoPieza.rey := hh.1
        rw [htortipo] at h2
        exact TipoPieza.noConfusion h2))
      (fun c2 => decide_eq_false (by
        intro hh
        have h2 : torre.tipo = TipoPieza.rey := hh.1
        rw [htortipo] at h2
        exact TipoPieza.noConfusion h2)) c
  have hcnt1 : cuentaReyes (prepararEnroque t pieza.color corto pieza torre)
      pieza.color = 1 := by
    rw [hcount pieza.color]
    cases hpc : pieza.color with
    | blanco => exact hreyes.1
    | negro => exact hreyes.2
  have hfound : encontrarRey (prepararEnroque t pieza.color corto pieza torre)
      pieza.color = some ((f : Int), kc) :=
    encontrarRey_unico hcnt1 hQ_kd hrey rfl
  have hksQ : kSafe (prepararEnroque t pieza.color corto pieza torre) = true := by
    unfold kSafe
    have hoppQ : (turnoColor (prepararEnroque t pieza.color corto pieza torre)).opuesto =
        pieza.color := by
      rw [hturnoQ, opuesto_opuesto]
      exact hcol.symm
    rw [hoppQ, hfound]
    show (! esCasillaAmenazada (prepararEnroque t pieza.color corto pieza torre)
      ((f : Int), kc)
      (turnoColor (prepararEnroque t pieza.color corto pieza torre))) = true
    have hattacker : turnoColor (prepararEnroque t pieza.color corto pieza torre) =
        pieza.color.opuesto := by
      rw [hturnoQ, ← hcol]
    rw [hattacker]
    cases hA : esCasillaAmenazada (prepararEnroque t pieza.color corto pieza torre)
        ((f : Int), kc) pieza.color.opuesto with
    | false => rfl
    | true =>
      exfalso
      rw [esCasillaAmenazada_iff_espec (prepararEnroque t pieza.color corto pieza torre)
        ((f : Int), kc) pieza.color.opuesto hv_kd hconsQ] at hA
      obtain ⟨q, pz, hq, hpzc, hesp⟩ := hA
      have hq_ne1 : q ≠ ((f : Int), kc) := by
        intro hh
        rw [hh, hQ_kd] at hq
        injection hq with hq2
        have hcpz : pz.color = pieza.color := by rw [← hq2]
        exact opuesto_ne pieza.color (by rw [← hpzc]; exact hcpz)
      have hq_ne2 : q ≠ ((f : Int), 4) := by
        intro hh
        rw [hh, hQ_ko] at hq
        exact Option.noConfusion hq
      have hq_ne3 : q ≠ ((f : Int), rd2) := by
        intro hh
        rw [hh, hQ_rd] at hq
        injection hq with hq2
        have hcpz : pz.color = pieza.color := by rw [← hq2]; exact htorcol
        exact opuesto_ne pieza.color (by rw [← hpzc]; exact hcpz)
      have hq_ne4 : q ≠ ((f : Int), rc2) := by
        intro hh
        rw [hh, hQ_rc] at hq
        exact Option.noConfusion hq
      have hgq : getPieza t q = some pz := by
        rw [← hQ_otro q hq_ne1 hq_ne2 hq_ne3 hq_ne4]
        exact hq
      have hqv : esPosicionValida q = true := esPosicionValida_of_getPieza_eq_some hgq
      have hrd_occ : getPieza (prepararEnroque t pieza.color corto pieza torre)
          ((f : Int), rd2) ≠ none := by
        rw [hQ_rd]
        exact fun hh => Option.noConfusion hh
      have hespt : amenazaEspec t q pz ((f : Int), kc) := by
        cases htq : pz.tipo with
        | peon =>
          simp only [amenazaEspec, htq] at hesp ⊢
          exact hesp
        | caballo =>
          simp only [amenazaEspec, htq] at hesp ⊢
          exact hesp
        | rey =>
          simp only [amenazaEspec, htq] at hesp ⊢
          exact hesp
        | torre =>
          simp only [amenazaEspec, htq] at hesp ⊢
          exact ⟨hesp.1, entreLibre_enroque_transfer hcols hQ_otro hrd_occ hqv
            (Or.inl hesp.1) hesp.2⟩
        | alfil =>
          simp only [amenazaEspec, htq] at hesp ⊢
          exact ⟨hesp.1, entreLibre_enroque_transfer hcols hQ_otro hrd_occ hqv
            (Or.inr hesp.1) hesp.2⟩
        | reina =>
          simp only [amenazaEspec, htq] at hesp ⊢
          exact ⟨hesp.1, entreLibre_enroque_transfer hcols hQ_otro hrd_occ hqv
            hesp.1 hesp.2⟩
      have hatk : esCasillaAmenazada t ((f : Int), kc) pieza.color.opuesto = true := by
        rw [esCasillaAmenazada_iff_espec t ((f : Int), kc) pieza.color.opuesto hv_kd hcons]
        exact ⟨q, pz, hgq, hpzc, hespt⟩
      rw [hatk] at hamenkd
      exact Bool.noConfusion hamenkd
  have hepQ : epRespaldado (prepararEnroque t pieza.color corto pieza torre) = true := by
    unfold epRespaldado
    rw [prepararEnroque_alPaso t pieza.color corto pieza torre]
  exact ⟨hconsQ, ⟨(hcount .blanco).trans hreyes.1, (hcount .negro).trans hreyes.2⟩,
    hksQ, hepQ⟩

/-- `JuegoDeAjedrez.realizar_movimiento`'s castle dispatch: the moved
piece is a king displaced two columns. -/
def esDespachoEnroque (t : Tablero) (o d : Int × Int) : Bool :=
  match getPieza t o with
  | some pz => decide (pz.tipo = TipoPieza.rey) && decide (|o.2 - d.2| = 2)
  | none => false

/-- A legal move taken through the castle dispatch preserves the
reachability invariant. -/
theorem enroque_preserva {t : Tablero} {o d : Int × Int} {ok : Bool} {t' : Tablero}
    (hinv : invariante t)
    (hmem : (o, d) ∈ obtener_todos_movimientos_legales t (turnoColor t))
    (hdesp : esDespachoEnroque t o d = true)
    (hexec : ejecutar_enroque t (turnoColor t) (decide (o.2 < d.2)) = (ok, t')) :
    invariante t' := by
  obtain ⟨hcons, hreyes, hks, hep⟩ := hinv
  obtain ⟨pieza, hgo, hcol, hbru, hseg⟩ := mem_legales hmem
  have hpos : pieza.posicion = o := consistente_getPieza hcons hgo
  simp only [esDespachoEnroque] at hdesp
  rw [hgo] at hdesp
  have hdesp' : (decide (pieza.tipo = TipoPieza.rey) && decide (|o.2 - d.2| = 2)) =
      true := hdesp
  rw [Bool.and_eq_true] at hdesp'
  have htipo : pieza.tipo = TipoPieza.rey := of_decide_eq_true hdesp'.1
  have habs : |o.2 - d.2| = 2 := of_decide_eq_true hdesp'.2
  have habs2 : |pieza.posicion.2 - d.2| = 2 := by
    rw [hpos]
    exact habs
  obtain ⟨corto, hc, hdeq, hiff⟩ := rey_dos_columnas htipo hbru habs2
  rw [hpos] at hiff
  have hco : decide (o.2 < d.2) = corto := by
    cases hb : corto with
    | true => exact decide_eq_true (hiff.mp hb)
    | false =>
      refine decide_eq_false (fun hlt => ?_)
      have h3 := hiff.mpr hlt
      rw [hb] at h3
      exact Bool.noConfusion h3
  rw [← hcol, hco] at hexec
  simp only [ejecutar_enroque] at hexec
  have hc2 := hc
  simp only [condicionesEnroque, Bool.and_eq_true] at hc2
  have hposf : pieza.posicion =
      ((if pieza.color = Color.blanco then (0:Int) else 7), 4) :=
    of_decide_eq_true hc2.1.1.1.1.1.1
  have ho4 : o = ((if pieza.color = Color.blanco then (0:Int) else 7), 4) :=
    hpos.symm.trans hposf
  have hgk : getPieza t ((if pieza.color = Color.blanco then (0:Int) else 7), 4) =
      some pieza := by
    rw [← ho4]
    exact hgo
  cases hgr : getPieza t ((if pieza.color = Color.blanco then (0:Int) else 7),
      if corto then (7:Int) else 0) with
  | none =>
    exfalso
    have h4 := hc2.1.1.1.2
    rw [hgr] at h4
    exact Bool.noConfusion h4
  | some torre =>
    rw [hgk, hgr] at hexec
    simp only [ejecutarEnroqueCon] at hexec
    have htt : torre.tipo = TipoPieza.torre := by
      have h4 := hc2.1.1.1.2
      rw [hgr] at h4
      have h4' : (decide (torre.tipo = TipoPieza.torre ∧ torre.color = pieza.color) &&
          ! torre.se_ha_movido) = true := h4
      rw [Bool.and_eq_true] at h4'
      exact (of_decide_eq_true h4'.1).1
    rw [if_pos ⟨htipo, htt⟩] at hexec
    injection hexec with h1 h2
    rw [← h2]
    exact enroque_invariante_general hcons hreyes hcol htipo hc hgk hgr

/-- The standard initial position (`Tablero.inicializarTablero`). -/
def tableroInicial : Tablero := tableroDePiezas
  [⟨.blanco, .torre, (0, 0), false⟩, ⟨.blanco, .caballo, (0, 1), false⟩,
    ⟨.blanco, .alfil, (0, 2), false⟩, ⟨.blanco, .reina, (0, 3), false⟩,
    ⟨.blanco, .rey, (0, 4), false⟩, ⟨.blanco, .alfil, (0, 5), false⟩,
    ⟨.blanco, .caballo, (0, 6), false⟩, ⟨.blanco, .torre, (0, 7), false⟩,
    ⟨.blanco, .peon, (1, 0), false⟩, ⟨.blanco, .peon, (1, 1), false⟩,
    ⟨.blanco, .peon, (1, 2), false⟩, ⟨.blanco, .peon, (1, 3), false⟩,
    ⟨.blanco, .peon, (1, 4), false⟩, ⟨.blanco, .peon, (1, 5), false⟩,
    ⟨.blanco, .peon, (1, 6), false⟩, ⟨.blanco, .peon, (1, 7), false⟩,
    ⟨.negro, .peon, (6, 0), false⟩, ⟨.negro, .peon, (6, 1), false⟩,
    ⟨.negro, .peon, (6, 2), false⟩, ⟨.negro, .peon, (6, 3), false⟩,
    ⟨.negro, .peon, (6, 4), false⟩, ⟨.negro, .peon, (6, 5), false⟩,
    ⟨.negro, .peon, (6, 6), false⟩, ⟨.negro, .peon, (6, 7), false⟩,
    ⟨.negro, .torre, (7, 0), false⟩, ⟨.negro, .caballo, (7, 1), false⟩,
    ⟨.negro, .alfil, (7, 2), false⟩, ⟨.negro, .reina, (7, 3), false⟩,
    ⟨.negro, .rey, (7, 4), false⟩, ⟨.negro, .alfil, (7, 5), false⟩,
    ⟨.negro, .caballo, (7, 6), false⟩, ⟨.negro, .torre, (7, 7), false⟩]

theorem invariante_inicial : invariante tableroInicial := by
  refine ⟨by decide, by decide, by decide, by decide⟩

/-- The board states reachable from the initial position through the
public mutating operations: `ejecutar_movimiento_normal` on a move drawn
from the legal-move enumeration (when the game's dispatch does not route
it to castling), and `ejecutar_enroque` (when it does). -/
inductive Alcanzable : Tablero → Prop
  | inicial : Alcanzable tableroInicial
  | normal : ∀ {t : Tablero} {o d : Int × Int} {res : ResultadoMovimiento} {t2 : Tablero},
      Alcanzable t → (o, d) ∈ obtener_todos_movimientos_legales t (turnoColor t) →
      esDespachoEnroque t o d = false →
      ejecutar_movimiento_normal t o d = (res, t2) → Alcanzable t2
  | enroque : ∀ {t : Tablero} {o d : Int × Int} {ok : Bool} {t2 : Tablero},
      Alcanzable t → (o, d) ∈ obtener_todos_movimientos_legales t (turnoColor t) →
      esDespachoEnroque t o d = true →
      ejecutar_enroque t (turnoColor t) (decide (o.2 < d.2)) = (ok, t2) → Alcanzable t2

/-- C2: starting from the standard initial position, every board state
reachable by executing the public mutating operations — a move drawn
from `obtener_todos_movimientos_legales` executed by
`ejecutar_movimiento_normal`, or routed by the game's dispatch to
`ejecutar_enroque` — contains exactly one king of each colour on the
grid. -/
theorem C2_un_rey_por_color (t : Tablero) (h : Alcanzable t) : unReyPorColor t := by
  have hinv : invariante t := by
    induction h with
    | inicial => exact invariante_inicial
    | normal ha hmem hdesp hexec ih => exact normal_preserva ih hmem hexec
    | enroque ha hmem hdesp hexec ih => exact enroque_preserva ih hmem hdesp hexec
  exact hinv.2.1

theorem C2_witness : Alcanzable tableroInicial ∧ unReyPorColor tableroInicial :=
  ⟨Alcanzable.inicial, C2_un_rey_por_color tableroInicial Alcanzable.inicial⟩
